import Mathlib

/-!
# xserver thread pool (`src/threadpool/threadpool.c`, `threadpool.h`)

A shallow embedding of the bounded job queue and of the three routines that
share it (`threadpool_add_job`, `threadpool_worker`, `threadpool_destroy`),
plus `threadpool_init`.

* Job records live in a heap `Addr → Option xserver_job`; `none` is
  unallocated memory and the C `NULL` pointer is `Option.none` of an address.
* `int` fields are `Int`; `++` and `--` reduce through `wrap32`.
* Results of `malloc`, `pthread_mutex_lock`, `pthread_mutex_unlock` and of the
  worker's `pthread_cond_wait` are inputs of the embedded routines.
* The concurrent system is a labelled step function `step`; every
  stretch of code that runs with the mutex held is one step.
-/

namespace XServer

/-! ## Data model (`threadpool.h`) -/

/-- Address of a job record. -/
abbrev Addr := Nat

/-- Largest value of a C `int`. -/
def INT_MAX : Int := 2147483647

/-- Reduction of an integer to the 32-bit two's-complement range of `int`. -/
def wrap32 (x : Int) : Int := (x + 2147483648) % 4294967296 - 2147483648

/-- Record `struct _xserver_job`: function pointer, opaque argument and link.
A function pointer is a number, `0` being `NULL`. -/
structure xserver_job where
  callback : Nat
  args : Nat
  next : Option Addr
deriving DecidableEq, Repr

/-- Record `struct _xsever_threadpool`, without the thread handles, the mutex
and the condition variables (their behaviour is part of the step function). -/
structure xserver_threadpool where
  thread_number : Int
  queue_max_job_num : Int
  queue_cur_job_num : Int
  queue_head : Option Addr
  queue_tail : Option Addr
  queue_close : Int
  pool_close : Int
deriving DecidableEq, Repr

/-- Memory holding job records. -/
abbrev Heap := Addr → Option xserver_job

/-- Heap with the cell at `a` replaced. -/
def Heap.set (h : Heap) (a : Addr) (v : Option xserver_job) : Heap :=
  fun x => if x = a then v else h x

/-- Heap without any job record. -/
def Heap.empty : Heap := fun _ => none

/-- Shared memory seen by a critical section: the pool record and the job records. -/
structure Mem where
  pool : xserver_threadpool
  heap : Heap

/-! ## `threadpool_init` (lines 53-100) -/

/-- Results of the fallible library calls made by `threadpool_init`, in source order. -/
structure InitEnv where
  pool_alloc : Bool
  mutex_init : Bool
  cond_queue_empty : Bool
  cond_queue_not_full : Bool
  cond_queue_not_empty : Bool
  pthreads_alloc : Bool
deriving DecidableEq, Repr

/-- Ways in which `threadpool_init` ends. `spawns` lists the indices `i` for
which `pthread_create(&pthreads[i], NULL, threadpool_worker, pool)` was issued. -/
inductive InitResult
  | assert_failed
  | process_exit
  | returned_null (pool_released : Bool) (spawns : List Nat)
  | returned_pool (p : xserver_threadpool) (spawns : List Nat)
deriving DecidableEq, Repr

/-- Field values written by lines 65-71. -/
def init_pool (thread_number queue_max_job_num : Int) : xserver_threadpool :=
  { thread_number := thread_number
    queue_max_job_num := queue_max_job_num
    queue_cur_job_num := 0
    queue_head := none
    queue_tail := none
    queue_close := 0
    pool_close := 0 }

/-- Function `threadpool_init`. -/
def threadpool_init (env : InitEnv) (thread_number queue_max_job_num : Int) : InitResult :=
  if ¬ (thread_number > 0) then .assert_failed
  else if ¬ (queue_max_job_num > 0) then .assert_failed
  else if ¬ env.pool_alloc then .returned_null false []
  else
    let pool := init_pool thread_number queue_max_job_num
    if ¬ env.mutex_init then .process_exit
    else if ¬ env.cond_queue_empty then .process_exit
    else if ¬ env.cond_queue_not_full then .process_exit
    else if ¬ env.cond_queue_not_empty then .process_exit
    else if ¬ env.pthreads_alloc then .returned_null true []
    else .returned_pool pool (List.range pool.thread_number.toNat)

/-! ## `threadpool_add_job` (lines 115-167) -/

/-- Ways in which a stretch of `threadpool_add_job` ends.
* `wait`: suspended in `pthread_cond_wait(queue_not_full)` (line 129);
* `rejected m`: `return -1` at line 124, 135 or 143, leaving memory `m`;
* `enqueued m unlock_ok`: lines 146-157 ran, leaving memory `m`, and
  `CRITICAL_OUT` (line 159) found `pthread_mutex_unlock` succeeding or not. -/
inductive AddOutcome
  | assert_failed
  | fault
  | wait
  | rejected (m : Mem)
  | enqueued (m : Mem) (unlock_ok : Bool)

/-- Value returned to the caller, when the stretch ends in a `return`. -/
def AddOutcome.rc : AddOutcome → Option Int
  | .rejected _ => some (-1)
  | .enqueued _ true => some 0
  | .enqueued _ false => some (-1)
  | _ => none

/-- Memory left by the stretch, `m0` being the memory it started from. -/
def AddOutcome.mem (m0 : Mem) : AddOutcome → Mem
  | .rejected m => m
  | .enqueued m _ => m
  | _ => m0

/-- Lines 146-157: fill the record at `a` and link it at the tail.
`none` is a dereference of `NULL` or of unallocated memory. -/
def link_job (m : Mem) (callback args : Nat) (a : Addr) : Option Mem :=
  let heap1 := m.heap.set a (some { callback := callback, args := args, next := none })
  let linked : Option Mem :=
    if m.pool.queue_cur_job_num = 0 then
      some { pool := { m.pool with queue_head := some a, queue_tail := some a }, heap := heap1 }
    else
      match m.pool.queue_tail with
      | none => none
      | some t =>
        match heap1 t with
        | none => none
        | some r =>
          some { pool := { m.pool with queue_tail := some a }
                 heap := heap1.set t (some { r with next := some a }) }
  match linked with
  | none => none
  | some m1 =>
    some { m1 with pool := { m1.pool with
      queue_cur_job_num := wrap32 (m1.pool.queue_cur_job_num + 1) } }

/-- Lines 126-166 from the head of the `while` loop, the mutex held.
`job` is the result of `malloc` at line 139. -/
def add_job_locked (m : Mem) (callback args : Nat) (job : Option Addr)
    (unlock_ok : Bool) : AddOutcome :=
  if m.pool.queue_cur_job_num = m.pool.queue_max_job_num ∧ m.pool.queue_close = 0 then .wait
  else if m.pool.queue_close ≠ 0 then .rejected m
  else
    match job with
    | none => .rejected m
    | some a =>
      match link_job m callback args a with
      | none => .fault
      | some m2 => .enqueued m2 unlock_ok

/-- Function `threadpool_add_job` from its entry: the assertion on `callback`,
`CRITICAL_IN(RTN_FAILURE)` and then the loop. -/
def threadpool_add_job (m : Mem) (callback args : Nat) (lock_ok : Bool)
    (job : Option Addr) (unlock_ok : Bool) : AddOutcome :=
  if callback = 0 then .assert_failed
  else if ¬ lock_ok then .rejected m
  else add_job_locked m callback args job unlock_ok

/-! ## `threadpool_worker` (lines 179-230) -/

/-- Ways in which one stretch of the worker loop ends.
* `wait`: suspended in `pthread_cond_wait(queue_not_empty)` (line 190);
* `exit_thread`: `pthread_exit` at line 186, 193 or 200, memory untouched;
* `popped m job se bnf unlock_ok`: lines 204-221 ran leaving `m`, `job` is the
  pointer taken from `queue_head`, `se` tells whether `queue_empty` was
  signalled (line 215), `bnf` whether `queue_not_full` was broadcast
  (line 220), `unlock_ok` the result seen by `CRITICAL_OUT(EXT_FAILURE)`. -/
inductive WorkerOutcome
  | fault
  | wait
  | exit_thread
  | popped (m : Mem) (job : Option Addr) (signal_empty broadcast_not_full unlock_ok : Bool)

/-- Lines 204-211: take the head record off the list. -/
def pop_job (m : Mem) : Option (xserver_threadpool × Option Addr) :=
  let job := m.pool.queue_head
  let cur := wrap32 (m.pool.queue_cur_job_num - 1)
  if cur = 0 then
    some ({ m.pool with queue_cur_job_num := cur, queue_head := none, queue_tail := none }, job)
  else
    match job with
    | none => none
    | some a =>
      match m.heap a with
      | none => none
      | some r => some ({ m.pool with queue_cur_job_num := cur, queue_head := r.next }, job)

/-- Lines 188-223 from the head of the inner `while` loop, the mutex held. -/
def worker_locked (m : Mem) (unlock_ok : Bool) : WorkerOutcome :=
  if m.pool.queue_cur_job_num = 0 ∧ m.pool.pool_close = 0 then .wait
  else if m.pool.pool_close ≠ 0 then .exit_thread
  else
    match pop_job m with
    | none => .fault
    | some (p, job) =>
      .popped { pool := p, heap := m.heap } job
        (decide (p.queue_cur_job_num = 0))
        (decide (p.queue_cur_job_num = wrap32 (p.queue_max_job_num - 1)))
        unlock_ok

/-- One stretch of `threadpool_worker`: `acquired` is the result of
`pthread_mutex_lock` (line 186) or of the `pthread_cond_wait` the worker is
returning from (line 190); on failure the thread exits. -/
def threadpool_worker (m : Mem) (acquired unlock_ok : Bool) : WorkerOutcome :=
  if ¬ acquired then .exit_thread
  else worker_locked m unlock_ok

/-- Lines 226-227: the call `(*(job->callback))(job->args)` and `free(job)`.
Gives the `(callback, args)` pair invoked and the heap after the `free`. -/
def run_job (h : Heap) (job : Option Addr) : Option ((Nat × Nat) × Heap) :=
  match job with
  | none => none
  | some a =>
    match h a with
    | none => none
    | some r => some ((r.callback, r.args), h.set a none)

/-! ## `threadpool_destroy` (lines 243-290) -/

/-- Ways in which a stretch of `threadpool_destroy` under the mutex ends.
* `wait p`: suspended in `pthread_cond_wait(queue_empty)` (line 258);
* `rejected p`: `return -1` at line 247, 252 or 264;
* `unlocked p`: past `CRITICAL_OUT` at line 264, lines 266-289 follow. -/
inductive DestroyOutcome
  | wait (p : xserver_threadpool)
  | rejected (p : xserver_threadpool)
  | unlocked (p : xserver_threadpool)
deriving DecidableEq, Repr

/-- Lines 257-264 from the head of the `while` loop, the mutex held. -/
def destroy_drain (p : xserver_threadpool) (unlock_ok : Bool) : DestroyOutcome :=
  if p.queue_cur_job_num ≠ 0 then .wait p
  else
    let p1 := { p with pool_close := 1 }
    if unlock_ok then .unlocked p1 else .rejected p1

/-- Function `threadpool_destroy` from its entry up to the end of its critical section. -/
def threadpool_destroy (p : xserver_threadpool) (lock_ok unlock_ok : Bool) : DestroyOutcome :=
  if ¬ lock_ok then .rejected p
  else if p.queue_close ≠ 0 ∨ p.pool_close ≠ 0 then .rejected p
  else destroy_drain { p with queue_close := 1 } unlock_ok

/-- Lines 281-286: free the records still linked from `queue_head`.
Gives the heap, the final `queue_head` and the number of iterations;
`none` when a record is not allocated or the fuel does not reach `NULL`. -/
def free_queue (h : Heap) (head : Option Addr) : Nat → Option (Heap × Nat)
  | 0 =>
    match head with
    | none => some (h, 0)
    | some _ => none
  | fuel + 1 =>
    match head with
    | none => some (h, 0)
    | some a =>
      match h a with
      | none => none
      | some r =>
        match free_queue (h.set a none) r.next fuel with
        | none => none
        | some (h1, k) => some (h1, k + 1)

/-! ## The concurrent system

Every call of `threadpool_add_job` and of `threadpool_destroy` has a number of
its own; worker `i` is the thread started by the `i`-th `pthread_create`.
A step is one stretch of code run with the mutex held, or one of the
statements that follow a critical section. A thread suspended in
`pthread_cond_wait` is `waiting` until a signal, a broadcast or a spurious
wake-up makes it `woken`; it then runs its next stretch like any other thread.
`pthread_cond_signal` and `pthread_cond_broadcast` are taken to succeed (their
result changes no control flow in the source) and so is `pthread_create`
(its result is ignored by the source).
-/

/-- Where a call of `threadpool_add_job` stands. -/
inductive ProducerState
  | idle
  | called (callback args : Nat)
  | waiting (callback args : Nat)
  | woken (callback args : Nat)
  | signalling (callback args : Nat)
  | returned (rc : Int)
deriving DecidableEq, Repr

/-- Where a worker thread stands. `holding job`: past line 223 with the popped
pointer `job`, lines 226-227 not yet run. -/
inductive WorkerState
  | absent
  | top
  | waiting
  | woken
  | holding (job : Option Addr)
  | exited
deriving DecidableEq, Repr

/-- Where a call of `threadpool_destroy` stands. `unlocked`: line 266 is next;
`broadcast_done`: line 267 is next; `joining i`: the loop of lines 270-272
with loop variable `i`. -/
inductive DestroyState
  | idle
  | called
  | waiting
  | woken
  | unlocked
  | broadcast_done
  | joining (i : Nat)
  | returned (rc : Int)
deriving DecidableEq, Repr

/-- State of the whole system. The last block of fields is history:
`appended` and `popped` list the `(callback, args)` pairs in the order lines
146-157 and lines 204-211 ran, `executed` the pairs in the order line 226 ran,
`accepted` the pairs of the calls that returned 0; `passes` counts the calls of
`threadpool_destroy` that got past the check of line 250, `joins` the
`pthread_join` calls that returned, `frees` the executions of line 288. -/
structure Sys where
  pool : xserver_threadpool
  heap : Heap
  workers : Nat → WorkerState
  nprod : Nat
  producers : Nat → ProducerState
  ndestroy : Nat
  destroyers : Nat → DestroyState
  appended : List (Nat × Nat)
  popped : List (Nat × Nat)
  executed : List (Nat × Nat)
  accepted : List (Nat × Nat)
  passes : Nat
  joins : Nat
  frees : Nat

/-- State left by a successful `threadpool_init`: the fields of lines 65-71
and one worker per `pthread_create` of line 94. -/
def sysInit (thread_number queue_max_job_num : Int) : Sys :=
  { pool := init_pool thread_number queue_max_job_num
    heap := Heap.empty
    workers := fun i => if (i : Int) < thread_number then .top else .absent
    nprod := 0
    producers := fun _ => .idle
    ndestroy := 0
    destroyers := fun _ => .idle
    appended := []
    popped := []
    executed := []
    accepted := []
    passes := 0
    joins := 0
    frees := 0 }

/-- Labels of the steps, with the thread that moves and the results of the
library calls it makes. -/
inductive Action
  | call_add (callback args : Nat)
  | add_enter (i : Nat) (lock_ok : Bool) (job : Option Addr) (unlock_ok : Bool)
  | add_wake (i : Nat)
  | add_signal (i : Nat) (tgt : Option Nat)
  | worker_enter (i : Nat) (acquired unlock_ok : Bool) (tgt : Option Nat)
  | worker_wake (i : Nat)
  | worker_run (i : Nat)
  | call_destroy
  | destroy_enter (d : Nat) (lock_ok unlock_ok : Bool)
  | destroy_wake (d : Nat)
  | destroy_broadcast_not_empty (d : Nat)
  | destroy_broadcast_not_full (d : Nat)
  | destroy_join (d : Nat)
  | destroy_teardown (d : Nat) (fuel : Nat)
deriving DecidableEq, Repr

/-- Function table with entry `i` replaced. -/
def setAt {α : Type} (f : Nat → α) (i : Nat) (v : α) : Nat → α :=
  fun j => if j = i then v else f j

/-- Choice made by `pthread_cond_signal` among the first `n` threads:
`some t` is a thread that is waiting, `none` is allowed only when no thread is. -/
def signalChoice (n : Nat) (isWaiting : Nat → Bool) (tgt : Option Nat) : Bool :=
  match tgt with
  | some t => decide (t < n) && isWaiting t
  | none => (List.range n).all (fun i => !isWaiting i)

/-- Whether worker state `w` is `waiting`. -/
def WorkerState.isWaiting (w : WorkerState) : Bool := decide (w = .waiting)

/-- Whether destroy-call state `d` is `waiting`. -/
def DestroyState.isWaiting (d : DestroyState) : Bool := decide (d = .waiting)

/-- Effect of a wake-up on a call of `threadpool_add_job`. -/
def ProducerState.wake : ProducerState → ProducerState
  | .waiting c a => .woken c a
  | p => p

/-- Effect of a wake-up on a worker. -/
def WorkerState.wake : WorkerState → WorkerState
  | .waiting => .woken
  | w => w

/-- Effect of a wake-up on a call of `threadpool_destroy`. -/
def DestroyState.wake : DestroyState → DestroyState
  | .waiting => .woken
  | d => d

/-- Workers after `pthread_cond_signal(queue_not_empty)` chose `tgt`. -/
def signal_not_empty (s : Sys) (tgt : Option Nat) : Nat → WorkerState :=
  match tgt with
  | some t => setAt s.workers t (s.workers t).wake
  | none => s.workers

/-- Destroy calls after `pthread_cond_signal(queue_empty)` chose `tgt`. -/
def signal_empty (s : Sys) (tgt : Option Nat) : Nat → DestroyState :=
  match tgt with
  | some t => setAt s.destroyers t (s.destroyers t).wake
  | none => s.destroyers

/-- The `(callback, args)` pair stored in the record `job` points to. -/
def jobContent (h : Heap) (job : Option Addr) : List (Nat × Nat) :=
  match job with
  | none => []
  | some a =>
    match h a with
    | none => []
    | some r => [(r.callback, r.args)]

/-- What `malloc` may return: `NULL`, or memory that is not in use. -/
def mallocResult (h : Heap) (job : Option Addr) : Bool :=
  match job with
  | none => true
  | some a => (h a).isNone

/-- A new call of `threadpool_add_job(pool, callback, args)`. -/
def step_call_add (s : Sys) (callback args : Nat) : Option Sys :=
  some { s with nprod := s.nprod + 1
                producers := setAt s.producers s.nprod (.called callback args) }

/-- System after call `i` ran a stretch of `threadpool_add_job` ending in `o`. -/
def add_apply (s : Sys) (i : Nat) (callback args : Nat) : AddOutcome → Option Sys
  | .assert_failed => none
  | .fault => none
  | .wait => some { s with producers := setAt s.producers i (.waiting callback args) }
  | .rejected m =>
    some { s with pool := m.pool, heap := m.heap
                  producers := setAt s.producers i (.returned (-1)) }
  | .enqueued m unlock_ok =>
    some { s with pool := m.pool, heap := m.heap
                  appended := s.appended ++ [(callback, args)]
                  producers := setAt s.producers i
                    (if unlock_ok then .signalling callback args else .returned (-1)) }

/-- Call `i` runs from line 124 (when `called`) or from its return out of
`pthread_cond_wait` (when `woken`) to the end of its critical section.
`malloc` gives `NULL` or memory that is not in use. -/
def step_add_enter (s : Sys) (i : Nat) (lock_ok : Bool) (job : Option Addr)
    (unlock_ok : Bool) : Option Sys :=
  if ¬ mallocResult s.heap job then none
  else
    match s.producers i with
    | .called c a =>
      add_apply s i c a (threadpool_add_job ⟨s.pool, s.heap⟩ c a lock_ok job unlock_ok)
    | .woken c a =>
      add_apply s i c a (add_job_locked ⟨s.pool, s.heap⟩ c a job unlock_ok)
    | _ => none

/-- Spurious wake-up of call `i` out of `pthread_cond_wait(queue_not_full)`. -/
def step_add_wake (s : Sys) (i : Nat) : Option Sys :=
  match s.producers i with
  | .waiting c a => some { s with producers := setAt s.producers i (.woken c a) }
  | _ => none

/-- Lines 162-166 of call `i`: signal `queue_not_empty`, `return 0`. -/
def step_add_signal (s : Sys) (i : Nat) (tgt : Option Nat) : Option Sys :=
  match s.producers i with
  | .signalling c a =>
    if signalChoice s.pool.thread_number.toNat (fun w => (s.workers w).isWaiting) tgt then
      some { s with workers := signal_not_empty s tgt
                    producers := setAt s.producers i (.returned 0)
                    accepted := s.accepted ++ [(c, a)] }
    else none
  | _ => none

/-- System after worker `i` ran a stretch of `threadpool_worker` ending in `o`;
`tgt` is the choice made by `pthread_cond_signal(queue_empty)`. -/
def worker_apply (s : Sys) (i : Nat) (tgt : Option Nat) : WorkerOutcome → Option Sys
  | .fault => none
  | .wait => some { s with workers := setAt s.workers i .waiting }
  | .exit_thread => some { s with workers := setAt s.workers i .exited }
  | .popped m job se bnf unlock_ok =>
    if se && !signalChoice s.ndestroy (fun d => (s.destroyers d).isWaiting) tgt then none
    else
      some { s with pool := m.pool, heap := m.heap
                    popped := s.popped ++ jobContent s.heap job
                    destroyers := if se then signal_empty s tgt else s.destroyers
                    producers := if bnf then fun j => (s.producers j).wake else s.producers
                    workers := setAt s.workers i (if unlock_ok then .holding job else .exited) }

/-- Worker `i` runs from line 186 (when `top`) or from its return out of
`pthread_cond_wait` (when `woken`) to the end of its critical section. -/
def step_worker_enter (s : Sys) (i : Nat) (acquired unlock_ok : Bool)
    (tgt : Option Nat) : Option Sys :=
  match s.workers i with
  | .top => worker_apply s i tgt (threadpool_worker ⟨s.pool, s.heap⟩ acquired unlock_ok)
  | .woken => worker_apply s i tgt (threadpool_worker ⟨s.pool, s.heap⟩ acquired unlock_ok)
  | _ => none

/-- Spurious wake-up of worker `i` out of `pthread_cond_wait(queue_not_empty)`. -/
def step_worker_wake (s : Sys) (i : Nat) : Option Sys :=
  match s.workers i with
  | .waiting => some { s with workers := setAt s.workers i .woken }
  | _ => none

/-- Lines 226-228 of worker `i`, which then is back at the top of its loop. -/
def step_worker_run (s : Sys) (i : Nat) : Option Sys :=
  match s.workers i with
  | .holding job =>
    match run_job s.heap job with
    | none => none
    | some (c, h) =>
      some { s with heap := h, executed := s.executed ++ [c]
                    workers := setAt s.workers i .top }
  | _ => none

/-- A new call of `threadpool_destroy(pool)`. -/
def step_call_destroy (s : Sys) : Option Sys :=
  some { s with ndestroy := s.ndestroy + 1
                destroyers := setAt s.destroyers s.ndestroy .called }

/-- Next state of a destroy call whose stretch ended in `o`. -/
def DestroyOutcome.next : DestroyOutcome → DestroyState
  | .wait _ => .waiting
  | .rejected _ => .returned (-1)
  | .unlocked _ => .unlocked

/-- Pool record left by a stretch of `threadpool_destroy`. -/
def DestroyOutcome.pool : DestroyOutcome → xserver_threadpool
  | .wait p => p
  | .rejected p => p
  | .unlocked p => p

/-- Call `d` runs from line 247 (when `called`) or from its return out of
`pthread_cond_wait` (when `woken`) to the end of its critical section. -/
def step_destroy_enter (s : Sys) (d : Nat) (lock_ok unlock_ok : Bool) : Option Sys :=
  match s.destroyers d with
  | .called =>
    let o := threadpool_destroy s.pool lock_ok unlock_ok
    some { s with pool := o.pool
                  destroyers := setAt s.destroyers d o.next
                  passes := if lock_ok ∧ ¬ (s.pool.queue_close ≠ 0 ∨ s.pool.pool_close ≠ 0)
                            then s.passes + 1 else s.passes }
  | .woken =>
    let o := destroy_drain s.pool unlock_ok
    some { s with pool := o.pool, destroyers := setAt s.destroyers d o.next }
  | _ => none

/-- Spurious wake-up of call `d` out of `pthread_cond_wait(queue_empty)`. -/
def step_destroy_wake (s : Sys) (d : Nat) : Option Sys :=
  match s.destroyers d with
  | .waiting => some { s with destroyers := setAt s.destroyers d .woken }
  | _ => none

/-- Line 266 of call `d`: `pthread_cond_broadcast(queue_not_empty)`. -/
def step_destroy_broadcast_not_empty (s : Sys) (d : Nat) : Option Sys :=
  match s.destroyers d with
  | .unlocked =>
    some { s with workers := fun i => (s.workers i).wake
                  destroyers := setAt s.destroyers d .broadcast_done }
  | _ => none

/-- Line 267 of call `d`: `pthread_cond_broadcast(queue_not_full)`. -/
def step_destroy_broadcast_not_full (s : Sys) (d : Nat) : Option Sys :=
  match s.destroyers d with
  | .broadcast_done =>
    some { s with producers := fun i => (s.producers i).wake
                  destroyers := setAt s.destroyers d (.joining 0) }
  | _ => none

/-- One iteration of lines 270-272 of call `d`: `pthread_join` returns once
worker `i` has exited. -/
def step_destroy_join (s : Sys) (d : Nat) : Option Sys :=
  match s.destroyers d with
  | .joining i =>
    if (i : Int) < s.pool.thread_number ∧ s.workers i = .exited then
      some { s with destroyers := setAt s.destroyers d (.joining (i + 1))
                    joins := s.joins + 1 }
    else none
  | _ => none

/-- Lines 274-289 of call `d`, after the last iteration of the join loop:
the remaining records and the pool record are freed and 0 is returned. The
field values of the freed pool record are kept as they were at line 288. -/
def step_destroy_teardown (s : Sys) (d : Nat) (fuel : Nat) : Option Sys :=
  match s.destroyers d with
  | .joining i =>
    if (i : Int) < s.pool.thread_number then none
    else
      match free_queue s.heap s.pool.queue_head fuel with
      | none => none
      | some (h, _) =>
        some { s with heap := h
                      destroyers := setAt s.destroyers d (.returned 0)
                      frees := s.frees + 1 }
  | _ => none

/-- One step of the system; `none` when the action cannot be taken. No step
is defined once the pool record has been freed (line 288): any further access
to it is a use of released memory. A call with a `NULL` callback stops at the
assertion of line 122 and is not part of any run. -/
def step (s : Sys) (a : Action) : Option Sys :=
  if s.frees ≠ 0 then none
  else
    match a with
    | .call_add c x => if c = 0 then none else step_call_add s c x
    | .add_enter i lock_ok job unlock_ok => step_add_enter s i lock_ok job unlock_ok
    | .add_wake i => step_add_wake s i
    | .add_signal i tgt => step_add_signal s i tgt
    | .worker_enter i acquired unlock_ok tgt => step_worker_enter s i acquired unlock_ok tgt
    | .worker_wake i => step_worker_wake s i
    | .worker_run i => step_worker_run s i
    | .call_destroy => step_call_destroy s
    | .destroy_enter d lock_ok unlock_ok => step_destroy_enter s d lock_ok unlock_ok
    | .destroy_wake d => step_destroy_wake s d
    | .destroy_broadcast_not_empty d => step_destroy_broadcast_not_empty s d
    | .destroy_broadcast_not_full d => step_destroy_broadcast_not_full s d
    | .destroy_join d => step_destroy_join s d
    | .destroy_teardown d fuel => step_destroy_teardown s d fuel

/-- Run a list of actions from `s`; `none` when one of them cannot be taken. -/
def run (s : Sys) : List Action → Option Sys
  | [] => some s
  | a :: as =>
    match step s a with
    | none => none
    | some s1 => run s1 as

/-- An action in which every lock, unlock and condition wait succeeds. -/
def Action.syncOk : Action → Bool
  | .add_enter _ lock_ok _ unlock_ok => lock_ok && unlock_ok
  | .worker_enter _ acquired unlock_ok _ => acquired && unlock_ok
  | .destroy_enter _ lock_ok unlock_ok => lock_ok && unlock_ok
  | _ => true

/-- Records reached from `head` by following `next`, each with its address;
`none` when a record is not allocated or `NULL` is not reached within `fuel` records. -/
def readQueue (h : Heap) (head : Option Addr) : Nat → Option (List (Addr × xserver_job))
  | 0 =>
    match head with
    | none => some []
    | some _ => none
  | fuel + 1 =>
    match head with
    | none => some []
    | some a =>
      match h a with
      | none => none
      | some r =>
        match readQueue h r.next fuel with
        | none => none
        | some l => some ((a, r) :: l)

/-! ## Invariants -/

/-- Following `next` from pointer `p` visits the records at the addresses `l`,
in this order, and then reaches `NULL`. -/
def Chain (h : Heap) : Option Addr → List Addr → Prop
  | p, [] => p = none
  | p, a :: l => p = some a ∧ ∃ r, h a = some r ∧ Chain h r.next l

/-- The `(callback, args)` pair of the record at `a`. -/
def content (h : Heap) (a : Addr) : Nat × Nat :=
  match h a with
  | some r => (r.callback, r.args)
  | none => (0, 0)

/-- A call of `threadpool_destroy` that got past the check of line 250 and has
not returned -1. -/
def DestroyState.past : DestroyState → Bool
  | .waiting => true
  | .woken => true
  | .unlocked => true
  | .broadcast_done => true
  | .joining _ => true
  | .returned rc => decide (rc = 0)
  | _ => false

/-- A call of `threadpool_destroy` that left its critical section at line 264
with success. -/
def DestroyState.drained : DestroyState → Bool
  | .unlocked => true
  | .broadcast_done => true
  | .joining _ => true
  | .returned rc => decide (rc = 0)
  | _ => false

/-- Invariant of the system started by `threadpool_init n m`; `l` lists the
addresses of the queued records from head to tail. -/
structure Inv (n m : Int) (s : Sys) (l : List Addr) : Prop where
  tn : s.pool.thread_number = n
  mx : s.pool.queue_max_job_num = m
  len : s.pool.queue_cur_job_num = (l.length : Int)
  le_max : (l.length : Int) ≤ m
  chain : Chain s.heap s.pool.queue_head l
  tail : s.pool.queue_tail = l.getLast?
  nodup : l.Nodup
  fifo : s.appended = s.popped ++ l.map (content s.heap)
  held : ∀ i a, s.workers i = .holding (some a) → a ∉ l ∧ s.heap a ≠ none
  held_inj : ∀ i j a, s.workers i = .holding (some a) → s.workers j = .holding (some a) → i = j
  held_null : ∀ i, s.workers i ≠ .holding none
  wbound : ∀ i : Nat, ¬ ((i : Int) < n) → s.workers i = .absent
  pbound : ∀ i, s.nprod ≤ i → s.producers i = .idle
  dbound : ∀ d, s.ndestroy ≤ d → s.destroyers d = .idle
  close : s.pool.pool_close ≠ 0 → s.pool.queue_close ≠ 0 ∧ l = []
  past : ∀ d, (s.destroyers d).past = true → s.pool.queue_close ≠ 0
  drained : ∀ d, (s.destroyers d).drained = true → s.pool.pool_close ≠ 0
  uniq : ∀ d d', (s.destroyers d).past = true → (s.destroyers d').past = true → d = d'
  passes : s.passes = if s.pool.queue_close = 0 then 0 else 1
  frees : s.frees ≤ s.passes
  joins_le : s.joins ≤ n.toNat
  joining : ∀ d k, s.destroyers d = .joining k →
    s.joins = k ∧ ∀ i, i < k → s.workers i = .exited
  returned : ∀ d, s.destroyers d = .returned 0 → ∀ i : Nat, (i : Int) < n → s.workers i = .exited
  joins_zero : s.joins ≠ 0 →
    ∃ d, (∃ k, s.destroyers d = .joining k) ∨ s.destroyers d = .returned 0

/-- The pair a worker in state `w` has popped and not yet run. -/
def WorkerState.job (h : Heap) : WorkerState → List (Nat × Nat)
  | .holding j => jobContent h j
  | _ => []

/-- The pair a call of `threadpool_add_job` has appended while the call is
between line 159 and its `return 0`. -/
def ProducerState.job : ProducerState → List (Nat × Nat)
  | .signalling c a => [(c, a)]
  | _ => []

/-- Pairs popped by the first `k` workers and not yet run. -/
def heldJobs (s : Sys) (k : Nat) : List (Nat × Nat) :=
  (List.range k).flatMap (fun i => (s.workers i).job s.heap)

/-- Pairs appended by calls of `threadpool_add_job` that have not returned yet. -/
def inflightJobs (s : Sys) : List (Nat × Nat) :=
  (List.range s.nprod).flatMap (fun i => (s.producers i).job)

/-- Invariant of the runs in which every lock, unlock and wait succeeds. -/
structure SyncInv (n : Int) (s : Sys) : Prop where
  exec : (s.executed ++ heldJobs s n.toNat).Perm s.popped
  acc : (s.accepted ++ inflightJobs s).Perm s.appended

/-- A call of `threadpool_destroy` that has issued the broadcast on
`queue_not_empty` of line 266. -/
def DestroyState.announced : DestroyState → Bool
  | .broadcast_done => true
  | .joining _ => true
  | .returned rc => decide (rc = 0)
  | _ => false

/-- Invariant on the wait sets of the three condition variables: a call
suspended on `queue_not_full` sees a full queue, no worker is suspended on
`queue_not_empty` once the broadcast of line 266 is out, and a call suspended
on `queue_empty` sees a queue that is not empty. -/
structure WaitInv (s : Sys) : Prop where
  prod : ∀ i c x, s.producers i = .waiting c x →
    s.pool.queue_cur_job_num = s.pool.queue_max_job_num
  work : ∀ d, (s.destroyers d).announced = true → ∀ i, s.workers i ≠ .waiting
  drain : ∀ d, s.destroyers d = .waiting → s.pool.queue_cur_job_num ≠ 0

/-! ## Concrete states and runs -/

/-- A run of 4 workers on a queue of capacity 100: one job is accepted, the
shutdown starts while it is queued, a later submission is rejected, the job is
popped and run and the shutdown completes. -/
def shutdownTrace : List Action :=
  [.call_add 7 8, .add_enter 0 true (some 5) true, .add_signal 0 none, .call_destroy,
   .destroy_enter 0 true true, .call_add 9 10, .add_enter 1 true (some 6) true,
   .worker_enter 0 true true (some 0), .destroy_enter 0 true true, .worker_run 0,
   .destroy_broadcast_not_empty 0, .destroy_broadcast_not_full 0,
   .worker_enter 0 true true none, .worker_enter 1 true true none,
   .worker_enter 2 true true none, .worker_enter 3 true true none, .destroy_join 0,
   .destroy_join 0, .destroy_join 0, .destroy_join 0, .destroy_teardown 0 0]

/-- A run in which two jobs are queued and the first is popped again. -/
def popTrace : List Action :=
  [.call_add 7 8, .add_enter 0 true (some 5) true, .call_add 9 10,
   .add_enter 1 true (some 6) true, .worker_enter 0 true true none]

/-- A closed pool whose queue of capacity 2 is full: records at 5 and 6. -/
def closedFullMem : Mem :=
  { pool := { thread_number := 1, queue_max_job_num := 2, queue_cur_job_num := 2
              queue_head := some 5, queue_tail := some 6, queue_close := 1, pool_close := 0 }
    heap := (Heap.empty.set 5 (some { callback := 7, args := 8, next := some 6 })).set 6
              (some { callback := 9, args := 10, next := none }) }

/-- A pool of one worker on which a call of `threadpool_destroy` has closed
the queue and has been woken from its wait on `queue_empty`. -/
def drainingSys : Sys :=
  { sysInit 1 1 with
    pool := { init_pool 1 1 with queue_close := 1 }
    ndestroy := 1
    destroyers := setAt (fun _ => .idle) 0 .woken
    passes := 1 }

/-- An open pool whose queue of capacity 1 is full: one record at 5. -/
def openFullMem : Mem :=
  { pool := { thread_number := 1, queue_max_job_num := 1, queue_cur_job_num := 1
              queue_head := some 5, queue_tail := some 5, queue_close := 0, pool_close := 0 }
    heap := Heap.empty.set 5 (some { callback := 7, args := 8, next := none }) }

/-- Results of the library calls in which only `pthread_mutex_init` fails. -/
def mutexFailEnv : InitEnv :=
  { pool_alloc := true
    mutex_init := false
    cond_queue_empty := true
    cond_queue_not_full := true
    cond_queue_not_empty := true
    pthreads_alloc := true }

/-- Results of the library calls in which only the initialisation of
`queue_not_empty` fails. -/
def condFailEnv : InitEnv :=
  { pool_alloc := true
    mutex_init := true
    cond_queue_empty := true
    cond_queue_not_full := true
    cond_queue_not_empty := false
    pthreads_alloc := true }

/-- Call `j` submits a job on an empty queue; worker 0 pops and runs it. -/
def submitRunCycle (j : Nat) : List Action :=
  [.call_add 1 j, .add_enter j true (some 0) true, .add_signal j none,
   .worker_enter 0 true true none, .worker_run 0]

/-- The first `k` rounds of `submitRunCycle`. -/
def burstTrace : Nat → List Action
  | 0 => []
  | k + 1 => burstTrace k ++ submitRunCycle k

/-- A shutdown of an idle pool of 4 workers by call 0 of `threadpool_destroy`. -/
def closeTrace : List Action :=
  [.call_destroy, .destroy_enter 0 true true, .destroy_broadcast_not_empty 0,
   .destroy_broadcast_not_full 0, .worker_enter 0 true true none, .worker_enter 1 true true none,
   .worker_enter 2 true true none, .worker_enter 3 true true none, .destroy_join 0,
   .destroy_join 0, .destroy_join 0, .destroy_join 0, .destroy_teardown 0 0]

/-- State of the pool of 4 workers and capacity 100 after `k` rounds of
`submitRunCycle`. -/
structure BurstState (k : Nat) (s : Sys) : Prop where
  pool : s.pool = init_pool 4 100
  heap : s.heap 0 = none
  frees : s.frees = 0
  nprod : s.nprod = k
  w0 : s.workers 0 = .top
  w1 : s.workers 1 = .top
  w2 : s.workers 2 = .top
  w3 : s.workers 3 = .top
  nd : s.ndestroy = 0
  d0 : s.destroyers 0 = .idle
  joins : s.joins = 0
  acc : s.accepted.length = k
  exe : s.executed.length = k
  inflight : inflightJobs s = []

/-- Results of the library calls in which every call succeeds. -/
def allOkEnv : InitEnv :=
  { pool_alloc := true
    mutex_init := true
    cond_queue_empty := true
    cond_queue_not_full := true
    cond_queue_not_empty := true
    pthreads_alloc := true }

/-- Results of the library calls in which only the allocation of the thread
handles fails. -/
def pthreadsFailEnv : InitEnv :=
  { pool_alloc := true
    mutex_init := true
    cond_queue_empty := true
    cond_queue_not_full := true
    cond_queue_not_empty := true
    pthreads_alloc := false }

/-- Two submissions in a row: they fill a queue of capacity 2, and on a queue
of capacity 1 the second one finds the queue full and is suspended. -/
def twoSubmitsTrace : List Action :=
  [.call_add 7 8, .add_enter 0 true (some 5) true, .call_add 9 10,
   .add_enter 1 true (some 6) true]

/-- A run in which the two workers are suspended on `queue_not_empty` when
`threadpool_destroy` closes the pool and issues its first broadcast. -/
def wakeTrace : List Action :=
  [.worker_enter 0 true true none, .worker_enter 1 true true none, .call_destroy,
   .destroy_enter 0 true true, .destroy_broadcast_not_empty 0]

/-- A run in which `threadpool_destroy` waits for a queued job to be popped. -/
def drainTrace : List Action :=
  [.call_add 7 8, .add_enter 0 true (some 5) true, .add_signal 0 none, .call_destroy,
   .destroy_enter 0 true true]

/-- A run in which the accepted job `(7, 8)` is popped by a worker whose
`pthread_mutex_unlock` at line 223 fails, followed by a complete shutdown. -/
def lostJobTrace : List Action :=
  [.call_add 7 8, .add_enter 0 true (some 5) true, .add_signal 0 none,
   .worker_enter 0 true false none, .call_destroy, .destroy_enter 0 true true,
   .destroy_broadcast_not_empty 0, .destroy_broadcast_not_full 0, .destroy_join 0,
   .destroy_teardown 0 0]

/-- An open pool with one record queued at address 5. -/
def oneJobMem : Mem :=
  { pool := { thread_number := 1, queue_max_job_num := 1, queue_cur_job_num := 1
              queue_head := some 5, queue_tail := some 5, queue_close := 0, pool_close := 0 }
    heap := Heap.empty.set 5 (some { callback := 7, args := 8, next := none }) }

/-- A run that leaves two records queued and one popped record held by a worker. -/
def threeJobsTrace : List Action :=
  [.call_add 7 8, .add_enter 0 true (some 5) true, .call_add 9 10,
   .add_enter 1 true (some 6) true, .call_add 11 12, .add_enter 2 true (some 7) true,
   .worker_enter 0 true true none]

/-! ## Lemmas on the embedded routines -/

theorem wrap32_id (x : Int) (h1 : -2147483648 ≤ x) (h2 : x ≤ 2147483647) : wrap32 x = x := by
  unfold wrap32; omega

theorem link_job_inv (m : Mem) (c x : Nat) (a : Addr) (m2 : Mem)
    (h : link_job m c x a = some m2) :
    (m.pool.queue_cur_job_num = 0 ∧
      m2 = { pool := { m.pool with queue_head := some a, queue_tail := some a,
                                   queue_cur_job_num := wrap32 (m.pool.queue_cur_job_num + 1) }
             heap := m.heap.set a (some { callback := c, args := x, next := none }) }) ∨
    (m.pool.queue_cur_job_num ≠ 0 ∧ ∃ t r, m.pool.queue_tail = some t ∧
      (m.heap.set a (some { callback := c, args := x, next := none })) t = some r ∧
      m2 = { pool := { m.pool with queue_tail := some a,
                                   queue_cur_job_num := wrap32 (m.pool.queue_cur_job_num + 1) }
             heap := (m.heap.set a (some { callback := c, args := x, next := none })).set t
                        (some { r with next := some a }) }) := by
  unfold link_job at h
  simp only at h
  split at h
  · simp at h
  · rename_i m1 hm1
    split at hm1
    · rename_i h0
      left
      simp only [Option.some.injEq] at hm1 h
      subst hm1; subst h
      exact ⟨h0, rfl⟩
    · rename_i h0
      right
      split at hm1
      · simp at hm1
      · rename_i t ht
        split at hm1
        · simp at hm1
        · rename_i r hr
          simp only [Option.some.injEq] at hm1 h
          subst hm1; subst h
          exact ⟨h0, t, r, ht, hr, rfl⟩

theorem pop_job_inv (m : Mem) (p : xserver_threadpool) (job : Option Addr)
    (h : pop_job m = some (p, job)) :
    job = m.pool.queue_head ∧
    ((wrap32 (m.pool.queue_cur_job_num - 1) = 0 ∧
      p = { m.pool with queue_cur_job_num := wrap32 (m.pool.queue_cur_job_num - 1),
                        queue_head := none, queue_tail := none }) ∨
     (wrap32 (m.pool.queue_cur_job_num - 1) ≠ 0 ∧ ∃ a r, m.pool.queue_head = some a ∧
      m.heap a = some r ∧
      p = { m.pool with queue_cur_job_num := wrap32 (m.pool.queue_cur_job_num - 1),
                        queue_head := r.next })) := by
  unfold pop_job at h
  simp only at h
  split at h
  · rename_i h0
    simp only [Option.some.injEq, Prod.mk.injEq] at h
    obtain ⟨h1, h2⟩ := h
    subst h1; subst h2
    exact ⟨rfl, Or.inl ⟨h0, rfl⟩⟩
  · rename_i h0
    split at h
    · simp at h
    · rename_i a ha
      split at h
      · simp at h
      · rename_i r hr
        simp only [Option.some.injEq, Prod.mk.injEq] at h
        obtain ⟨h1, h2⟩ := h
        subst h1; subst h2
        exact ⟨rfl, Or.inr ⟨h0, a, r, ha, hr, rfl⟩⟩

theorem step_add_enter_inv (s s' : Sys) (i : Nat) (lk : Bool) (job : Option Addr) (ul : Bool)
    (h : step_add_enter s i lk job ul = some s') :
    ∃ c x, (s.producers i = .called c x ∨ s.producers i = .woken c x) ∧
      mallocResult s.heap job = true ∧
      ((s' = { s with producers := setAt s.producers i (.waiting c x) } ∧
          s.pool.queue_cur_job_num = s.pool.queue_max_job_num ∧ s.pool.queue_close = 0) ∨
       (s' = { s with producers := setAt s.producers i (.returned (-1)) }) ∨
       (∃ a m2, job = some a ∧ s.pool.queue_close = 0 ∧
          s.pool.queue_cur_job_num ≠ s.pool.queue_max_job_num ∧
          link_job ⟨s.pool, s.heap⟩ c x a = some m2 ∧
          s' = { s with pool := m2.pool, heap := m2.heap
                        appended := s.appended ++ [(c, x)]
                        producers := setAt s.producers i
                          (if ul then .signalling c x else .returned (-1)) })) := by
  unfold step_add_enter at h
  split at h
  · simp at h
  · rename_i hfresh
    simp only [Bool.not_eq_true, Bool.not_eq_false] at hfresh
    have key : ∀ c x, add_apply s i c x (add_job_locked ⟨s.pool, s.heap⟩ c x job ul) = some s' →
        ((s' = { s with producers := setAt s.producers i (.waiting c x) } ∧
          s.pool.queue_cur_job_num = s.pool.queue_max_job_num ∧ s.pool.queue_close = 0) ∨
       (s' = { s with producers := setAt s.producers i (.returned (-1)) }) ∨
       (∃ a m2, job = some a ∧ s.pool.queue_close = 0 ∧
          s.pool.queue_cur_job_num ≠ s.pool.queue_max_job_num ∧
          link_job ⟨s.pool, s.heap⟩ c x a = some m2 ∧
          s' = { s with pool := m2.pool, heap := m2.heap
                        appended := s.appended ++ [(c, x)]
                        producers := setAt s.producers i
                          (if ul then .signalling c x else .returned (-1)) })) := by
      intro c x hk
      unfold add_job_locked at hk
      split at hk
      · rename_i hw
        simp only [add_apply, Option.some.injEq] at hk
        exact Or.inl ⟨hk.symm, hw.1, hw.2⟩
      · rename_i hw
        split at hk
        · simp only [add_apply, Option.some.injEq] at hk
          exact Or.inr (Or.inl hk.symm)
        · rename_i hc
          split at hk
          · simp only [add_apply, Option.some.injEq] at hk
            exact Or.inr (Or.inl hk.symm)
          · rename_i a
            split at hk
            · simp [add_apply] at hk
            · rename_i m2 hm2
              simp only [add_apply, Option.some.injEq] at hk
              simp only [ne_eq, Decidable.not_not] at hc
              refine Or.inr (Or.inr ⟨a, m2, rfl, hc, ?_, hm2, hk.symm⟩)
              intro heq
              exact hw ⟨heq, hc⟩
    split at h
    · rename_i c x hp
      refine ⟨c, x, Or.inl hp, hfresh, ?_⟩
      unfold threadpool_add_job at h
      split at h
      · simp [add_apply] at h
      · split at h
        · simp only [add_apply, Option.some.injEq] at h
          exact Or.inr (Or.inl h.symm)
        · exact key c x h
    · rename_i c x hp
      exact ⟨c, x, Or.inr hp, hfresh, key c x h⟩
    · simp at h

theorem step_worker_enter_inv (s s' : Sys) (i : Nat) (acq ul : Bool) (tgt : Option Nat)
    (h : step_worker_enter s i acq ul tgt = some s') :
    (s.workers i = .top ∨ s.workers i = .woken) ∧
      ((s' = { s with workers := setAt s.workers i .waiting } ∧
          s.pool.queue_cur_job_num = 0 ∧ s.pool.pool_close = 0) ∨
       (s' = { s with workers := setAt s.workers i .exited } ∧
          (acq = false ∨ s.pool.pool_close ≠ 0)) ∨
       (∃ p job, acq = true ∧ s.pool.pool_close = 0 ∧ s.pool.queue_cur_job_num ≠ 0 ∧
          pop_job ⟨s.pool, s.heap⟩ = some (p, job) ∧
          (p.queue_cur_job_num = 0 →
            signalChoice s.ndestroy (fun d => (s.destroyers d).isWaiting) tgt = true) ∧
          s' = { s with pool := p
                        popped := s.popped ++ jobContent s.heap job
                        destroyers := if p.queue_cur_job_num = 0 then signal_empty s tgt
                                      else s.destroyers
                        producers := if p.queue_cur_job_num = wrap32 (p.queue_max_job_num - 1)
                                     then fun j => (s.producers j).wake else s.producers
                        workers := setAt s.workers i
                          (if ul then .holding job else .exited) })) := by
  have key : worker_apply s i tgt (threadpool_worker ⟨s.pool, s.heap⟩ acq ul) = some s' →
      ((s' = { s with workers := setAt s.workers i .waiting } ∧
          s.pool.queue_cur_job_num = 0 ∧ s.pool.pool_close = 0) ∨
       (s' = { s with workers := setAt s.workers i .exited } ∧
          (acq = false ∨ s.pool.pool_close ≠ 0)) ∨
       (∃ p job, acq = true ∧ s.pool.pool_close = 0 ∧ s.pool.queue_cur_job_num ≠ 0 ∧
          pop_job ⟨s.pool, s.heap⟩ = some (p, job) ∧
          (p.queue_cur_job_num = 0 →
            signalChoice s.ndestroy (fun d => (s.destroyers d).isWaiting) tgt = true) ∧
          s' = { s with pool := p
                        popped := s.popped ++ jobContent s.heap job
                        destroyers := if p.queue_cur_job_num = 0 then signal_empty s tgt
                                      else s.destroyers
                        producers := if p.queue_cur_job_num = wrap32 (p.queue_max_job_num - 1)
                                     then fun j => (s.producers j).wake else s.producers
                        workers := setAt s.workers i
                          (if ul then .holding job else .exited) })) := by
    intro hk
    unfold threadpool_worker at hk
    split at hk
    · rename_i hacq
      simp only [worker_apply, Option.some.injEq] at hk
      simp only [Bool.not_eq_true] at hacq
      exact Or.inr (Or.inl ⟨hk.symm, Or.inl hacq⟩)
    · rename_i hacq
      simp only [Bool.not_eq_true, Bool.not_eq_false] at hacq
      unfold worker_locked at hk
      split at hk
      · rename_i hw
        simp only [worker_apply, Option.some.injEq] at hk
        exact Or.inl ⟨hk.symm, hw.1, hw.2⟩
      · rename_i hw
        split at hk
        · rename_i hc
          simp only [worker_apply, Option.some.injEq] at hk
          exact Or.inr (Or.inl ⟨hk.symm, Or.inr hc⟩)
        · rename_i hc
          simp only [ne_eq, Decidable.not_not] at hc
          split at hk
          · simp [worker_apply] at hk
          · rename_i p job hpop
            simp only [worker_apply] at hk
            split at hk
            · simp at hk
            · rename_i hsig
              simp only [Option.some.injEq] at hk
              refine Or.inr (Or.inr ⟨p, job, hacq, hc, ?_, hpop, ?_, ?_⟩)
              · intro h0; exact hw ⟨h0, hc⟩
              · intro h0
                simp only [h0, decide_True, Bool.true_and, Bool.not_eq_true', Bool.not_eq_false] at hsig
                simpa using hsig
              · rw [← hk]
                simp
  unfold step_worker_enter at h
  split at h
  · rename_i hw
    exact ⟨Or.inl hw, key h⟩
  · rename_i hw
    exact ⟨Or.inr hw, key h⟩
  · simp at h

theorem heap_set_same (h : Heap) (a : Addr) (v : Option xserver_job) : h.set a v a = v := by
  simp [Heap.set]

theorem heap_set_other (h : Heap) (a b : Addr) (v : Option xserver_job) (hne : b ≠ a) :
    h.set a v b = h b := by
  simp [Heap.set, hne]
theorem Chain_congr (h h' : Heap) :
    ∀ (l : List Addr) (p : Option Addr), (∀ a ∈ l, h' a = h a) → Chain h p l → Chain h' p l := by
  intro l
  induction l with
  | nil => intro p _ hc; exact hc
  | cons b l ih =>
    intro p hag hc
    obtain ⟨hp, r, hr, hrest⟩ := hc
    refine ⟨hp, r, ?_, ih r.next (fun a ha => hag a (List.mem_cons_of_mem _ ha)) hrest⟩
    rw [hag b (List.mem_cons_self _ _)]
    exact hr
theorem Chain_alloc (h : Heap) :
    ∀ (l : List Addr) (p : Option Addr), Chain h p l → ∀ a ∈ l, h a ≠ none := by
  intro l
  induction l with
  | nil => intro p _ a ha; simp at ha
  | cons b l ih =>
    intro p hc a ha
    obtain ⟨_, r, hr, hrest⟩ := hc
    rcases List.mem_cons.mp ha with hab | hal
    · subst hab; rw [hr]; simp
    · exact ih r.next hrest a hal

theorem Chain_append (h : Heap) (a t : Addr) (c x : Nat) (r : xserver_job) :
    ∀ (l : List Addr) (p : Option Addr), Chain h p l → l.getLast? = some t → a ∉ l →
      l.Nodup → h t = some r →
      Chain ((h.set a (some { callback := c, args := x, next := none })).set t
              (some { r with next := some a })) p (l ++ [a]) := by
  intro l
  induction l with
  | nil => intro p _ hlast; simp at hlast
  | cons b l ih =>
    intro p hc hlast hna hnd ht
    obtain ⟨hp, rb, hrb, hrest⟩ := hc
    have hab : a ≠ b := fun e => hna (e ▸ List.mem_cons_self _ _)
    have hal : a ∉ l := fun e => hna (List.mem_cons_of_mem _ e)
    cases l with
    | nil =>
      simp only [List.getLast?_singleton, Option.some.injEq] at hlast
      subst hlast
      rw [hrb] at ht
      simp only [Option.some.injEq] at ht
      subst ht
      have hnil : rb.next = none := hrest
      refine ⟨hp, { rb with next := some a }, heap_set_same _ _ _, ?_⟩
      refine ⟨rfl, { callback := c, args := x, next := none }, ?_, rfl⟩
      rw [heap_set_other _ _ _ _ hab, heap_set_same]
    | cons b2 l2 =>
      rw [List.getLast?_cons_cons] at hlast
      have htl : t ∈ b2 :: l2 := List.mem_of_getLast?_eq_some hlast
      have hbt : b ≠ t := by
        intro e
        subst e
        exact (List.nodup_cons.mp hnd).1 htl
      refine ⟨hp, rb, ?_, ?_⟩
      · rw [heap_set_other _ _ _ _ hbt, heap_set_other _ _ _ _ (Ne.symm hab)]
        exact hrb
      · exact ih rb.next hrest hlast hal (List.nodup_cons.mp hnd).2 ht

theorem content_set_other (h : Heap) (a b : Addr) (v : Option xserver_job) (hne : b ≠ a) :
    content (h.set a v) b = content h b := by
  simp [content, heap_set_other _ _ _ _ hne]

theorem content_set_next (h : Heap) (t b : Addr) (r : xserver_job) (nx : Option Addr)
    (ht : h t = some r) :
    content (h.set t (some { r with next := nx })) b = content h b := by
  by_cases hb : b = t
  · subst hb
    simp [content, heap_set_same, ht]
  · exact content_set_other _ _ _ _ hb

/-- What lines 146-157 do to a well-formed queue. -/
theorem link_job_spec (p : xserver_threadpool) (h : Heap) (l : List Addr) (c x : Nat)
    (a : Addr) (m2 : Mem)
    (hchain : Chain h p.queue_head l) (hlen : p.queue_cur_job_num = (l.length : Int))
    (htail : p.queue_tail = l.getLast?) (hnd : l.Nodup) (hfresh : h a = none)
    (hlink : link_job ⟨p, h⟩ c x a = some m2) :
    m2.pool.thread_number = p.thread_number ∧
    m2.pool.queue_max_job_num = p.queue_max_job_num ∧
    m2.pool.queue_close = p.queue_close ∧
    m2.pool.pool_close = p.pool_close ∧
    m2.pool.queue_cur_job_num = wrap32 (p.queue_cur_job_num + 1) ∧
    m2.pool.queue_tail = some a ∧
    Chain m2.heap m2.pool.queue_head (l ++ [a]) ∧
    a ∉ l ∧
    (∀ b, b ≠ a → b ∉ l → m2.heap b = h b) ∧
    (∀ b, b ≠ a → content m2.heap b = content h b) ∧
    content m2.heap a = (c, x) := by
  have hal : a ∉ l := fun e => Chain_alloc h l _ hchain a e hfresh
  rcases link_job_inv _ _ _ _ _ hlink with ⟨h0, rfl⟩ | ⟨h0, t, r, ht, hr, rfl⟩
  · simp only at h0
    have hl : l = [] := by
      rw [hlen] at h0
      exact List.length_eq_zero.mp (by exact_mod_cast h0)
    subst hl
    refine ⟨rfl, rfl, rfl, rfl, rfl, rfl, ?_, hal, ?_, ?_, ?_⟩
    · exact ⟨rfl, _, heap_set_same _ _ _, rfl⟩
    · intro b hb _
      exact heap_set_other _ _ _ _ hb
    · intro b hb
      exact content_set_other _ _ _ _ hb
    · simp [content, heap_set_same]
  · simp only at h0 ht hr
    have hlast : l.getLast? = some t := by rw [← htail]; exact ht
    have htl : t ∈ l := List.mem_of_getLast?_eq_some hlast
    have hta : t ≠ a := fun e => hal (e ▸ htl)
    rw [heap_set_other _ _ _ _ hta] at hr
    refine ⟨rfl, rfl, rfl, rfl, rfl, rfl, ?_, hal, ?_, ?_, ?_⟩
    · exact Chain_append h a t c x r l _ hchain hlast hal hnd hr
    · intro b hb hbl
      have hbt : b ≠ t := fun e => hbl (e ▸ htl)
      simp only
      rw [heap_set_other _ _ _ _ hbt, heap_set_other _ _ _ _ hb]
    · intro b hb
      simp only
      rw [content_set_next _ _ _ _ _ (by rw [heap_set_other _ _ _ _ hta]; exact hr)]
      exact content_set_other _ _ _ _ hb
    · simp only
      rw [content_set_next _ _ _ _ _ (by rw [heap_set_other _ _ _ _ hta]; exact hr)]
      simp [content, heap_set_same]

/-- What lines 204-211 do to a well-formed, non-empty queue. -/
theorem pop_job_spec (p p' : xserver_threadpool) (h : Heap) (l : List Addr)
    (job : Option Addr)
    (hchain : Chain h p.queue_head l) (hlen : p.queue_cur_job_num = (l.length : Int))
    (htail : p.queue_tail = l.getLast?) (hmax : (l.length : Int) ≤ INT_MAX)
    (hne : p.queue_cur_job_num ≠ 0)
    (hpop : pop_job ⟨p, h⟩ = some (p', job)) :
    ∃ a l', l = a :: l' ∧ job = some a ∧ h a ≠ none ∧
      p'.thread_number = p.thread_number ∧
      p'.queue_max_job_num = p.queue_max_job_num ∧
      p'.queue_close = p.queue_close ∧
      p'.pool_close = p.pool_close ∧
      p'.queue_cur_job_num = (l'.length : Int) ∧
      p'.queue_tail = l'.getLast? ∧
      Chain h p'.queue_head l' := by
  cases l with
  | nil => simp at hlen; exact absurd hlen hne
  | cons a l' =>
    obtain ⟨hp, r, hr, hrest⟩ := hchain
    have hw : wrap32 (p.queue_cur_job_num - 1) = (l'.length : Int) := by
      rw [hlen]
      simp only [List.length_cons, Nat.cast_add, Nat.cast_one, add_sub_cancel_right]
      simp only [List.length_cons, Nat.cast_add, Nat.cast_one, INT_MAX] at hmax
      exact wrap32_id _ (by omega) (by omega)
    obtain ⟨hjob, hcase⟩ := pop_job_inv _ _ _ hpop
    simp only at hjob hcase
    refine ⟨a, l', rfl, by rw [hjob, hp], by rw [hr]; simp, ?_⟩
    rcases hcase with ⟨h0, rfl⟩ | ⟨h0, a2, r2, ha2, hr2, rfl⟩
    · rw [hw] at h0
      have hl' : l' = [] := List.length_eq_zero.mp (by exact_mod_cast h0)
      subst hl'
      exact ⟨rfl, rfl, rfl, rfl, hw, rfl, rfl⟩
    · rw [hw] at h0
      rw [hp] at ha2
      simp only [Option.some.injEq] at ha2
      subst ha2
      rw [hr] at hr2
      simp only [Option.some.injEq] at hr2
      subst hr2
      refine ⟨rfl, rfl, rfl, rfl, hw, ?_, hrest⟩
      simp only
      rw [htail]
      cases l' with
      | nil => simp at h0
      | cons b l2 => rw [List.getLast?_cons_cons]

theorem setAt_apply {α : Type} (f : Nat → α) (i : Nat) (v : α) (j : Nat) :
    setAt f i v j = if j = i then v else f j := rfl

theorem setAt_same {α : Type} (f : Nat → α) (i : Nat) (v : α) : setAt f i v i = v := by
  simp [setAt]

theorem setAt_other {α : Type} (f : Nat → α) (i j : Nat) (v : α) (h : j ≠ i) :
    setAt f i v j = f j := by
  simp [setAt, h]

theorem Inv_init (n m : Int) (hm : 0 < m) : Inv n m (sysInit n m) [] := by
  constructor <;> simp [sysInit, init_pool, Chain, DestroyState.past, DestroyState.drained]
  case le_max => omega
  case held => intro i a; split <;> simp
  case held_inj => intro i j a; split <;> simp
  case held_null => intro i; split <;> simp

theorem Inv_call_add (n m : Int) (s s' : Sys) (l : List Addr) (c x : Nat)
    (hs : Inv n m s l) (h : step_call_add s c x = some s') : Inv n m s' l := by
  simp only [step_call_add, Option.some.injEq] at h
  subst h
  exact { hs with
    pbound := by
      intro i hi
      simp only [setAt_apply] at hi ⊢
      rw [if_neg (by omega)]
      exact hs.pbound i (by omega) }

/-- Replacing the state of a call that is under way keeps the calls above `nprod` idle. -/
theorem pbound_setAt (s : Sys) (i : Nat) (v : ProducerState)
    (hb : ∀ j, s.nprod ≤ j → s.producers j = .idle) (hi : s.producers i ≠ .idle) :
    ∀ j, s.nprod ≤ j → setAt s.producers i v j = .idle := by
  intro j hj
  by_cases hji : j = i
  · subst hji
    exact absurd (hb j hj) hi
  · rw [setAt_other _ _ _ _ hji]
    exact hb j hj

theorem Inv_add_enter (n m : Int) (s s' : Sys) (l : List Addr) (i : Nat) (lk : Bool)
    (job : Option Addr) (ul : Bool) (hM : m ≤ INT_MAX)
    (hs : Inv n m s l) (h : step_add_enter s i lk job ul = some s') :
    ∃ l', Inv n m s' l' := by
  obtain ⟨c, x, hst, hfresh, hcase⟩ := step_add_enter_inv _ _ _ _ _ _ h
  have hni : s.producers i ≠ .idle := by
    rcases hst with e | e <;> rw [e] <;> simp
  rcases hcase with ⟨rfl, _, _⟩ | rfl | ⟨a, m2, rfl, hopen, hnf, hlink, rfl⟩
  · exact ⟨l, { hs with pbound := pbound_setAt s i _ hs.pbound hni }⟩
  · exact ⟨l, { hs with pbound := pbound_setAt s i _ hs.pbound hni }⟩
  · have hfr : s.heap a = none := by
      simpa [mallocResult] using hfresh
    obtain ⟨e1, e2, e3, e4, e5, e6, hch, hal, hframe, hcont, hnew⟩ :=
      link_job_spec s.pool s.heap l c x a m2 hs.chain hs.len hs.tail hs.nodup hfr hlink
    have hlt : (l.length : Int) < m := by
      have h1 := hs.le_max
      have h2 : (l.length : Int) ≠ m := by
        rw [← hs.len, ← hs.mx]; exact hnf
      omega
    have hpc : s.pool.pool_close = 0 := by
      by_contra hne
      exact (hs.close hne).1 hopen
    refine ⟨l ++ [a], ?_⟩
    exact
      { tn := by simp only; rw [e1]; exact hs.tn
        mx := by simp only; rw [e2]; exact hs.mx
        len := by
          simp only
          rw [e5, hs.len]
          simp only [INT_MAX] at hM
          rw [wrap32_id _ (by omega) (by omega)]
          simp
        le_max := by
          simp only [List.length_append, List.length_singleton, Nat.cast_add, Nat.cast_one]
          omega
        chain := hch
        tail := by simp only; rw [e6, List.getLast?_concat]
        nodup := by
          rw [List.nodup_append]
          refine ⟨hs.nodup, List.nodup_singleton a, ?_⟩
          intro b hb hb2
          simp only [List.mem_singleton] at hb2
          subst hb2
          exact hal hb
        fifo := by
          simp only [List.map_append, List.map_cons, List.map_nil]
          rw [hnew, hs.fifo, List.append_assoc]
          congr 2
          apply List.map_congr_left
          intro b hb
          exact (hcont b (fun e => hal (e ▸ hb))).symm
        held := by
          intro j b hj
          obtain ⟨hbl, hba⟩ := hs.held j b hj
          have hne : b ≠ a := fun e => hba (e ▸ hfr)
          refine ⟨?_, ?_⟩
          · simp only [List.mem_append, List.mem_singleton, not_or]
            exact ⟨hbl, hne⟩
          · simp only
            rw [hframe b hne hbl]
            exact hba
        held_inj := hs.held_inj
        held_null := hs.held_null
        wbound := hs.wbound
        pbound := pbound_setAt s i _ hs.pbound hni
        dbound := hs.dbound
        close := by
          intro hc
          simp only at hc
          rw [e4] at hc
          exact absurd hpc hc
        past := by
          intro d hd
          simp only
          rw [e3]
          exact hs.past d hd
        drained := by
          intro d hd
          simp only
          rw [e4]
          exact hs.drained d hd
        uniq := hs.uniq
        passes := by
          simp only
          rw [e3]
          exact hs.passes
        frees := hs.frees
        joins_le := hs.joins_le
        joining := hs.joining
        returned := hs.returned
        joins_zero := hs.joins_zero }

theorem worker_wake_holding (w : WorkerState) (j : Option Addr) :
    w.wake = .holding j ↔ w = .holding j := by
  cases w <;> simp [WorkerState.wake]

theorem worker_wake_exited (w : WorkerState) : w.wake = .exited ↔ w = .exited := by
  cases w <;> simp [WorkerState.wake]

theorem worker_wake_absent (w : WorkerState) : w.wake = .absent ↔ w = .absent := by
  cases w <;> simp [WorkerState.wake]

theorem producer_wake_idle (p : ProducerState) : p.wake = .idle ↔ p = .idle := by
  cases p <;> simp [ProducerState.wake]

theorem producer_wake_job (p : ProducerState) : p.wake.job = p.job := by
  cases p <;> simp [ProducerState.wake, ProducerState.job]

theorem destroy_wake_past (d : DestroyState) : d.wake.past = d.past := by
  cases d <;> simp [DestroyState.wake, DestroyState.past]

theorem destroy_wake_drained (d : DestroyState) : d.wake.drained = d.drained := by
  cases d <;> simp [DestroyState.wake, DestroyState.drained]

theorem destroy_wake_idle (d : DestroyState) : d.wake = .idle ↔ d = .idle := by
  cases d <;> simp [DestroyState.wake]

theorem destroy_wake_joining (d : DestroyState) (k : Nat) :
    d.wake = .joining k ↔ d = .joining k := by
  cases d <;> simp [DestroyState.wake]

theorem destroy_wake_returned (d : DestroyState) (rc : Int) :
    d.wake = .returned rc ↔ d = .returned rc := by
  cases d <;> simp [DestroyState.wake]

theorem destroy_drained_past (d : DestroyState) (h : d.drained = true) : d.past = true := by
  cases d <;> simp_all [DestroyState.drained, DestroyState.past]

/-- A signal on `queue_not_empty` changes no worker into or out of the states
`holding`, `exited` and `absent`. -/
theorem signal_not_empty_holding (s : Sys) (tgt : Option Nat) (i : Nat) (j : Option Addr) :
    signal_not_empty s tgt i = .holding j ↔ s.workers i = .holding j := by
  cases tgt with
  | none => rfl
  | some t =>
    simp only [signal_not_empty, setAt_apply]
    split
    · rename_i e; subst e; exact worker_wake_holding _ _
    · rfl

theorem signal_not_empty_exited (s : Sys) (tgt : Option Nat) (i : Nat) :
    signal_not_empty s tgt i = .exited ↔ s.workers i = .exited := by
  cases tgt with
  | none => rfl
  | some t =>
    simp only [signal_not_empty, setAt_apply]
    split
    · rename_i e; subst e; exact worker_wake_exited _
    · rfl

theorem signal_not_empty_absent (s : Sys) (tgt : Option Nat) (i : Nat) :
    signal_not_empty s tgt i = .absent ↔ s.workers i = .absent := by
  cases tgt with
  | none => rfl
  | some t =>
    simp only [signal_not_empty, setAt_apply]
    split
    · rename_i e; subst e; exact worker_wake_absent _
    · rfl

theorem signal_empty_past (s : Sys) (tgt : Option Nat) (d : Nat) :
    (signal_empty s tgt d).past = (s.destroyers d).past := by
  cases tgt with
  | none => rfl
  | some t =>
    simp only [signal_empty, setAt_apply]
    split
    · rename_i e; subst e; exact destroy_wake_past _
    · rfl

theorem signal_empty_drained (s : Sys) (tgt : Option Nat) (d : Nat) :
    (signal_empty s tgt d).drained = (s.destroyers d).drained := by
  cases tgt with
  | none => rfl
  | some t =>
    simp only [signal_empty, setAt_apply]
    split
    · rename_i e; subst e; exact destroy_wake_drained _
    · rfl

theorem signal_empty_idle (s : Sys) (tgt : Option Nat) (d : Nat) :
    signal_empty s tgt d = .idle ↔ s.destroyers d = .idle := by
  cases tgt with
  | none => rfl
  | some t =>
    simp only [signal_empty, setAt_apply]
    split
    · rename_i e; subst e; exact destroy_wake_idle _
    · rfl

theorem signal_empty_joining (s : Sys) (tgt : Option Nat) (d k : Nat) :
    signal_empty s tgt d = .joining k ↔ s.destroyers d = .joining k := by
  cases tgt with
  | none => rfl
  | some t =>
    simp only [signal_empty, setAt_apply]
    split
    · rename_i e; subst e; exact destroy_wake_joining _ _
    · rfl

theorem signal_empty_returned (s : Sys) (tgt : Option Nat) (d : Nat) (rc : Int) :
    signal_empty s tgt d = .returned rc ↔ s.destroyers d = .returned rc := by
  cases tgt with
  | none => rfl
  | some t =>
    simp only [signal_empty, setAt_apply]
    split
    · rename_i e; subst e; exact destroy_wake_returned _ _
    · rfl

theorem Inv_add_wake (n m : Int) (s s' : Sys) (l : List Addr) (i : Nat)
    (hs : Inv n m s l) (h : step_add_wake s i = some s') : Inv n m s' l := by
  unfold step_add_wake at h
  split at h
  · rename_i c x hp
    simp only [Option.some.injEq] at h
    subst h
    exact { hs with pbound := pbound_setAt s i _ hs.pbound (by rw [hp]; simp) }
  · simp at h

theorem Inv_add_signal (n m : Int) (s s' : Sys) (l : List Addr) (i : Nat) (tgt : Option Nat)
    (hs : Inv n m s l) (h : step_add_signal s i tgt = some s') : Inv n m s' l := by
  unfold step_add_signal at h
  split at h
  · rename_i c x hp
    split at h
    · simp only [Option.some.injEq] at h
      subst h
      exact { hs with
        pbound := pbound_setAt s i _ hs.pbound (by rw [hp]; simp)
        held := by
          intro j b hj
          exact hs.held j b ((signal_not_empty_holding s tgt j _).mp hj)
        held_inj := by
          intro j k b hj hk
          exact hs.held_inj j k b ((signal_not_empty_holding s tgt j _).mp hj)
            ((signal_not_empty_holding s tgt k _).mp hk)
        held_null := by
          intro j hj
          exact hs.held_null j ((signal_not_empty_holding s tgt j _).mp hj)
        wbound := by
          intro j hj
          exact (signal_not_empty_absent s tgt j).mpr (hs.wbound j hj)
        joining := by
          intro d k hd
          obtain ⟨h1, h2⟩ := hs.joining d k hd
          exact ⟨h1, fun j hj => (signal_not_empty_exited s tgt j).mpr (h2 j hj)⟩
        returned := by
          intro d hd j hj
          exact (signal_not_empty_exited s tgt j).mpr (hs.returned d hd j hj) }
    · simp at h
  · simp at h

theorem jobContent_some (h : Heap) (a : Addr) (ha : h a ≠ none) :
    jobContent h (some a) = [content h a] := by
  cases hr : h a with
  | none => exact absurd hr ha
  | some r => simp [jobContent, content, hr]

/-- A worker that is neither absent nor exited moves to a state in which it
holds no job: the invariant is kept. -/
theorem Inv_worker_set (n m : Int) (s : Sys) (l : List Addr) (i : Nat) (v : WorkerState)
    (hs : Inv n m s l) (h1 : s.workers i ≠ .absent) (h2 : s.workers i ≠ .exited)
    (hv : ∀ j, v ≠ .holding j) :
    Inv n m { s with workers := setAt s.workers i v } l := by
  have hold : ∀ j b, setAt s.workers i v j = .holding b → s.workers j = .holding b := by
    intro j b hj
    by_cases hji : j = i
    · subst hji
      rw [setAt_same] at hj
      exact absurd hj (hv b)
    · rwa [setAt_other _ _ _ _ hji] at hj
  have hex : ∀ j, s.workers j = .exited → setAt s.workers i v j = .exited := by
    intro j hj
    by_cases hji : j = i
    · subst hji
      exact absurd hj h2
    · rwa [setAt_other _ _ _ _ hji]
  exact { hs with
    held := fun j b hj => hs.held j b (hold j _ hj)
    held_inj := fun j k b hj hk => hs.held_inj j k b (hold j _ hj) (hold k _ hk)
    held_null := fun j hj => hs.held_null j (hold j _ hj)
    wbound := by
      intro j hj
      by_cases hji : j = i
      · subst hji
        exact absurd (hs.wbound j hj) h1
      · simp only
        rw [setAt_other _ _ _ _ hji]
        exact hs.wbound j hj
    joining := by
      intro d k hd
      obtain ⟨e1, e2⟩ := hs.joining d k hd
      exact ⟨e1, fun j hj => hex j (e2 j hj)⟩
    returned := fun d hd j hj => hex j (hs.returned d hd j hj) }

theorem Inv_worker_enter (n m : Int) (s s' : Sys) (l : List Addr) (i : Nat) (acq ul : Bool)
    (tgt : Option Nat) (hM : m ≤ INT_MAX)
    (hs : Inv n m s l) (h : step_worker_enter s i acq ul tgt = some s') :
    ∃ l', Inv n m s' l' := by
  obtain ⟨hst, hcase⟩ := step_worker_enter_inv _ _ _ _ _ _ h
  have h1 : s.workers i ≠ .absent := by rcases hst with e | e <;> rw [e] <;> simp
  have h2 : s.workers i ≠ .exited := by rcases hst with e | e <;> rw [e] <;> simp
  have h3 : ∀ j, s.workers i ≠ .holding j := by
    intro j; rcases hst with e | e <;> rw [e] <;> simp
  rcases hcase with ⟨rfl, _, _⟩ | ⟨rfl, _⟩ | ⟨p, job, _, hpc, hne, hpop, _, rfl⟩
  · exact ⟨l, Inv_worker_set n m s l i _ hs h1 h2 (by simp)⟩
  · exact ⟨l, Inv_worker_set n m s l i _ hs h1 h2 (by simp)⟩
  · have hmax : (l.length : Int) ≤ INT_MAX := le_trans hs.le_max hM
    obtain ⟨a, l', rfl, rfl, hal, e1, e2, e3, e4, e5, e6, hch⟩ :=
      pop_job_spec s.pool p s.heap l job hs.chain hs.len hs.tail hmax hne hpop
    have hnd := List.nodup_cons.mp hs.nodup
    have hold : ∀ j b, setAt s.workers i (if ul = true then WorkerState.holding (some a)
        else WorkerState.exited) j = .holding b →
        (j = i ∧ b = some a) ∨ (j ≠ i ∧ s.workers j = .holding b) := by
      intro j b hj
      by_cases hji : j = i
      · subst hji
        rw [setAt_same] at hj
        split at hj
        · simp only [WorkerState.holding.injEq] at hj
          exact Or.inl ⟨rfl, hj.symm⟩
        · simp at hj
      · rw [setAt_other _ _ _ _ hji] at hj
        exact Or.inr ⟨hji, hj⟩
    have hex : ∀ j, s.workers j = .exited → setAt s.workers i (if ul = true then
        WorkerState.holding (some a) else WorkerState.exited) j = .exited := by
      intro j hj
      by_cases hji : j = i
      · subst hji
        exact absurd hj h2
      · rwa [setAt_other _ _ _ _ hji]
    have hDpast : ∀ d, ((if p.queue_cur_job_num = 0 then signal_empty s tgt
        else s.destroyers) d).past = (s.destroyers d).past := by
      intro d; split
      · exact signal_empty_past s tgt d
      · rfl
    have hDdr : ∀ d, ((if p.queue_cur_job_num = 0 then signal_empty s tgt
        else s.destroyers) d).drained = (s.destroyers d).drained := by
      intro d; split
      · exact signal_empty_drained s tgt d
      · rfl
    have hDidle : ∀ d, (if p.queue_cur_job_num = 0 then signal_empty s tgt
        else s.destroyers) d = .idle ↔ s.destroyers d = .idle := by
      intro d; split
      · exact signal_empty_idle s tgt d
      · rfl
    have hDjoin : ∀ d k, (if p.queue_cur_job_num = 0 then signal_empty s tgt
        else s.destroyers) d = .joining k ↔ s.destroyers d = .joining k := by
      intro d k; split
      · exact signal_empty_joining s tgt d k
      · rfl
    have hDret : ∀ d rc, (if p.queue_cur_job_num = 0 then signal_empty s tgt
        else s.destroyers) d = .returned rc ↔ s.destroyers d = .returned rc := by
      intro d rc; split
      · exact signal_empty_returned s tgt d rc
      · rfl
    refine ⟨l', ?_⟩
    exact
      { tn := by simp only; rw [e1]; exact hs.tn
        mx := by simp only; rw [e2]; exact hs.mx
        len := e5
        le_max := by
          have := hs.le_max
          simp only [List.length_cons, Nat.cast_add, Nat.cast_one] at this
          omega
        chain := hch
        tail := e6
        nodup := hnd.2
        fifo := by
          simp only
          rw [hs.fifo, jobContent_some _ _ hal]
          simp
        held := by
          intro j b hj
          rcases hold j _ hj with ⟨_, hb⟩ | ⟨_, hb⟩
          · simp only [Option.some.injEq] at hb
            subst hb
            exact ⟨hnd.1, hal⟩
          · obtain ⟨g1, g2⟩ := hs.held j b hb
            exact ⟨fun e => g1 (List.mem_cons_of_mem _ e), g2⟩
        held_inj := by
          intro j k b hj hk
          rcases hold j _ hj with ⟨ej, hb⟩ | ⟨_, hb⟩
          · rcases hold k _ hk with ⟨ek, _⟩ | ⟨_, hb2⟩
            · rw [ej, ek]
            · simp only [Option.some.injEq] at hb
              subst hb
              exact absurd (List.mem_cons_self _ _) (hs.held k b hb2).1
          · rcases hold k _ hk with ⟨_, hb2⟩ | ⟨_, hb2⟩
            · simp only [Option.some.injEq] at hb2
              subst hb2
              exact absurd (List.mem_cons_self _ _) (hs.held j b hb).1
            · exact hs.held_inj j k b hb hb2
        held_null := by
          intro j hj
          rcases hold j _ hj with ⟨_, hb⟩ | ⟨_, hb⟩
          · simp at hb
          · exact hs.held_null j hb
        wbound := by
          intro j hj
          by_cases hji : j = i
          · subst hji
            exact absurd (hs.wbound j hj) h1
          · simp only
            rw [setAt_other _ _ _ _ hji]
            exact hs.wbound j hj
        pbound := by
          intro j hj
          simp only
          split
          · exact (producer_wake_idle _).mpr (hs.pbound j hj)
          · exact hs.pbound j hj
        dbound := fun d hd => (hDidle d).mpr (hs.dbound d hd)
        close := by
          intro hc
          simp only at hc
          rw [e4] at hc
          exact absurd hpc hc
        past := by
          intro d hd
          simp only at hd ⊢
          rw [hDpast] at hd
          rw [e3]
          exact hs.past d hd
        drained := by
          intro d hd
          simp only at hd ⊢
          rw [hDdr] at hd
          rw [e4]
          exact hs.drained d hd
        uniq := by
          intro d d' hd hd'
          simp only at hd hd'
          rw [hDpast] at hd hd'
          exact hs.uniq d d' hd hd'
        passes := by
          simp only
          rw [e3]
          exact hs.passes
        frees := hs.frees
        joins_le := hs.joins_le
        joining := by
          intro d k hd
          obtain ⟨g1, g2⟩ := hs.joining d k ((hDjoin d k).mp hd)
          exact ⟨g1, fun j hj => hex j (g2 j hj)⟩
        returned := by
          intro d hd j hj
          exact hex j (hs.returned d ((hDret d 0).mp hd) j hj)
        joins_zero := by
          intro hj
          obtain ⟨d, hd⟩ := hs.joins_zero hj
          refine ⟨d, ?_⟩
          rcases hd with ⟨k, hk⟩ | hr
          · exact Or.inl ⟨k, (hDjoin d k).mpr hk⟩
          · exact Or.inr ((hDret d 0).mpr hr) }

theorem Inv_worker_wake (n m : Int) (s s' : Sys) (l : List Addr) (i : Nat)
    (hs : Inv n m s l) (h : step_worker_wake s i = some s') : Inv n m s' l := by
  unfold step_worker_wake at h
  split at h
  · rename_i hw
    simp only [Option.some.injEq] at h
    subst h
    exact Inv_worker_set n m s l i _ hs (by rw [hw]; simp) (by rw [hw]; simp) (by simp)
  · simp at h

theorem Inv_worker_run (n m : Int) (s s' : Sys) (l : List Addr) (i : Nat)
    (hs : Inv n m s l) (h : step_worker_run s i = some s') : Inv n m s' l := by
  unfold step_worker_run at h
  split at h
  · rename_i job hw
    split at h
    · simp at h
    · rename_i c h' hrun
      simp only [Option.some.injEq] at h
      subst h
      unfold run_job at hrun
      split at hrun
      · simp at hrun
      · rename_i a
        split at hrun
        · simp at hrun
        · rename_i r hr
          simp only [Option.some.injEq, Prod.mk.injEq] at hrun
          obtain ⟨_, rfl⟩ := hrun
          have hal : a ∉ l := (hs.held i a hw).1
          have hframe : ∀ b ∈ l, s.heap.set a none b = s.heap b := by
            intro b hb
            exact heap_set_other _ _ _ _ (fun e => hal (e ▸ hb))
          have hold : ∀ j b, setAt s.workers i WorkerState.top j = .holding b →
              j ≠ i ∧ s.workers j = .holding b := by
            intro j b hj
            by_cases hji : j = i
            · subst hji
              rw [setAt_same] at hj
              simp at hj
            · rw [setAt_other _ _ _ _ hji] at hj
              exact ⟨hji, hj⟩
          have hex : ∀ j, s.workers j = .exited →
              setAt s.workers i WorkerState.top j = .exited := by
            intro j hj
            by_cases hji : j = i
            · subst hji
              rw [hw] at hj
              simp at hj
            · rwa [setAt_other _ _ _ _ hji]
          exact { hs with
            chain := Chain_congr s.heap _ l _ hframe hs.chain
            fifo := by
              simp only
              rw [hs.fifo]
              congr 1
              apply List.map_congr_left
              intro b hb
              simp only [content, hframe b hb]
            held := by
              intro j b hj
              obtain ⟨hji, hb⟩ := hold j _ hj
              obtain ⟨g1, g2⟩ := hs.held j b hb
              refine ⟨g1, ?_⟩
              have hba : b ≠ a := by
                intro e
                subst e
                exact hji (hs.held_inj j i b hb hw)
              simp only
              rw [heap_set_other _ _ _ _ hba]
              exact g2
            held_inj := fun j k b hj hk =>
              hs.held_inj j k b (hold j _ hj).2 (hold k _ hk).2
            held_null := fun j hj => hs.held_null j (hold j _ hj).2
            wbound := by
              intro j hj
              by_cases hji : j = i
              · subst hji
                have := hs.wbound j hj
                rw [hw] at this
                simp at this
              · simp only
                rw [setAt_other _ _ _ _ hji]
                exact hs.wbound j hj
            joining := by
              intro d k hd
              obtain ⟨e1, e2⟩ := hs.joining d k hd
              exact ⟨e1, fun j hj => hex j (e2 j hj)⟩
            returned := fun d hd j hj => hex j (hs.returned d hd j hj) }
  · simp at h

theorem Inv_call_destroy (n m : Int) (s s' : Sys) (l : List Addr)
    (hs : Inv n m s l) (h : step_call_destroy s = some s') : Inv n m s' l := by
  simp only [step_call_destroy, Option.some.injEq] at h
  subst h
  have hidle : s.destroyers s.ndestroy = .idle := hs.dbound _ (le_refl _)
  have hpast : ∀ d, (setAt s.destroyers s.ndestroy DestroyState.called d).past = true →
      (s.destroyers d).past = true := by
    intro d hd
    by_cases hdi : d = s.ndestroy
    · subst hdi
      rw [setAt_same] at hd
      simp [DestroyState.past] at hd
    · rwa [setAt_other _ _ _ _ hdi] at hd
  have hsame : ∀ d v, v ≠ DestroyState.called →
      setAt s.destroyers s.ndestroy DestroyState.called d = v → s.destroyers d = v := by
    intro d v hv hd
    by_cases hdi : d = s.ndestroy
    · subst hdi
      rw [setAt_same] at hd
      exact absurd hd.symm hv
    · rwa [setAt_other _ _ _ _ hdi] at hd
  exact { hs with
    dbound := by
      intro d hd
      simp only at hd ⊢
      rw [setAt_other _ _ _ _ (by omega)]
      exact hs.dbound d (by omega)
    past := fun d hd => hs.past d (hpast d hd)
    drained := by
      intro d hd
      by_cases hdi : d = s.ndestroy
      · subst hdi
        simp only at hd
        rw [setAt_same] at hd
        simp [DestroyState.drained] at hd
      · simp only at hd
        rw [setAt_other _ _ _ _ hdi] at hd
        exact hs.drained d hd
    uniq := fun d d' hd hd' => hs.uniq d d' (hpast d hd) (hpast d' hd')
    joining := fun d k hd => hs.joining d k (hsame d _ (by simp) hd)
    returned := fun d hd => hs.returned d (hsame d _ (by simp) hd)
    joins_zero := by
      intro hj
      obtain ⟨d, hd⟩ := hs.joins_zero hj
      have hne : d ≠ s.ndestroy := by
        intro e
        subst e
        rw [hidle] at hd
        simp at hd
      refine ⟨d, ?_⟩
      simp only
      rw [setAt_other _ _ _ _ hne]
      exact hd }

theorem step_destroy_enter_inv (s s' : Sys) (d : Nat) (lk ul : Bool)
    (h : step_destroy_enter s d lk ul = some s') :
    (s.destroyers d = .called ∧
      (lk = false ∨ s.pool.queue_close ≠ 0 ∨ s.pool.pool_close ≠ 0) ∧
      s' = { s with destroyers := setAt s.destroyers d (.returned (-1)) }) ∨
    (s.destroyers d = .called ∧ lk = true ∧ s.pool.queue_close = 0 ∧ s.pool.pool_close = 0 ∧
      s.pool.queue_cur_job_num ≠ 0 ∧
      s' = { s with pool := { s.pool with queue_close := 1 }
                    destroyers := setAt s.destroyers d .waiting
                    passes := s.passes + 1 }) ∨
    (s.destroyers d = .called ∧ lk = true ∧ s.pool.queue_close = 0 ∧ s.pool.pool_close = 0 ∧
      s.pool.queue_cur_job_num = 0 ∧
      s' = { s with pool := { s.pool with queue_close := 1, pool_close := 1 }
                    destroyers := setAt s.destroyers d
                      (if ul then .unlocked else .returned (-1))
                    passes := s.passes + 1 }) ∨
    (s.destroyers d = .woken ∧ s.pool.queue_cur_job_num ≠ 0 ∧
      s' = { s with destroyers := setAt s.destroyers d .waiting }) ∨
    (s.destroyers d = .woken ∧ s.pool.queue_cur_job_num = 0 ∧
      s' = { s with pool := { s.pool with pool_close := 1 }
                    destroyers := setAt s.destroyers d
                      (if ul then .unlocked else .returned (-1)) }) := by
  unfold step_destroy_enter at h
  split at h
  · rename_i hd
    simp only [Option.some.injEq] at h
    subst h
    by_cases hlk : lk = true
    · by_cases hfl : s.pool.queue_close ≠ 0 ∨ s.pool.pool_close ≠ 0
      · left
        refine ⟨hd, Or.inr hfl, ?_⟩
        simp [threadpool_destroy, hlk, hfl, DestroyOutcome.pool, DestroyOutcome.next]
      · right
        have hq : s.pool.queue_close = 0 := by
          by_contra e; exact hfl (Or.inl e)
        have hp : s.pool.pool_close = 0 := by
          by_contra e; exact hfl (Or.inr e)
        by_cases hc : s.pool.queue_cur_job_num = 0
        · right; left
          refine ⟨hd, hlk, hq, hp, hc, ?_⟩
          cases ul <;>
            simp [threadpool_destroy, destroy_drain, hlk, hq, hp, hc, DestroyOutcome.pool,
              DestroyOutcome.next]
        · left
          refine ⟨hd, hlk, hq, hp, hc, ?_⟩
          simp [threadpool_destroy, destroy_drain, hlk, hq, hp, hc, DestroyOutcome.pool,
            DestroyOutcome.next]
    · left
      simp only [Bool.not_eq_true] at hlk
      refine ⟨hd, Or.inl hlk, ?_⟩
      simp [threadpool_destroy, hlk, DestroyOutcome.pool, DestroyOutcome.next]
  · rename_i hd
    simp only [Option.some.injEq] at h
    subst h
    right; right; right
    by_cases hc : s.pool.queue_cur_job_num = 0
    · right
      refine ⟨hd, hc, ?_⟩
      cases ul <;> simp [destroy_drain, hc, DestroyOutcome.pool, DestroyOutcome.next]
    · left
      refine ⟨hd, hc, ?_⟩
      simp [destroy_drain, hc, DestroyOutcome.pool, DestroyOutcome.next]
  · simp at h

/-- A call of `threadpool_destroy` that is not yet in its join loop moves to
another such state and rewrites the two flags: the invariant is kept as long
as the facts that tie the flags to the calls are. -/
theorem Inv_destroy_set (n m : Int) (s : Sys) (l : List Addr) (d : Nat) (v : DestroyState)
    (qc pc : Int) (ps : Nat) (hs : Inv n m s l)
    (ho1 : s.destroyers d ≠ .idle) (ho2 : ∀ k, s.destroyers d ≠ .joining k)
    (ho3 : s.destroyers d ≠ .returned 0)
    (hv2 : ∀ k, v ≠ .joining k) (hv3 : v ≠ .returned 0)
    (hclose : pc ≠ 0 → qc ≠ 0 ∧ l = [])
    (hpast : ∀ d', (setAt s.destroyers d v d').past = true → qc ≠ 0)
    (hdr : ∀ d', (setAt s.destroyers d v d').drained = true → pc ≠ 0)
    (huniq : ∀ d1 d2, (setAt s.destroyers d v d1).past = true →
      (setAt s.destroyers d v d2).past = true → d1 = d2)
    (hps : ps = if qc = 0 then 0 else 1) (hfr : s.frees ≤ ps) :
    Inv n m { s with pool := { s.pool with queue_close := qc, pool_close := pc }
                     destroyers := setAt s.destroyers d v
                     passes := ps } l := by
  have hsame : ∀ d' w, ((∃ k, w = DestroyState.joining k) ∨ w = .returned 0) →
      (setAt s.destroyers d v d' = w ↔ s.destroyers d' = w) := by
    intro d' w hw
    by_cases hdd : d' = d
    · subst hdd
      rw [setAt_same]
      constructor
      · intro e
        subst e
        rcases hw with ⟨k, hk⟩ | hk
        · exact absurd hk (hv2 k)
        · exact absurd hk hv3
      · intro e
        rcases hw with ⟨k, hk⟩ | hk
        · exact absurd (e.trans hk) (ho2 k)
        · exact absurd (e.trans hk) ho3
    · rw [setAt_other _ _ _ _ hdd]
  exact { hs with
    dbound := by
      intro d' hd'
      by_cases hdd : d' = d
      · subst hdd
        exact absurd (hs.dbound d' hd') ho1
      · simp only
        rw [setAt_other _ _ _ _ hdd]
        exact hs.dbound d' hd'
    close := hclose
    past := hpast
    drained := hdr
    uniq := huniq
    passes := hps
    frees := hfr
    joining := fun d' k hd' => hs.joining d' k ((hsame d' _ (Or.inl ⟨k, rfl⟩)).mp hd')
    returned := fun d' hd' => hs.returned d' ((hsame d' _ (Or.inr rfl)).mp hd')
    joins_zero := by
      intro hj
      obtain ⟨d', hd'⟩ := hs.joins_zero hj
      refine ⟨d', ?_⟩
      rcases hd' with ⟨k, hk⟩ | hk
      · exact Or.inl ⟨k, (hsame d' _ (Or.inl ⟨k, rfl⟩)).mpr hk⟩
      · exact Or.inr ((hsame d' _ (Or.inr rfl)).mpr hk) }

theorem setAt_cases {α : Type} (f : Nat → α) (i : Nat) (v : α) (P : α → Prop) (j : Nat)
    (h : P (setAt f i v j)) : (j = i ∧ P v) ∨ (j ≠ i ∧ P (f j)) := by
  by_cases hji : j = i
  · subst hji
    rw [setAt_same] at h
    exact Or.inl ⟨rfl, h⟩
  · rw [setAt_other _ _ _ _ hji] at h
    exact Or.inr ⟨hji, h⟩

theorem Inv_destroy_enter (n m : Int) (s s' : Sys) (l : List Addr) (d : Nat) (lk ul : Bool)
    (hs : Inv n m s l) (h : step_destroy_enter s d lk ul = some s') : Inv n m s' l := by
  rcases step_destroy_enter_inv _ _ _ _ _ h with
    ⟨hd, _, rfl⟩ | ⟨hd, _, hq, hp, hc, rfl⟩ | ⟨hd, _, hq, hp, hc, rfl⟩ | ⟨hd, hc, rfl⟩ |
    ⟨hd, hc, rfl⟩
  · -- rejected at line 247 or 252
    refine Inv_destroy_set n m s l d _ s.pool.queue_close s.pool.pool_close s.passes hs
      (by rw [hd]; simp) (by rw [hd]; simp) (by rw [hd]; simp) (by simp) (by simp)
      hs.close ?_ ?_ ?_ hs.passes hs.frees
    · intro d' hd'
      rcases setAt_cases _ _ _ (fun w : DestroyState => w.past = true) d' hd' with ⟨_, hv⟩ | ⟨_, hv⟩
      · simp [DestroyState.past] at hv
      · exact hs.past d' hv
    · intro d' hd'
      rcases setAt_cases _ _ _ (fun w : DestroyState => w.drained = true) d' hd' with ⟨_, hv⟩ | ⟨_, hv⟩
      · simp [DestroyState.drained] at hv
      · exact hs.drained d' hv
    · intro d1 d2 h1 h2
      rcases setAt_cases _ _ _ (fun w : DestroyState => w.past = true) d1 h1 with ⟨_, hv⟩ | ⟨_, hv1⟩
      · simp [DestroyState.past] at hv
      · rcases setAt_cases _ _ _ (fun w : DestroyState => w.past = true) d2 h2 with ⟨_, hv⟩ | ⟨_, hv2⟩
        · simp [DestroyState.past] at hv
        · exact hs.uniq d1 d2 hv1 hv2
  · -- past the check, queue not empty: wait at line 258
    have hnopast : ∀ d', (s.destroyers d').past = true → False :=
      fun d' hd' => hs.past d' hd' hq
    have hp0 : s.passes = 0 := by rw [hs.passes, if_pos hq]
    refine Inv_destroy_set n m s l d _ 1 s.pool.pool_close (s.passes + 1) hs
      (by rw [hd]; simp) (by rw [hd]; simp) (by rw [hd]; simp) (by simp) (by simp)
      ?_ ?_ ?_ ?_ ?_ ?_
    · intro hpc; exact absurd hp hpc
    · intro _ _; simp
    · intro d' hd'
      rcases setAt_cases _ _ _ (fun w : DestroyState => w.drained = true) d' hd' with ⟨_, hv⟩ | ⟨_, hv⟩
      · simp [DestroyState.drained] at hv
      · exact absurd (destroy_drained_past _ hv) (fun e => hnopast d' e)
    · intro d1 d2 h1 h2
      rcases setAt_cases _ _ _ (fun w : DestroyState => w.past = true) d1 h1 with ⟨e1, _⟩ | ⟨_, hv1⟩
      · rcases setAt_cases _ _ _ (fun w : DestroyState => w.past = true) d2 h2 with ⟨e2, _⟩ | ⟨_, hv2⟩
        · rw [e1, e2]
        · exact absurd hv2 (fun e => hnopast d2 e)
      · exact absurd hv1 (fun e => hnopast d1 e)
    · rw [hp0]; simp
    · have := hs.frees; omega
  · -- past the check, queue empty: lines 262-264
    have hnopast : ∀ d', (s.destroyers d').past = true → False :=
      fun d' hd' => hs.past d' hd' hq
    have hp0 : s.passes = 0 := by rw [hs.passes, if_pos hq]
    have hl : l = [] := by
      have := hs.len
      rw [hc] at this
      exact List.length_eq_zero.mp (by exact_mod_cast this.symm)
    refine Inv_destroy_set n m s l d _ 1 1 (s.passes + 1) hs
      (by rw [hd]; simp) (by rw [hd]; simp) (by rw [hd]; simp)
      (by intro k; split <;> simp) (by split <;> simp)
      ?_ ?_ ?_ ?_ ?_ ?_
    · intro _; exact ⟨by simp, hl⟩
    · intro _ _; simp
    · intro _ _; simp
    · intro d1 d2 h1 h2
      rcases setAt_cases _ _ _ (fun w : DestroyState => w.past = true) d1 h1 with ⟨e1, _⟩ | ⟨_, hv1⟩
      · rcases setAt_cases _ _ _ (fun w : DestroyState => w.past = true) d2 h2 with ⟨e2, _⟩ | ⟨_, hv2⟩
        · rw [e1, e2]
        · exact absurd hv2 (fun e => hnopast d2 e)
      · exact absurd hv1 (fun e => hnopast d1 e)
    · rw [hp0]; simp
    · have := hs.frees; omega
  · -- woken with jobs still queued: wait again
    have hdp : (s.destroyers d).past = true := by rw [hd]; rfl
    refine Inv_destroy_set n m s l d _ s.pool.queue_close s.pool.pool_close s.passes hs
      (by rw [hd]; simp) (by rw [hd]; simp) (by rw [hd]; simp) (by simp) (by simp)
      hs.close ?_ ?_ ?_ hs.passes hs.frees
    · intro _ _; exact hs.past d hdp
    · intro d' hd'
      rcases setAt_cases _ _ _ (fun w : DestroyState => w.drained = true) d' hd' with ⟨_, hv⟩ | ⟨_, hv⟩
      · simp [DestroyState.drained] at hv
      · exact hs.drained d' hv
    · intro d1 d2 h1 h2
      have g1 : (s.destroyers d1).past = true := by
        rcases setAt_cases _ _ _ (fun w : DestroyState => w.past = true) d1 h1 with ⟨e1, _⟩ | ⟨_, hv1⟩
        · rw [e1]; exact hdp
        · exact hv1
      have g2 : (s.destroyers d2).past = true := by
        rcases setAt_cases _ _ _ (fun w : DestroyState => w.past = true) d2 h2 with ⟨e2, _⟩ | ⟨_, hv2⟩
        · rw [e2]; exact hdp
        · exact hv2
      exact hs.uniq d1 d2 g1 g2
  · -- woken with the queue drained: lines 262-264
    have hdp : (s.destroyers d).past = true := by rw [hd]; rfl
    have hl : l = [] := by
      have := hs.len
      rw [hc] at this
      exact List.length_eq_zero.mp (by exact_mod_cast this.symm)
    refine Inv_destroy_set n m s l d _ s.pool.queue_close 1 s.passes hs
      (by rw [hd]; simp) (by rw [hd]; simp) (by rw [hd]; simp)
      (by intro k; split <;> simp) (by split <;> simp)
      ?_ ?_ ?_ ?_ hs.passes hs.frees
    · intro _; exact ⟨hs.past d hdp, hl⟩
    · intro _ _; exact hs.past d hdp
    · intro _ _; simp
    · intro d1 d2 h1 h2
      have g1 : (s.destroyers d1).past = true := by
        rcases setAt_cases _ _ _ (fun w : DestroyState => w.past = true) d1 h1 with ⟨e1, _⟩ | ⟨_, hv1⟩
        · rw [e1]; exact hdp
        · exact hv1
      have g2 : (s.destroyers d2).past = true := by
        rcases setAt_cases _ _ _ (fun w : DestroyState => w.past = true) d2 h2 with ⟨e2, _⟩ | ⟨_, hv2⟩
        · rw [e2]; exact hdp
        · exact hv2
      exact hs.uniq d1 d2 g1 g2

theorem Inv_destroy_wake (n m : Int) (s s' : Sys) (l : List Addr) (d : Nat)
    (hs : Inv n m s l) (h : step_destroy_wake s d = some s') : Inv n m s' l := by
  unfold step_destroy_wake at h
  split at h
  · rename_i hd
    simp only [Option.some.injEq] at h
    subst h
    have hdp : (s.destroyers d).past = true := by rw [hd]; rfl
    refine Inv_destroy_set n m s l d _ s.pool.queue_close s.pool.pool_close s.passes hs
      (by rw [hd]; simp) (by rw [hd]; simp) (by rw [hd]; simp) (by simp) (by simp)
      hs.close ?_ ?_ ?_ hs.passes hs.frees
    · intro _ _; exact hs.past d hdp
    · intro d' hd'
      rcases setAt_cases _ _ _ (fun w : DestroyState => w.drained = true) d' hd' with ⟨_, hv⟩ | ⟨_, hv⟩
      · simp [DestroyState.drained] at hv
      · exact hs.drained d' hv
    · intro d1 d2 h1 h2
      have g1 : (s.destroyers d1).past = true := by
        rcases setAt_cases _ _ _ (fun w : DestroyState => w.past = true) d1 h1 with ⟨e1, _⟩ | ⟨_, hv1⟩
        · rw [e1]; exact hdp
        · exact hv1
      have g2 : (s.destroyers d2).past = true := by
        rcases setAt_cases _ _ _ (fun w : DestroyState => w.past = true) d2 h2 with ⟨e2, _⟩ | ⟨_, hv2⟩
        · rw [e2]; exact hdp
        · exact hv2
      exact hs.uniq d1 d2 g1 g2
  · simp at h

theorem Inv_wake_workers (n m : Int) (s : Sys) (l : List Addr) (hs : Inv n m s l) :
    Inv n m { s with workers := fun i => (s.workers i).wake } l :=
  { hs with
    held := fun j b hj => hs.held j b ((worker_wake_holding _ _).mp hj)
    held_inj := fun j k b hj hk => hs.held_inj j k b ((worker_wake_holding _ _).mp hj)
      ((worker_wake_holding _ _).mp hk)
    held_null := fun j hj => hs.held_null j ((worker_wake_holding _ _).mp hj)
    wbound := fun j hj => (worker_wake_absent _).mpr (hs.wbound j hj)
    joining := by
      intro d k hd
      obtain ⟨e1, e2⟩ := hs.joining d k hd
      exact ⟨e1, fun j hj => (worker_wake_exited _).mpr (e2 j hj)⟩
    returned := fun d hd j hj => (worker_wake_exited _).mpr (hs.returned d hd j hj) }

theorem Inv_wake_producers (n m : Int) (s : Sys) (l : List Addr) (hs : Inv n m s l) :
    Inv n m { s with producers := fun i => (s.producers i).wake } l :=
  { hs with
    pbound := fun j hj => (producer_wake_idle _).mpr (hs.pbound j hj) }

/-- A call that is past its critical section moves on: the flags stay as they are. -/
theorem Inv_destroy_move (n m : Int) (s : Sys) (l : List Addr) (d : Nat) (v : DestroyState)
    (jn fr : Nat) (hs : Inv n m s l) (hd : (s.destroyers d).drained = true)
    (hv : v.drained = true) (hjn : jn ≤ n.toNat) (hfr : fr ≤ s.passes)
    (hj : ∀ k, v = .joining k → jn = k ∧ ∀ i, i < k → s.workers i = .exited)
    (hr : v = .returned 0 → ∀ i : Nat, (i : Int) < n → s.workers i = .exited)
    (hz : jn ≠ 0 → (∃ k, v = .joining k) ∨ v = .returned 0) :
    Inv n m { s with destroyers := setAt s.destroyers d v, joins := jn, frees := fr } l := by
  have hdp : (s.destroyers d).past = true := destroy_drained_past _ hd
  have hvp : v.past = true := destroy_drained_past _ hv
  have hpast : ∀ d', (setAt s.destroyers d v d').past = true → (s.destroyers d').past = true := by
    intro d' hd'
    rcases setAt_cases _ _ _ (fun w : DestroyState => w.past = true) d' hd' with
      ⟨e, _⟩ | ⟨_, g⟩
    · rw [e]; exact hdp
    · exact g
  exact { hs with
    dbound := by
      intro d' hd'
      by_cases hdd : d' = d
      · subst hdd
        have := hs.dbound d' hd'
        rw [this] at hd
        simp [DestroyState.drained] at hd
      · simp only
        rw [setAt_other _ _ _ _ hdd]
        exact hs.dbound d' hd'
    past := fun d' hd' => hs.past d' (hpast d' hd')
    drained := fun _ _ => hs.drained d hd
    uniq := fun d1 d2 h1 h2 => hs.uniq d1 d2 (hpast d1 h1) (hpast d2 h2)
    frees := hfr
    joins_le := hjn
    joining := by
      intro d' k hd'
      rcases setAt_cases _ _ _ (fun w : DestroyState => w = .joining k) d' hd' with
        ⟨_, g⟩ | ⟨hne, g⟩
      · exact hj k g
      · exact absurd (hs.uniq d' d (by rw [g]; rfl) hdp) hne
    returned := by
      intro d' hd'
      rcases setAt_cases _ _ _ (fun w : DestroyState => w = .returned 0) d' hd' with
        ⟨_, g⟩ | ⟨_, g⟩
      · exact hr g
      · exact hs.returned d' g
    joins_zero := by
      intro hjz
      refine ⟨d, ?_⟩
      simp only
      rw [setAt_same]
      exact hz hjz }

/-- As long as a call has not reached its join loop, no `pthread_join` has returned. -/
theorem Inv_joins_zero (n m : Int) (s : Sys) (l : List Addr) (d : Nat) (hs : Inv n m s l)
    (hd : (s.destroyers d).past = true) (h1 : ∀ k, s.destroyers d ≠ .joining k)
    (h2 : s.destroyers d ≠ .returned 0) : s.joins = 0 := by
  by_contra hne
  obtain ⟨d', hd'⟩ := hs.joins_zero hne
  have hd'p : (s.destroyers d').past = true := by
    rcases hd' with ⟨k, hk⟩ | hk <;> rw [hk] <;> simp [DestroyState.past]
  have hdd : d' = d := hs.uniq d' d hd'p hd
  subst hdd
  rcases hd' with ⟨k, hk⟩ | hk
  · exact h1 k hk
  · exact h2 hk

theorem Inv_destroy_broadcast_not_empty (n m : Int) (s s' : Sys) (l : List Addr) (d : Nat)
    (hs : Inv n m s l) (h : step_destroy_broadcast_not_empty s d = some s') : Inv n m s' l := by
  unfold step_destroy_broadcast_not_empty at h
  split at h
  · rename_i hd
    simp only [Option.some.injEq] at h
    subst h
    have hz : s.joins = 0 :=
      Inv_joins_zero n m s l d hs (by rw [hd]; rfl) (by rw [hd]; simp) (by rw [hd]; simp)
    have hw := Inv_wake_workers n m s l hs
    exact Inv_destroy_move n m _ l d .broadcast_done s.joins s.frees hw (by rw [hd]; rfl) rfl
      hs.joins_le hs.frees (by simp) (by simp) (fun e => absurd hz e)
  · simp at h

theorem Inv_destroy_broadcast_not_full (n m : Int) (s s' : Sys) (l : List Addr) (d : Nat)
    (hs : Inv n m s l) (h : step_destroy_broadcast_not_full s d = some s') : Inv n m s' l := by
  unfold step_destroy_broadcast_not_full at h
  split at h
  · rename_i hd
    simp only [Option.some.injEq] at h
    subst h
    have hz : s.joins = 0 :=
      Inv_joins_zero n m s l d hs (by rw [hd]; rfl) (by rw [hd]; simp) (by rw [hd]; simp)
    have hw := Inv_wake_producers n m s l hs
    refine Inv_destroy_move n m _ l d (.joining 0) s.joins s.frees hw (by rw [hd]; rfl) rfl
      hs.joins_le hs.frees ?_ (by simp) (fun _ => Or.inl ⟨0, rfl⟩)
    intro k hk
    simp only [DestroyState.joining.injEq] at hk
    subst hk
    exact ⟨hz, fun i hi => absurd hi (Nat.not_lt_zero i)⟩
  · simp at h

theorem Inv_destroy_join (n m : Int) (s s' : Sys) (l : List Addr) (d : Nat)
    (hs : Inv n m s l) (h : step_destroy_join s d = some s') : Inv n m s' l := by
  unfold step_destroy_join at h
  split at h
  · rename_i k hd
    split at h
    · rename_i hk
      simp only [Option.some.injEq] at h
      subst h
      obtain ⟨e1, e2⟩ := hs.joining d k hd
      have hkn : (k : Int) < n := by rw [← hs.tn]; exact hk.1
      refine Inv_destroy_move n m s l d (.joining (k + 1)) (s.joins + 1) s.frees hs
        (by rw [hd]; rfl) rfl (by omega) hs.frees ?_ (by simp) (fun _ => Or.inl ⟨k + 1, rfl⟩)
      intro k' hk'
      simp only [DestroyState.joining.injEq] at hk'
      subst hk'
      refine ⟨by omega, ?_⟩
      intro i hi
      by_cases hik : i = k
      · subst hik; exact hk.2
      · exact e2 i (by omega)
    · simp at h
  · simp at h

theorem free_queue_none (h : Heap) (fuel : Nat) : free_queue h none fuel = some (h, 0) := by
  cases fuel <;> rfl

theorem Inv_destroy_teardown (n m : Int) (s s' : Sys) (l : List Addr) (d fuel : Nat)
    (hs : Inv n m s l) (hf : s.frees = 0) (h : step_destroy_teardown s d fuel = some s') :
    Inv n m s' l := by
  unfold step_destroy_teardown at h
  split at h
  · rename_i k hd
    split at h
    · simp at h
    · rename_i hk
      have hdr : (s.destroyers d).drained = true := by rw [hd]; rfl
      have hl : l = [] := (hs.close (hs.drained d hdr)).2
      have hhead : s.pool.queue_head = none := by
        have := hs.chain
        rw [hl] at this
        exact this
      rw [hhead, free_queue_none] at h
      simp only [Option.some.injEq] at h
      subst h
      obtain ⟨e1, e2⟩ := hs.joining d k hd
      have hq : s.pool.queue_close ≠ 0 := hs.past d (destroy_drained_past _ hdr)
      have hp1 : s.passes = 1 := by rw [hs.passes, if_neg hq]
      refine Inv_destroy_move n m s l d (.returned 0) s.joins (s.frees + 1) hs hdr rfl
        hs.joins_le (by omega) (by simp) ?_ (fun _ => Or.inr rfl)
      intro _ i hi
      apply e2
      rw [hs.tn] at hk
      omega
  · simp at h

theorem Inv_step (n m : Int) (s s' : Sys) (l : List Addr) (a : Action) (hM : m ≤ INT_MAX)
    (hs : Inv n m s l) (h : step s a = some s') : ∃ l', Inv n m s' l' := by
  unfold step at h
  split at h
  · simp at h
  · rename_i hf
    simp only [ne_eq, Decidable.not_not] at hf
    cases a with
    | call_add c x =>
      simp only at h
      split at h
      · simp at h
      · exact ⟨l, Inv_call_add n m s s' l c x hs h⟩
    | add_enter i lk job ul => exact Inv_add_enter n m s s' l i lk job ul hM hs h
    | add_wake i => exact ⟨l, Inv_add_wake n m s s' l i hs h⟩
    | add_signal i tgt => exact ⟨l, Inv_add_signal n m s s' l i tgt hs h⟩
    | worker_enter i acq ul tgt => exact Inv_worker_enter n m s s' l i acq ul tgt hM hs h
    | worker_wake i => exact ⟨l, Inv_worker_wake n m s s' l i hs h⟩
    | worker_run i => exact ⟨l, Inv_worker_run n m s s' l i hs h⟩
    | call_destroy => exact ⟨l, Inv_call_destroy n m s s' l hs h⟩
    | destroy_enter d lk ul => exact ⟨l, Inv_destroy_enter n m s s' l d lk ul hs h⟩
    | destroy_wake d => exact ⟨l, Inv_destroy_wake n m s s' l d hs h⟩
    | destroy_broadcast_not_empty d =>
      exact ⟨l, Inv_destroy_broadcast_not_empty n m s s' l d hs h⟩
    | destroy_broadcast_not_full d =>
      exact ⟨l, Inv_destroy_broadcast_not_full n m s s' l d hs h⟩
    | destroy_join d => exact ⟨l, Inv_destroy_join n m s s' l d hs h⟩
    | destroy_teardown d fuel => exact ⟨l, Inv_destroy_teardown n m s s' l d fuel hs hf h⟩

theorem Inv_run (n m : Int) (hM : m ≤ INT_MAX) :
    ∀ (acts : List Action) (s s' : Sys) (l : List Addr), Inv n m s l → run s acts = some s' →
      ∃ l', Inv n m s' l' := by
  intro acts
  induction acts with
  | nil =>
    intro s s' l hs h
    simp only [run, Option.some.injEq] at h
    subst h
    exact ⟨l, hs⟩
  | cons a as ih =>
    intro s s' l hs h
    simp only [run] at h
    split at h
    · simp at h
    · rename_i s1 h1
      obtain ⟨l1, hl1⟩ := Inv_step n m s s1 l a hM hs h1
      exact ih s1 s' l1 hl1 h

theorem Inv_reachable (n m : Int) (hm : 0 < m) (hM : m ≤ INT_MAX) (acts : List Action)
    (s : Sys) (h : run (sysInit n m) acts = some s) : ∃ l, Inv n m s l :=
  Inv_run n m hM acts _ s [] (Inv_init n m hm) h

theorem range_flatMap_congr {α : Type} (f g : Nat → List α) :
    ∀ k : Nat, (∀ i, i < k → f i = g i) →
      (List.range k).flatMap f = (List.range k).flatMap g := by
  intro k
  induction k with
  | zero => intro _; rfl
  | succ k ih =>
    intro h
    rw [List.range_succ, List.flatMap_append, List.flatMap_append,
      ih (fun i hi => h i (by omega))]
    simp [h k (by omega)]

theorem range_flatMap_insert {α : Type} (f g : Nat → List α) (i : Nat) (c : α)
    (hne : ∀ j, j ≠ i → g j = f j) (hf : f i = []) (hg : g i = [c]) :
    ∀ k : Nat, i < k → ((List.range k).flatMap g).Perm (c :: (List.range k).flatMap f) := by
  intro k
  induction k with
  | zero => intro hi; omega
  | succ k ih =>
    intro hi
    rw [List.range_succ, List.flatMap_append, List.flatMap_append]
    by_cases hik : i = k
    · subst hik
      rw [range_flatMap_congr g f i (fun j hj => hne j (by omega))]
      simp only [List.flatMap_cons, List.flatMap_nil, List.append_nil, hf, hg]
      exact List.perm_append_comm
    · have h1 := ih (by omega)
      simp only [List.flatMap_cons, List.flatMap_nil, List.append_nil, hne k (Ne.symm hik)]
      exact (List.Perm.append_right _ h1)

theorem worker_wake_job (w : WorkerState) (h : Heap) : w.wake.job h = w.job h := by
  cases w <;> simp [WorkerState.wake, WorkerState.job]

theorem perm_step_in {α : Type} (X H H' P : List α) (c : α)
    (h1 : (X ++ H).Perm P) (h2 : H'.Perm (c :: H)) : (X ++ H').Perm (P ++ [c]) := by
  have a1 : (X ++ H').Perm (X ++ c :: H) := List.Perm.append_left X h2
  have a2 : (X ++ c :: H).Perm (c :: (X ++ H)) := List.perm_middle
  have a3 : (c :: (X ++ H)).Perm (c :: P) := List.Perm.cons c h1
  have a4 : (c :: P).Perm (P ++ [c]) := by
    have := @List.perm_append_comm _ [c] P
    simpa using this
  exact a1.trans (a2.trans (a3.trans a4))

theorem perm_step_out {α : Type} (X H H' P : List α) (c : α)
    (h1 : (X ++ H).Perm P) (h2 : H.Perm (c :: H')) : ((X ++ [c]) ++ H').Perm P := by
  have a1 : ((X ++ [c]) ++ H') = X ++ c :: H' := by simp
  rw [a1]
  exact (List.Perm.append_left X h2.symm).trans h1

theorem heldJobs_congr (s s' : Sys) (k : Nat)
    (h : ∀ i, i < k → (s'.workers i).job s'.heap = (s.workers i).job s.heap) :
    heldJobs s' k = heldJobs s k :=
  range_flatMap_congr _ _ k h

theorem inflightJobs_congr (s s' : Sys) (hn : s'.nprod = s.nprod)
    (h : ∀ i, i < s.nprod → (s'.producers i).job = (s.producers i).job) :
    inflightJobs s' = inflightJobs s := by
  unfold inflightJobs
  rw [hn]
  exact range_flatMap_congr _ _ _ h

theorem worker_index_lt (n m : Int) (s : Sys) (l : List Addr) (hs : Inv n m s l) (i : Nat)
    (h : s.workers i ≠ .absent) : i < n.toNat := by
  by_contra hlt
  apply h
  apply hs.wbound
  omega

theorem producer_index_lt (n m : Int) (s : Sys) (l : List Addr) (hs : Inv n m s l) (i : Nat)
    (h : s.producers i ≠ .idle) : i < s.nprod := by
  by_contra hlt
  apply h
  apply hs.pbound
  omega

theorem SyncInv_call_add (n : Int) (s s' : Sys) (c x : Nat)
    (h2 : SyncInv n s) (h : step_call_add s c x = some s') : SyncInv n s' := by
  simp only [step_call_add, Option.some.injEq] at h
  subst h
  refine ⟨h2.exec, ?_⟩
  have e : inflightJobs { s with nprod := s.nprod + 1
                                 producers := setAt s.producers s.nprod (.called c x) }
      = inflightJobs s := by
    unfold inflightJobs
    simp only
    rw [List.range_succ, List.flatMap_append]
    simp only [List.flatMap_cons, List.flatMap_nil, List.append_nil, setAt_same,
      ProducerState.job]
    exact range_flatMap_congr _ _ _ (fun i hi => by rw [setAt_other _ _ _ _ (by omega)])
  simp only
  rw [e]
  exact h2.acc

theorem setAt_job_quiet (f : Nat → ProducerState) (i : Nat) (v : ProducerState)
    (h1 : (f i).job = []) (h2 : v.job = []) :
    ∀ j, (setAt f i v j).job = (f j).job := by
  intro j
  by_cases hji : j = i
  · subst hji
    rw [setAt_same, h1, h2]
  · rw [setAt_other _ _ _ _ hji]

/-- No call appends or returns 0: the pairs in flight stay the same. -/
theorem acc_quiet (s s' : Sys) (hn : s'.nprod = s.nprod)
    (hj : ∀ j, (s'.producers j).job = (s.producers j).job)
    (hacc : s'.accepted = s.accepted) (happ : s'.appended = s.appended)
    (h : (s.accepted ++ inflightJobs s).Perm s.appended) :
    (s'.accepted ++ inflightJobs s').Perm s'.appended := by
  rw [hacc, happ, inflightJobs_congr s s' hn (fun j _ => hj j)]
  exact h

/-- Call `i` appends `c` and is then in flight. -/
theorem acc_in (s s' : Sys) (i : Nat) (c : Nat × Nat) (hn : s'.nprod = s.nprod)
    (hne : ∀ j, j ≠ i → s'.producers j = s.producers j)
    (h1 : (s.producers i).job = []) (h2 : (s'.producers i).job = [c]) (hi : i < s.nprod)
    (hacc : s'.accepted = s.accepted) (happ : s'.appended = s.appended ++ [c])
    (h : (s.accepted ++ inflightJobs s).Perm s.appended) :
    (s'.accepted ++ inflightJobs s').Perm s'.appended := by
  rw [hacc, happ]
  refine perm_step_in _ _ _ _ _ h ?_
  unfold inflightJobs
  rw [hn]
  exact range_flatMap_insert _ _ i c (fun j hj => by rw [hne j hj]) h1 h2 _ hi

/-- Call `i`, in flight with `c`, returns 0. -/
theorem acc_out (s s' : Sys) (i : Nat) (c : Nat × Nat) (hn : s'.nprod = s.nprod)
    (hne : ∀ j, j ≠ i → s'.producers j = s.producers j)
    (h1 : (s.producers i).job = [c]) (h2 : (s'.producers i).job = []) (hi : i < s.nprod)
    (hacc : s'.accepted = s.accepted ++ [c]) (happ : s'.appended = s.appended)
    (h : (s.accepted ++ inflightJobs s).Perm s.appended) :
    (s'.accepted ++ inflightJobs s').Perm s'.appended := by
  rw [hacc, happ]
  refine perm_step_out _ _ _ _ c h ?_
  unfold inflightJobs
  rw [hn]
  exact range_flatMap_insert _ _ i c (fun j hj => by rw [hne j hj]) h2 h1 _ hi

/-- No worker pops or runs a job: the pairs held stay the same. -/
theorem exec_quiet (s s' : Sys) (k : Nat)
    (hj : ∀ j, (s'.workers j).job s'.heap = (s.workers j).job s.heap)
    (hex : s'.executed = s.executed) (hpop : s'.popped = s.popped)
    (h : (s.executed ++ heldJobs s k).Perm s.popped) :
    (s'.executed ++ heldJobs s' k).Perm s'.popped := by
  rw [hex, hpop, heldJobs_congr s s' k (fun j _ => hj j)]
  exact h

/-- Worker `i` pops `c` and holds it. -/
theorem exec_in (s s' : Sys) (k i : Nat) (c : Nat × Nat)
    (hne : ∀ j, j ≠ i → (s'.workers j).job s'.heap = (s.workers j).job s.heap)
    (h1 : (s.workers i).job s.heap = []) (h2 : (s'.workers i).job s'.heap = [c]) (hi : i < k)
    (hex : s'.executed = s.executed) (hpop : s'.popped = s.popped ++ [c])
    (h : (s.executed ++ heldJobs s k).Perm s.popped) :
    (s'.executed ++ heldJobs s' k).Perm s'.popped := by
  rw [hex, hpop]
  exact perm_step_in _ _ _ _ _ h (range_flatMap_insert _ _ i c hne h1 h2 _ hi)

/-- Worker `i`, holding `c`, runs it. -/
theorem exec_out (s s' : Sys) (k i : Nat) (c : Nat × Nat)
    (hne : ∀ j, j ≠ i → (s'.workers j).job s'.heap = (s.workers j).job s.heap)
    (h1 : (s.workers i).job s.heap = [c]) (h2 : (s'.workers i).job s'.heap = []) (hi : i < k)
    (hex : s'.executed = s.executed ++ [c]) (hpop : s'.popped = s.popped)
    (h : (s.executed ++ heldJobs s k).Perm s.popped) :
    (s'.executed ++ heldJobs s' k).Perm s'.popped := by
  rw [hex, hpop]
  exact perm_step_out _ _ _ _ c h
    (range_flatMap_insert _ _ i c (fun j hj => (hne j hj).symm) h2 h1 _ hi)

theorem SyncInv_add_enter (n m : Int) (s s' : Sys) (l : List Addr) (i : Nat) (lk : Bool)
    (job : Option Addr) (ul : Bool) (hul : ul = true)
    (hs : Inv n m s l) (h2 : SyncInv n s) (h : step_add_enter s i lk job ul = some s') :
    SyncInv n s' := by
  obtain ⟨c, x, hst, hfresh, hcase⟩ := step_add_enter_inv _ _ _ _ _ _ h
  have hjob : (s.producers i).job = [] := by
    rcases hst with e | e <;> rw [e] <;> rfl
  have hni : s.producers i ≠ .idle := by
    rcases hst with e | e <;> rw [e] <;> simp
  rcases hcase with ⟨rfl, _, _⟩ | rfl | ⟨a, m2, rfl, hopen, hnf, hlink, rfl⟩
  · refine ⟨h2.exec, acc_quiet s _ rfl ?_ rfl rfl h2.acc⟩
    exact setAt_job_quiet _ i _ hjob rfl
  · refine ⟨h2.exec, acc_quiet s _ rfl ?_ rfl rfl h2.acc⟩
    exact setAt_job_quiet _ i _ hjob rfl
  · subst hul
    have hfr : s.heap a = none := by
      simpa [mallocResult] using hfresh
    obtain ⟨_, _, _, _, _, _, _, hal, hframe, hcont, _⟩ :=
      link_job_spec s.pool s.heap l c x a m2 hs.chain hs.len hs.tail hs.nodup hfr hlink
    constructor
    · refine exec_quiet s _ _ ?_ rfl rfl h2.exec
      intro j
      simp only
      cases hw : s.workers j with
      | holding jb =>
        cases jb with
        | none => exact absurd hw (hs.held_null j)
        | some b =>
          obtain ⟨g1, g2⟩ := hs.held j b hw
          have hba : b ≠ a := fun e => g2 (e ▸ hfr)
          simp only [WorkerState.job, jobContent, hframe b hba g1]
      | _ => rfl
    · refine acc_in s _ i (c, x) rfl ?_ hjob ?_ (producer_index_lt n m s l hs i hni) rfl rfl
        h2.acc
      · intro j hj
        simp only
        rw [setAt_other _ _ _ _ hj]
      · simp only [if_true]
        rw [setAt_same]
        rfl

theorem SyncInv_add_wake (n : Int) (s s' : Sys) (i : Nat)
    (h2 : SyncInv n s) (h : step_add_wake s i = some s') : SyncInv n s' := by
  unfold step_add_wake at h
  split at h
  · rename_i c x hp
    simp only [Option.some.injEq] at h
    subst h
    refine ⟨h2.exec, acc_quiet s _ rfl ?_ rfl rfl h2.acc⟩
    exact setAt_job_quiet _ i _ (by rw [hp]; rfl) rfl
  · simp at h

theorem signal_not_empty_job (s : Sys) (tgt : Option Nat) (h : Heap) (j : Nat) :
    (signal_not_empty s tgt j).job h = (s.workers j).job h := by
  cases tgt with
  | none => rfl
  | some t =>
    simp only [signal_not_empty, setAt_apply]
    split
    · rename_i e; subst e; exact worker_wake_job _ _
    · rfl

theorem SyncInv_add_signal (n m : Int) (s s' : Sys) (l : List Addr) (i : Nat)
    (tgt : Option Nat) (hs : Inv n m s l)
    (h2 : SyncInv n s) (h : step_add_signal s i tgt = some s') : SyncInv n s' := by
  unfold step_add_signal at h
  split at h
  · rename_i c x hp
    split at h
    · simp only [Option.some.injEq] at h
      subst h
      constructor
      · exact exec_quiet s _ _ (fun j => signal_not_empty_job s tgt _ j) rfl rfl h2.exec
      · refine acc_out s _ i (c, x) rfl ?_ (by rw [hp]; rfl) ?_
          (producer_index_lt n m s l hs i (by rw [hp]; simp)) rfl rfl h2.acc
        · intro j hj
          simp only
          rw [setAt_other _ _ _ _ hj]
        · simp only
          rw [setAt_same]
          rfl
    · simp at h
  · simp at h

theorem setAt_wjob_quiet (f : Nat → WorkerState) (h : Heap) (i : Nat) (v : WorkerState)
    (h1 : (f i).job h = []) (h2 : v.job h = []) :
    ∀ j, (setAt f i v j).job h = (f j).job h := by
  intro j
  by_cases hji : j = i
  · subst hji
    rw [setAt_same, h1, h2]
  · rw [setAt_other _ _ _ _ hji]

theorem SyncInv_worker_enter (n m : Int) (s s' : Sys) (l : List Addr) (i : Nat)
    (acq ul : Bool) (tgt : Option Nat) (hul : ul = true) (hM : m ≤ INT_MAX)
    (hs : Inv n m s l) (h2 : SyncInv n s) (h : step_worker_enter s i acq ul tgt = some s') :
    SyncInv n s' := by
  obtain ⟨hst, hcase⟩ := step_worker_enter_inv _ _ _ _ _ _ h
  have hjob : (s.workers i).job s.heap = [] := by
    rcases hst with e | e <;> rw [e] <;> rfl
  have h1 : s.workers i ≠ .absent := by rcases hst with e | e <;> rw [e] <;> simp
  rcases hcase with ⟨rfl, _, _⟩ | ⟨rfl, _⟩ | ⟨p, job, _, hpc, hne, hpop, _, rfl⟩
  · refine ⟨exec_quiet s _ _ ?_ rfl rfl h2.exec, h2.acc⟩
    exact setAt_wjob_quiet _ _ i _ hjob rfl
  · refine ⟨exec_quiet s _ _ ?_ rfl rfl h2.exec, h2.acc⟩
    exact setAt_wjob_quiet _ _ i _ hjob rfl
  · subst hul
    have hmax : (l.length : Int) ≤ INT_MAX := le_trans hs.le_max hM
    obtain ⟨a, l', rfl, rfl, hal, _⟩ :=
      pop_job_spec s.pool p s.heap l job hs.chain hs.len hs.tail hmax hne hpop
    constructor
    · refine exec_in s _ _ i (content s.heap a) ?_ hjob ?_
        (worker_index_lt n m s _ hs i h1) rfl ?_ h2.exec
      · intro j hj
        simp only
        rw [setAt_other _ _ _ _ hj]
      · simp only [if_true]
        rw [setAt_same]
        exact jobContent_some _ _ hal
      · simp only
        rw [jobContent_some _ _ hal]
    · refine acc_quiet s _ rfl ?_ rfl rfl h2.acc
      intro j
      simp only
      split
      · exact producer_wake_job _
      · rfl

theorem SyncInv_worker_wake (n : Int) (s s' : Sys) (i : Nat)
    (h2 : SyncInv n s) (h : step_worker_wake s i = some s') : SyncInv n s' := by
  unfold step_worker_wake at h
  split at h
  · rename_i hw
    simp only [Option.some.injEq] at h
    subst h
    refine ⟨exec_quiet s _ _ ?_ rfl rfl h2.exec, h2.acc⟩
    exact setAt_wjob_quiet _ _ i _ (by rw [hw]; rfl) rfl
  · simp at h

theorem SyncInv_worker_run (n m : Int) (s s' : Sys) (l : List Addr) (i : Nat)
    (hs : Inv n m s l) (h2 : SyncInv n s) (h : step_worker_run s i = some s') :
    SyncInv n s' := by
  unfold step_worker_run at h
  split at h
  · rename_i job hw
    split at h
    · simp at h
    · rename_i c h' hrun
      simp only [Option.some.injEq] at h
      subst h
      unfold run_job at hrun
      split at hrun
      · simp at hrun
      · rename_i a
        split at hrun
        · simp at hrun
        · rename_i r hr
          simp only [Option.some.injEq, Prod.mk.injEq] at hrun
          obtain ⟨rfl, rfl⟩ := hrun
          refine ⟨?_, h2.acc⟩
          refine exec_out s _ _ i (r.callback, r.args) ?_ ?_ ?_
            (worker_index_lt n m s l hs i (by rw [hw]; simp)) rfl rfl h2.exec
          · intro j hj
            simp only
            rw [setAt_other _ _ _ _ hj]
            cases hwj : s.workers j with
            | holding jb =>
              cases jb with
              | none => exact absurd hwj (hs.held_null j)
              | some b =>
                have hba : b ≠ a := by
                  intro e
                  subst e
                  exact hj (hs.held_inj j i b hwj hw)
                simp only [WorkerState.job, jobContent, heap_set_other _ _ _ _ hba]
            | _ => rfl
          · rw [hw]
            simp [WorkerState.job, jobContent, hr]
          · simp only
            rw [setAt_same]
            rfl
  · simp at h

/-- The actions of `threadpool_destroy` keep the history of the jobs. -/
theorem SyncInv_destroy (n m : Int) (s s' : Sys) (l : List Addr) (a : Action)
    (hs : Inv n m s l) (h2 : SyncInv n s)
    (ha : a = .call_destroy ∨ (∃ d lk ul, a = .destroy_enter d lk ul) ∨
      (∃ d, a = .destroy_wake d) ∨ (∃ d, a = .destroy_broadcast_not_empty d) ∨
      (∃ d, a = .destroy_broadcast_not_full d) ∨ (∃ d, a = .destroy_join d) ∨
      (∃ d fuel, a = .destroy_teardown d fuel))
    (hf : s.frees = 0) (h : step s a = some s') : SyncInv n s' := by
  unfold step at h
  rw [if_neg (by simp [hf])] at h
  rcases ha with rfl | ⟨d, lk, ul, rfl⟩ | ⟨d, rfl⟩ | ⟨d, rfl⟩ | ⟨d, rfl⟩ | ⟨d, rfl⟩ |
    ⟨d, fuel, rfl⟩
  · simp only [step_call_destroy, Option.some.injEq] at h
    subst h
    exact ⟨h2.exec, h2.acc⟩
  · simp only at h
    unfold step_destroy_enter at h
    split at h
    · simp only [Option.some.injEq] at h
      subst h
      exact ⟨h2.exec, h2.acc⟩
    · simp only [Option.some.injEq] at h
      subst h
      exact ⟨h2.exec, h2.acc⟩
    · simp at h
  · simp only at h
    unfold step_destroy_wake at h
    split at h
    · simp only [Option.some.injEq] at h
      subst h
      exact ⟨h2.exec, h2.acc⟩
    · simp at h
  · simp only at h
    unfold step_destroy_broadcast_not_empty at h
    split at h
    · simp only [Option.some.injEq] at h
      subst h
      exact ⟨exec_quiet s _ _ (fun j => worker_wake_job _ _) rfl rfl h2.exec, h2.acc⟩
    · simp at h
  · simp only at h
    unfold step_destroy_broadcast_not_full at h
    split at h
    · simp only [Option.some.injEq] at h
      subst h
      exact ⟨h2.exec, acc_quiet s _ rfl (fun j => producer_wake_job _) rfl rfl h2.acc⟩
    · simp at h
  · simp only at h
    unfold step_destroy_join at h
    split at h
    · split at h
      · simp only [Option.some.injEq] at h
        subst h
        exact ⟨h2.exec, h2.acc⟩
      · simp at h
    · simp at h
  · simp only at h
    unfold step_destroy_teardown at h
    split at h
    · rename_i k hd
      split at h
      · simp at h
      · have hdr : (s.destroyers d).drained = true := by rw [hd]; rfl
        have hl : l = [] := (hs.close (hs.drained d hdr)).2
        have hhead : s.pool.queue_head = none := by
          have := hs.chain
          rw [hl] at this
          exact this
        rw [hhead, free_queue_none] at h
        simp only [Option.some.injEq] at h
        subst h
        exact ⟨h2.exec, h2.acc⟩
    · simp at h

theorem SyncInv_step (n m : Int) (s s' : Sys) (l : List Addr) (a : Action) (hM : m ≤ INT_MAX)
    (hs : Inv n m s l) (h2 : SyncInv n s) (hok : a.syncOk = true)
    (h : step s a = some s') : SyncInv n s' := by
  have hf : s.frees = 0 := by
    by_contra hne
    unfold step at h
    rw [if_pos hne] at h
    simp at h
  cases a with
  | call_add c x =>
    unfold step at h
    rw [if_neg (by simp [hf])] at h
    simp only at h
    split at h
    · simp at h
    · exact SyncInv_call_add n s s' c x h2 h
  | add_enter i lk job ul =>
    unfold step at h
    rw [if_neg (by simp [hf])] at h
    simp only [Action.syncOk, Bool.and_eq_true] at hok
    exact SyncInv_add_enter n m s s' l i lk job ul hok.2 hs h2 h
  | add_wake i =>
    unfold step at h
    rw [if_neg (by simp [hf])] at h
    exact SyncInv_add_wake n s s' i h2 h
  | add_signal i tgt =>
    unfold step at h
    rw [if_neg (by simp [hf])] at h
    exact SyncInv_add_signal n m s s' l i tgt hs h2 h
  | worker_enter i acq ul tgt =>
    unfold step at h
    rw [if_neg (by simp [hf])] at h
    simp only [Action.syncOk, Bool.and_eq_true] at hok
    exact SyncInv_worker_enter n m s s' l i acq ul tgt hok.2 hM hs h2 h
  | worker_wake i =>
    unfold step at h
    rw [if_neg (by simp [hf])] at h
    exact SyncInv_worker_wake n s s' i h2 h
  | worker_run i =>
    unfold step at h
    rw [if_neg (by simp [hf])] at h
    exact SyncInv_worker_run n m s s' l i hs h2 h
  | call_destroy => exact SyncInv_destroy n m s s' l _ hs h2 (Or.inl rfl) hf h
  | destroy_enter d lk ul =>
    exact SyncInv_destroy n m s s' l _ hs h2 (Or.inr (Or.inl ⟨d, lk, ul, rfl⟩)) hf h
  | destroy_wake d =>
    exact SyncInv_destroy n m s s' l _ hs h2 (Or.inr (Or.inr (Or.inl ⟨d, rfl⟩))) hf h
  | destroy_broadcast_not_empty d =>
    exact SyncInv_destroy n m s s' l _ hs h2 (Or.inr (Or.inr (Or.inr (Or.inl ⟨d, rfl⟩)))) hf h
  | destroy_broadcast_not_full d =>
    exact SyncInv_destroy n m s s' l _ hs h2
      (Or.inr (Or.inr (Or.inr (Or.inr (Or.inl ⟨d, rfl⟩))))) hf h
  | destroy_join d =>
    exact SyncInv_destroy n m s s' l _ hs h2
      (Or.inr (Or.inr (Or.inr (Or.inr (Or.inr (Or.inl ⟨d, rfl⟩)))))) hf h
  | destroy_teardown d fuel =>
    exact SyncInv_destroy n m s s' l _ hs h2
      (Or.inr (Or.inr (Or.inr (Or.inr (Or.inr (Or.inr ⟨d, fuel, rfl⟩)))))) hf h

theorem SyncInv_init (n m : Int) : SyncInv n (sysInit n m) := by
  constructor
  · have e : heldJobs (sysInit n m) n.toNat = [] := by
      unfold heldJobs
      rw [List.flatMap_eq_nil_iff]
      intro i _
      simp only [sysInit]
      split <;> rfl
    rw [e]
    simp [sysInit]
  · simp [sysInit, inflightJobs]

theorem SyncInv_run (n m : Int) (hM : m ≤ INT_MAX) :
    ∀ (acts : List Action) (s s' : Sys) (l : List Addr), Inv n m s l → SyncInv n s →
      (∀ a ∈ acts, a.syncOk = true) → run s acts = some s' → SyncInv n s' := by
  intro acts
  induction acts with
  | nil =>
    intro s s' l _ h2 _ h
    simp only [run, Option.some.injEq] at h
    subst h
    exact h2
  | cons a as ih =>
    intro s s' l hs h2 hok h
    simp only [run] at h
    split at h
    · simp at h
    · rename_i s1 h1
      obtain ⟨l1, hl1⟩ := Inv_step n m s s1 l a hM hs h1
      have h21 := SyncInv_step n m s s1 l a hM hs h2 (hok a (List.mem_cons_self _ _)) h1
      exact ih s1 s' l1 hl1 h21 (fun b hb => hok b (List.mem_cons_of_mem _ hb)) h

theorem Chain_readQueue (h : Heap) :
    ∀ (l : List Addr) (p : Option Addr), Chain h p l →
      ∃ q : List (Addr × xserver_job), q.map Prod.fst = l ∧
        q.map (fun e => (e.2.callback, e.2.args)) = l.map (content h) ∧
        ∀ fuel, l.length ≤ fuel → readQueue h p fuel = some q := by
  intro l
  induction l with
  | nil =>
    intro p hc
    have hp : p = none := hc
    subst hp
    refine ⟨[], rfl, rfl, ?_⟩
    intro fuel _
    cases fuel <;> rfl
  | cons a l ih =>
    intro p hc
    obtain ⟨hp, r, hr, hrest⟩ := hc
    subst hp
    obtain ⟨q, hq1, hq2, hq3⟩ := ih r.next hrest
    refine ⟨(a, r) :: q, ?_, ?_, ?_⟩
    · simp [hq1]
    · simp [hq2, content, hr]
    · intro fuel hfuel
      cases fuel with
      | zero => simp at hfuel
      | succ f =>
        simp only [List.length_cons, Nat.add_le_add_iff_right] at hfuel
        simp only [readQueue, hr, hq3 f hfuel]

/-- The pool fields other than the queue are not written by lines 146-157. -/
theorem link_job_flags (mem : Mem) (c x : Nat) (a : Addr) (m2 : Mem)
    (h : link_job mem c x a = some m2) :
    m2.pool.queue_close = mem.pool.queue_close ∧ m2.pool.pool_close = mem.pool.pool_close := by
  rcases link_job_inv _ _ _ _ _ h with ⟨_, rfl⟩ | ⟨_, t, r, _, _, rfl⟩ <;> exact ⟨rfl, rfl⟩

theorem pop_job_flags (mem : Mem) (p : xserver_threadpool) (job : Option Addr)
    (h : pop_job mem = some (p, job)) :
    p.queue_close = mem.pool.queue_close ∧ p.pool_close = mem.pool.pool_close := by
  obtain ⟨_, hc⟩ := pop_job_inv _ _ _ h
  rcases hc with ⟨_, rfl⟩ | ⟨_, a, r, _, _, rfl⟩ <;> exact ⟨rfl, rfl⟩

/-- No step clears a close flag. -/
theorem step_flags (s s' : Sys) (a : Action) (h : step s a = some s') :
    (s.pool.queue_close ≠ 0 → s'.pool.queue_close ≠ 0) ∧
    (s.pool.pool_close ≠ 0 → s'.pool.pool_close ≠ 0) := by
  unfold step at h
  split at h
  · simp at h
  · cases a with
    | call_add c x =>
      simp only at h
      split at h
      · simp at h
      · simp only [step_call_add, Option.some.injEq] at h
        subst h
        exact ⟨id, id⟩
    | add_enter i lk job ul =>
      obtain ⟨c, x, _, _, hcase⟩ := step_add_enter_inv _ _ _ _ _ _ h
      rcases hcase with ⟨rfl, _, _⟩ | rfl | ⟨a, m2, _, _, _, hlink, rfl⟩
      · exact ⟨id, id⟩
      · exact ⟨id, id⟩
      · obtain ⟨e1, e2⟩ := link_job_flags _ _ _ _ _ hlink
        simp only at e1 e2 ⊢
        rw [e1, e2]
        exact ⟨id, id⟩
    | add_wake i =>
      simp only [step_add_wake] at h
      split at h
      · simp only [Option.some.injEq] at h
        subst h
        exact ⟨id, id⟩
      · simp at h
    | add_signal i tgt =>
      simp only [step_add_signal] at h
      split at h
      · split at h
        · simp only [Option.some.injEq] at h
          subst h
          exact ⟨id, id⟩
        · simp at h
      · simp at h
    | worker_enter i acq ul tgt =>
      obtain ⟨_, hcase⟩ := step_worker_enter_inv _ _ _ _ _ _ h
      rcases hcase with ⟨rfl, _, _⟩ | ⟨rfl, _⟩ | ⟨p, job, _, _, _, hpop, _, rfl⟩
      · exact ⟨id, id⟩
      · exact ⟨id, id⟩
      · obtain ⟨e1, e2⟩ := pop_job_flags _ _ _ hpop
        simp only at e1 e2 ⊢
        rw [e1, e2]
        exact ⟨id, id⟩
    | worker_wake i =>
      simp only [step_worker_wake] at h
      split at h
      · simp only [Option.some.injEq] at h
        subst h
        exact ⟨id, id⟩
      · simp at h
    | worker_run i =>
      simp only [step_worker_run] at h
      split at h
      · split at h
        · simp at h
        · simp only [Option.some.injEq] at h
          subst h
          exact ⟨id, id⟩
      · simp at h
    | call_destroy =>
      simp only [step_call_destroy, Option.some.injEq] at h
      subst h
      exact ⟨id, id⟩
    | destroy_enter d lk ul =>
      rcases step_destroy_enter_inv _ _ _ _ _ h with
        ⟨_, _, rfl⟩ | ⟨_, _, _, _, _, rfl⟩ | ⟨_, _, _, _, _, rfl⟩ | ⟨_, _, rfl⟩ | ⟨_, _, rfl⟩
      · exact ⟨id, id⟩
      · exact ⟨fun _ => by simp, id⟩
      · exact ⟨fun _ => by simp, fun _ => by simp⟩
      · exact ⟨id, id⟩
      · exact ⟨id, fun _ => by simp⟩
    | destroy_wake d =>
      simp only [step_destroy_wake] at h
      split at h
      · simp only [Option.some.injEq] at h
        subst h
        exact ⟨id, id⟩
      · simp at h
    | destroy_broadcast_not_empty d =>
      simp only [step_destroy_broadcast_not_empty] at h
      split at h
      · simp only [Option.some.injEq] at h
        subst h
        exact ⟨id, id⟩
      · simp at h
    | destroy_broadcast_not_full d =>
      simp only [step_destroy_broadcast_not_full] at h
      split at h
      · simp only [Option.some.injEq] at h
        subst h
        exact ⟨id, id⟩
      · simp at h
    | destroy_join d =>
      simp only [step_destroy_join] at h
      split at h
      · split at h
        · simp only [Option.some.injEq] at h
          subst h
          exact ⟨id, id⟩
        · simp at h
      · simp at h
    | destroy_teardown d fuel =>
      simp only [step_destroy_teardown] at h
      split at h
      · split at h
        · simp at h
        · split at h
          · simp at h
          · simp only [Option.some.injEq] at h
            subst h
            exact ⟨id, id⟩
      · simp at h

/-- A successful `threadpool_init` leaves the pool record and the workers of `sysInit`. -/
theorem threadpool_init_sysInit (env : InitEnv) (n m : Int) (p : xserver_threadpool)
    (spawns : List Nat) (h : threadpool_init env n m = .returned_pool p spawns) :
    0 < n ∧ 0 < m ∧ p = (sysInit n m).pool ∧ spawns = List.range n.toNat ∧
    ∀ i : Nat, (i ∈ spawns ↔ (sysInit n m).workers i = .top) := by
  unfold threadpool_init at h
  split at h
  · simp at h
  · rename_i hn
    split at h
    · simp at h
    · rename_i hm
      split at h
      · simp at h
      · simp only at h
        split at h
        · simp at h
        · split at h
          · simp at h
          · split at h
            · simp at h
            · split at h
              · simp at h
              · split at h
                · simp at h
                · simp only [InitResult.returned_pool.injEq] at h
                  obtain ⟨h1, h2⟩ := h
                  subst h1; subst h2
                  simp only [not_not] at hn hm
                  refine ⟨hn, hm, rfl, rfl, ?_⟩
                  intro i
                  simp only [init_pool, List.mem_range, sysInit]
                  constructor
                  · intro hi
                    rw [if_pos (by omega)]
                  · intro hi
                    split at hi
                    · omega
                    · simp at hi

theorem run_append (s : Sys) (as bs : List Action) :
    run s (as ++ bs) = (run s as).bind (fun s1 => run s1 bs) := by
  induction as generalizing s with
  | nil => rfl
  | cons a as ih =>
    simp only [List.cons_append, run]
    cases step s a with
    | none => rfl
    | some s1 => exact ih s1

theorem inflight_nil_iff (s : Sys) :
    inflightJobs s = [] ↔ ∀ i, i < s.nprod → (s.producers i).job = [] := by
  unfold inflightJobs
  rw [List.flatMap_eq_nil_iff]
  constructor
  · intro h i hi
    exact h i (List.mem_range.mpr hi)
  · intro h i hi
    exact h i (List.mem_range.mp hi)

theorem BurstState_cycle (k : Nat) (s : Sys) (hs : BurstState k s) :
    ∃ s', run s (submitRunCycle k) = some s' ∧ BurstState (k + 1) s' := by
  obtain ⟨hp, hh, hf, hn, w0, w1, w2, w3, nd, d0, hj, ha, he, hi⟩ := hs
  subst hn
  simp [submitRunCycle, run, step, hf, step_call_add, step_add_enter, mallocResult, hh, setAt_apply,
    threadpool_add_job, add_job_locked, hp, init_pool, link_job, add_apply, wrap32,
    step_add_signal, signalChoice, WorkerState.isWaiting, w0, w1, w2, w3, List.range_succ,
    signal_not_empty, step_worker_enter, threadpool_worker, worker_locked, pop_job, worker_apply,
    nd, signal_empty, step_worker_run, run_job, Heap.set, jobContent]
  constructor <;> simp [init_pool, setAt_apply, Heap.set, w1, w2, w3, d0, hj, ha, he]
  rw [inflight_nil_iff] at hi ⊢
  intro i hlt
  simp only [setAt_apply]
  by_cases hik : i = s.nprod
  · simp [hik, ProducerState.job]
  · simp only [hik, if_false]
    exact hi i (by simp only at hlt; omega)

theorem BurstState_init : BurstState 0 (sysInit 4 100) := by
  constructor <;> simp [sysInit, Heap.empty, inflightJobs]

theorem BurstState_burst : ∀ k : Nat, ∃ s, run (sysInit 4 100) (burstTrace k) = some s ∧ BurstState k s := by
  intro k
  induction k with
  | zero => exact ⟨_, rfl, BurstState_init⟩
  | succ k ih =>
    obtain ⟨s, hrun, hs⟩ := ih
    obtain ⟨s', hrun', hs'⟩ := BurstState_cycle k s hs
    refine ⟨s', ?_, hs'⟩
    simp only [burstTrace]
    rw [run_append, hrun]
    exact hrun'

theorem burstTrace_syncOk : ∀ k : Nat, ∀ a ∈ burstTrace k, a.syncOk = true := by
  intro k
  induction k with
  | zero => intro a ha; simp [burstTrace] at ha
  | succ k ih =>
    intro a ha
    simp only [burstTrace, List.mem_append] at ha
    rcases ha with h | h
    · exact ih a h
    · simp only [submitRunCycle, List.mem_cons, List.mem_singleton, List.not_mem_nil, or_false] at h
      rcases h with rfl | rfl | rfl | rfl | rfl <;> rfl

theorem BurstState_close (k : Nat) (s : Sys) (hs : BurstState k s) :
    ∃ s', run s closeTrace = some s' ∧ s'.destroyers 0 = .returned 0 ∧
      s'.accepted.length = k ∧ s'.executed.length = k ∧ inflightJobs s' = [] := by
  obtain ⟨hp, hh, hf, hn, w0, w1, w2, w3, nd, d0, hj, ha, he, hi⟩ := hs
  simp [closeTrace, run, step, hf, step_call_destroy, step_destroy_enter, setAt_apply, nd,
    threadpool_destroy, destroy_drain, hp, init_pool, DestroyOutcome.pool, DestroyOutcome.next,
    step_destroy_broadcast_not_empty, step_destroy_broadcast_not_full, WorkerState.wake,
    w0, w1, w2, w3, step_worker_enter, threadpool_worker, worker_locked, worker_apply,
    step_destroy_join, step_destroy_teardown, free_queue, hj]
  refine ⟨ha, he, ?_⟩
  rw [inflight_nil_iff] at hi ⊢
  intro i hlt
  simp only [producer_wake_job]
  exact hi i hlt

/-- The scenario of 4 workers, capacity 100 and 1000 submissions: there is a
run, without any failing lock, unlock or wait, in which 1000 calls of
`threadpool_add_job` return 0, `threadpool_destroy` returns 0 and the workers
have made exactly 1000 callback invocations. -/
theorem shutdown_scenario :
    ∃ s, run (sysInit 4 100) (burstTrace 1000 ++ closeTrace) = some s ∧
      (∀ a ∈ burstTrace 1000 ++ closeTrace, a.syncOk = true) ∧
      s.destroyers 0 = .returned 0 ∧ s.accepted.length = 1000 ∧
      s.executed.length = 1000 ∧ inflightJobs s = [] := by
  obtain ⟨s, hrun, hs⟩ := BurstState_burst 1000
  obtain ⟨s', hrun', hd, ha, he, hi⟩ := BurstState_close 1000 s hs
  refine ⟨s', ?_, ?_, hd, ha, he, hi⟩
  · rw [run_append, hrun]
    exact hrun'
  · intro a ha
    rcases List.mem_append.mp ha with h | h
    · exact burstTrace_syncOk 1000 a h
    · simp only [closeTrace, List.mem_cons, List.mem_singleton, List.not_mem_nil, or_false] at h
      rcases h with rfl | rfl | rfl | rfl | rfl | rfl | rfl | rfl | rfl | rfl | rfl | rfl | rfl <;>
        rfl

/-- When the unlock of line 159 succeeds, a call of `threadpool_add_job` that
returns -1 has left memory as it was. -/
theorem add_job_failure_keeps_memory (mem : Mem) (callback args : Nat) (lock_ok : Bool)
    (job : Option Addr)
    (h : (threadpool_add_job mem callback args lock_ok job true).rc = some (-1)) :
    threadpool_add_job mem callback args lock_ok job true = .rejected mem := by
  unfold threadpool_add_job at h ⊢
  split
  · rename_i hc
    rw [if_pos hc] at h
    simp [AddOutcome.rc] at h
  · rename_i hc
    rw [if_neg hc] at h
    split
    · rfl
    · rename_i hl
      rw [if_neg hl] at h
      unfold add_job_locked at h ⊢
      split
      · rename_i hw
        rw [if_pos hw] at h
        simp [AddOutcome.rc] at h
      · rename_i hw
        rw [if_neg hw] at h
        split
        · rfl
        · rename_i hq
          rw [if_neg hq] at h
          cases job with
          | none => rfl
          | some a =>
            simp only at h ⊢
            cases hlink : link_job mem callback args a with
            | none =>
              rw [hlink] at h
              simp [AddOutcome.rc] at h
            | some m2 =>
              rw [hlink] at h
              simp [AddOutcome.rc] at h

/-! ## Lemmas on the wait sets -/

theorem signalChoice_some (n : Nat) (W : Nat → Bool) (t : Nat)
    (h : signalChoice n W (some t) = true) : t < n ∧ W t = true := by
  simpa [signalChoice] using h

theorem signalChoice_none (n : Nat) (W : Nat → Bool)
    (h : signalChoice n W none = true) : ∀ i, i < n → W i = false := by
  intro i hi
  simp only [signalChoice, List.all_eq_true, List.mem_range, Bool.not_eq_true'] at h
  exact h i hi

theorem destroy_announced_drained (d : DestroyState) (h : d.announced = true) :
    d.drained = true := by
  cases d <;> simp_all [DestroyState.announced, DestroyState.drained]

theorem destroy_wake_announced (d : DestroyState) : d.wake.announced = d.announced := by
  cases d <;> simp [DestroyState.wake, DestroyState.announced]

theorem destroy_wake_not_waiting (d : DestroyState) : d.wake ≠ .waiting := by
  cases d <;> simp [DestroyState.wake]

theorem worker_wake_not_waiting (w : WorkerState) : w.wake ≠ .waiting := by
  cases w <;> simp [WorkerState.wake]

theorem producer_wake_not_waiting (p : ProducerState) (c x : Nat) : p.wake ≠ .waiting c x := by
  cases p <;> simp [ProducerState.wake]

theorem worker_wake_waiting (w : WorkerState) (h : w.wake = .waiting) : w = .waiting := by
  exact absurd h (worker_wake_not_waiting w)

theorem WaitInv_init (n m : Int) : WaitInv (sysInit n m) := by
  constructor
  · intro i c x h; simp [sysInit] at h
  · intro d h; simp [sysInit, DestroyState.announced] at h
  · intro d h; simp [sysInit] at h

theorem signal_empty_announced (s : Sys) (tgt : Option Nat) (d : Nat) :
    (signal_empty s tgt d).announced = (s.destroyers d).announced := by
  cases tgt with
  | none => rfl
  | some t =>
    simp only [signal_empty, setAt_apply]
    split
    · rename_i e; subst e; exact destroy_wake_announced _
    · rfl

theorem signal_not_empty_waiting (s : Sys) (tgt : Option Nat) (i : Nat)
    (h : signal_not_empty s tgt i = .waiting) : s.workers i = .waiting := by
  cases tgt with
  | none => exact h
  | some t =>
    simp only [signal_not_empty, setAt_apply] at h
    split at h
    · exact absurd h (worker_wake_not_waiting _)
    · exact h

theorem WaitInv_add_enter (n m : Int) (s s' : Sys) (l : List Addr) (i : Nat) (lk : Bool)
    (job : Option Addr) (ul : Bool) (hM : m ≤ INT_MAX)
    (hs : Inv n m s l) (hw : WaitInv s) (h : step_add_enter s i lk job ul = some s') :
    WaitInv s' := by
  obtain ⟨c, x, hst, hfresh, hcase⟩ := step_add_enter_inv _ _ _ _ _ _ h
  rcases hcase with ⟨rfl, hfull, _⟩ | rfl | ⟨a, m2, rfl, hopen, hnf, hlink, rfl⟩
  · refine ⟨?_, hw.work, hw.drain⟩
    intro j c' x' hj
    rcases setAt_cases _ _ _ (fun v : ProducerState => v = .waiting c' x') j hj with
      ⟨_, _⟩ | ⟨_, g⟩
    · exact hfull
    · exact hw.prod j c' x' g
  · refine ⟨?_, hw.work, hw.drain⟩
    intro j c' x' hj
    rcases setAt_cases _ _ _ (fun v : ProducerState => v = .waiting c' x') j hj with
      ⟨_, g⟩ | ⟨_, g⟩
    · simp at g
    · exact hw.prod j c' x' g
  · have hfr : s.heap a = none := by
      simpa [mallocResult] using hfresh
    obtain ⟨_, _, _, _, e5, _⟩ :=
      link_job_spec s.pool s.heap l c x a m2 hs.chain hs.len hs.tail hs.nodup hfr hlink
    have hnone : ∀ j c' x', s.producers j ≠ .waiting c' x' :=
      fun j c' x' g => hnf (hw.prod j c' x' g)
    refine ⟨?_, hw.work, ?_⟩
    · intro j c' x' hj
      rcases setAt_cases _ _ _ (fun v : ProducerState => v = .waiting c' x') j hj with
        ⟨_, g⟩ | ⟨_, g⟩
      · split at g <;> simp at g
      · exact absurd g (hnone j c' x')
    · intro d _
      simp only
      rw [e5, hs.len]
      have h1 := hs.le_max
      have h2 : (l.length : Int) ≠ m := by
        rw [← hs.len, ← hs.mx]; exact hnf
      simp only [INT_MAX] at hM
      rw [wrap32_id _ (by omega) (by omega)]
      omega

theorem WaitInv_worker_enter (n m : Int) (s s' : Sys) (l : List Addr) (i : Nat)
    (acq ul : Bool) (tgt : Option Nat) (hM : m ≤ INT_MAX)
    (hs : Inv n m s l) (hw : WaitInv s) (h : step_worker_enter s i acq ul tgt = some s') :
    WaitInv s' := by
  obtain ⟨hst, hcase⟩ := step_worker_enter_inv _ _ _ _ _ _ h
  rcases hcase with ⟨rfl, _, hpc⟩ | ⟨rfl, _⟩ | ⟨p, job, _, hpc, hne, hpop, hsig, rfl⟩
  · refine ⟨hw.prod, ?_, hw.drain⟩
    intro d hd
    exact absurd hpc (hs.drained d (destroy_announced_drained _ hd))
  · refine ⟨hw.prod, ?_, hw.drain⟩
    intro d hd j hj
    rcases setAt_cases _ _ _ (fun v : WorkerState => v = .waiting) j hj with ⟨_, g⟩ | ⟨_, g⟩
    · simp at g
    · exact hw.work d hd j g
  · have hmax : (l.length : Int) ≤ INT_MAX := le_trans hs.le_max hM
    obtain ⟨a, l', rfl, rfl, hal, e1, e2, e3, e4, e5, e6, hch⟩ :=
      pop_job_spec s.pool p s.heap l job hs.chain hs.len hs.tail hmax hne hpop
    have hlen := hs.len
    have hle := hs.le_max
    simp only [List.length_cons, Nat.cast_add, Nat.cast_one] at hlen hle
    refine ⟨?_, ?_, ?_⟩
    · intro j c' x' hj
      simp only at hj ⊢
      split at hj
      · exact absurd hj (producer_wake_not_waiting _ c' x')
      · rename_i hnb
        exfalso
        apply hnb
        have hfull := hw.prod j c' x' hj
        rw [e5, e2, hs.mx]
        rw [hlen, hs.mx] at hfull
        simp only [INT_MAX] at hM
        rw [wrap32_id _ (by omega) (by omega)]
        omega
    · intro d hd j hj
      simp only at hd hj
      have hd' : (s.destroyers d).announced = true := by
        split at hd
        · rwa [signal_empty_announced] at hd
        · exact hd
      rcases setAt_cases _ _ _ (fun v : WorkerState => v = .waiting) j hj with ⟨_, g⟩ | ⟨_, g⟩
      · split at g <;> simp at g
      · exact hw.work d hd' j g
    · intro d hd hz
      simp only at hd hz
      rw [if_pos hz] at hd
      have hsc := hsig hz
      cases tgt with
      | none =>
        have hd0 : s.destroyers d = .waiting := hd
        by_cases hlt : d < s.ndestroy
        · have := signalChoice_none _ _ hsc d hlt
          simp [DestroyState.isWaiting, hd0] at this
        · rw [hs.dbound d (by omega)] at hd0
          simp at hd0
      | some t =>
        obtain ⟨_, ht⟩ := signalChoice_some _ _ t hsc
        have htw : s.destroyers t = .waiting := by
          simpa [DestroyState.isWaiting] using ht
        simp only [signal_empty] at hd
        rcases setAt_cases _ _ _ (fun v : DestroyState => v = .waiting) d hd with
          ⟨_, g⟩ | ⟨hne', g⟩
        · exact absurd g (destroy_wake_not_waiting _)
        · exact hne' (hs.uniq d t (by rw [g]; rfl) (by rw [htw]; rfl))

theorem WaitInv_destroy_enter (s s' : Sys) (d : Nat)
    (lk ul : Bool) (hw : WaitInv s) (h : step_destroy_enter s d lk ul = some s') :
    WaitInv s' := by
  have hann : ∀ (v : DestroyState), v.announced = false → (s.destroyers d).announced = false →
      ∀ d', (setAt s.destroyers d v d').announced = true →
        (s.destroyers d').announced = true := by
    intro v hv _ d' hd'
    rcases setAt_cases _ _ _ (fun w : DestroyState => w.announced = true) d' hd' with
      ⟨_, g⟩ | ⟨_, g⟩
    · rw [hv] at g; simp at g
    · exact g
  rcases step_destroy_enter_inv _ _ _ _ _ h with
    ⟨hd, _, rfl⟩ | ⟨hd, _, hq, hp, hc, rfl⟩ | ⟨hd, _, hq, hp, hc, rfl⟩ | ⟨hd, hc, rfl⟩ |
    ⟨hd, hc, rfl⟩
  · refine ⟨hw.prod, ?_, ?_⟩
    · intro d' hd'
      exact hw.work d' (hann (.returned (-1)) (by decide) (by rw [hd]; rfl) d' hd')
    · intro d' hd'
      rcases setAt_cases _ _ _ (fun w : DestroyState => w = .waiting) d' hd' with
        ⟨_, g⟩ | ⟨_, g⟩
      · simp at g
      · exact hw.drain d' g
  · refine ⟨hw.prod, ?_, ?_⟩
    · intro d' hd'
      exact hw.work d' (hann .waiting rfl (by rw [hd]; rfl) d' hd')
    · intro _ _
      exact hc
  · refine ⟨hw.prod, ?_, ?_⟩
    · intro d' hd'
      refine hw.work d' (hann _ ?_ (by rw [hd]; rfl) d' hd')
      split <;> rfl
    · intro d' hd'
      rcases setAt_cases _ _ _ (fun w : DestroyState => w = .waiting) d' hd' with
        ⟨_, g⟩ | ⟨_, g⟩
      · split at g <;> simp at g
      · exact hw.drain d' g
  · refine ⟨hw.prod, ?_, ?_⟩
    · intro d' hd'
      exact hw.work d' (hann .waiting rfl (by rw [hd]; rfl) d' hd')
    · intro _ _
      exact hc
  · refine ⟨hw.prod, ?_, ?_⟩
    · intro d' hd'
      refine hw.work d' (hann _ ?_ (by rw [hd]; rfl) d' hd')
      split <;> rfl
    · intro d' hd'
      rcases setAt_cases _ _ _ (fun w : DestroyState => w = .waiting) d' hd' with
        ⟨_, g⟩ | ⟨_, g⟩
      · split at g <;> simp at g
      · exact hw.drain d' g

/-- A call of `threadpool_destroy` that is not suspended moves to a state in
which it is not suspended either, with the broadcast of line 266 out before or
no worker suspended: the invariant on the wait sets is kept. -/
theorem WaitInv_destroy_set (s : Sys) (d : Nat) (v : DestroyState) (hw : WaitInv s)
    (hv : v ≠ .waiting)
    (ha : v.announced = true → ∀ i, s.workers i ≠ .waiting) :
    WaitInv { s with destroyers := setAt s.destroyers d v } := by
  refine ⟨hw.prod, ?_, ?_⟩
  · intro d' hd'
    rcases setAt_cases _ _ _ (fun w : DestroyState => w.announced = true) d' hd' with
      ⟨_, g⟩ | ⟨_, g⟩
    · exact ha g
    · exact hw.work d' g
  · intro d' hd'
    rcases setAt_cases _ _ _ (fun w : DestroyState => w = .waiting) d' hd' with
      ⟨_, g⟩ | ⟨_, g⟩
    · exact absurd g hv
    · exact hw.drain d' g

theorem WaitInv_step (n m : Int) (s s' : Sys) (l : List Addr) (a : Action) (hM : m ≤ INT_MAX)
    (hs : Inv n m s l) (hw : WaitInv s) (h : step s a = some s') : WaitInv s' := by
  unfold step at h
  split at h
  · simp at h
  · cases a with
    | call_add c x =>
      simp only at h
      split at h
      · simp at h
      · simp only [step_call_add, Option.some.injEq] at h
        subst h
        refine ⟨?_, hw.work, hw.drain⟩
        intro j c' x' hj
        rcases setAt_cases _ _ _ (fun v : ProducerState => v = .waiting c' x') j hj with
          ⟨_, g⟩ | ⟨_, g⟩
        · simp at g
        · exact hw.prod j c' x' g
    | add_enter i lk job ul => exact WaitInv_add_enter n m s s' l i lk job ul hM hs hw h
    | add_wake i =>
      simp only [step_add_wake] at h
      split at h
      · simp only [Option.some.injEq] at h
        subst h
        refine ⟨?_, hw.work, hw.drain⟩
        intro j c' x' hj
        rcases setAt_cases _ _ _ (fun v : ProducerState => v = .waiting c' x') j hj with
          ⟨_, g⟩ | ⟨_, g⟩
        · simp at g
        · exact hw.prod j c' x' g
      · simp at h
    | add_signal i tgt =>
      simp only [step_add_signal] at h
      split at h
      · split at h
        · simp only [Option.some.injEq] at h
          subst h
          refine ⟨?_, ?_, hw.drain⟩
          · intro j c' x' hj
            rcases setAt_cases _ _ _ (fun v : ProducerState => v = .waiting c' x') j hj with
              ⟨_, g⟩ | ⟨_, g⟩
            · simp at g
            · exact hw.prod j c' x' g
          · intro d hd j hj
            exact hw.work d hd j (signal_not_empty_waiting s tgt j hj)
        · simp at h
      · simp at h
    | worker_enter i acq ul tgt => exact WaitInv_worker_enter n m s s' l i acq ul tgt hM hs hw h
    | worker_wake i =>
      simp only [step_worker_wake] at h
      split at h
      · simp only [Option.some.injEq] at h
        subst h
        refine ⟨hw.prod, ?_, hw.drain⟩
        intro d hd j hj
        rcases setAt_cases _ _ _ (fun v : WorkerState => v = .waiting) j hj with
          ⟨_, g⟩ | ⟨_, g⟩
        · simp at g
        · exact hw.work d hd j g
      · simp at h
    | worker_run i =>
      simp only [step_worker_run] at h
      split at h
      · split at h
        · simp at h
        · simp only [Option.some.injEq] at h
          subst h
          refine ⟨hw.prod, ?_, hw.drain⟩
          intro d hd j hj
          rcases setAt_cases _ _ _ (fun v : WorkerState => v = .waiting) j hj with
            ⟨_, g⟩ | ⟨_, g⟩
          · simp at g
          · exact hw.work d hd j g
      · simp at h
    | call_destroy =>
      simp only [step_call_destroy, Option.some.injEq] at h
      subst h
      refine ⟨hw.prod, ?_, ?_⟩
      · intro d' hd'
        rcases setAt_cases _ _ _ (fun w : DestroyState => w.announced = true) d' hd' with
          ⟨_, g⟩ | ⟨_, g⟩
        · simp [DestroyState.announced] at g
        · exact hw.work d' g
      · intro d' hd'
        rcases setAt_cases _ _ _ (fun w : DestroyState => w = .waiting) d' hd' with
          ⟨_, g⟩ | ⟨_, g⟩
        · simp at g
        · exact hw.drain d' g
    | destroy_enter d lk ul => exact WaitInv_destroy_enter s s' d lk ul hw h
    | destroy_wake d =>
      simp only [step_destroy_wake] at h
      split at h
      · simp only [Option.some.injEq] at h
        subst h
        exact WaitInv_destroy_set s _ .woken hw (by simp) (by simp [DestroyState.announced])
      · simp at h
    | destroy_broadcast_not_empty d =>
      simp only [step_destroy_broadcast_not_empty] at h
      split at h
      · simp only [Option.some.injEq] at h
        subst h
        refine ⟨hw.prod, ?_, ?_⟩
        · intro _ _ j hj
          exact worker_wake_not_waiting _ hj
        · intro d' hd'
          rcases setAt_cases _ _ _ (fun w : DestroyState => w = .waiting) d' hd' with
            ⟨_, g⟩ | ⟨_, g⟩
          · simp at g
          · exact hw.drain d' g
      · simp at h
    | destroy_broadcast_not_full d =>
      simp only [step_destroy_broadcast_not_full] at h
      split at h
      · rename_i hd
        simp only [Option.some.injEq] at h
        subst h
        refine ⟨?_, ?_, ?_⟩
        · intro j c' x' hj
          exact absurd hj (producer_wake_not_waiting _ c' x')
        · intro d' hd'
          rcases setAt_cases _ _ _ (fun w : DestroyState => w.announced = true) d' hd' with
            ⟨_, _⟩ | ⟨_, g⟩
          · exact hw.work d (by rw [hd]; rfl)
          · exact hw.work d' g
        · intro d' hd'
          rcases setAt_cases _ _ _ (fun w : DestroyState => w = .waiting) d' hd' with
            ⟨_, g⟩ | ⟨_, g⟩
          · simp at g
          · exact hw.drain d' g
      · simp at h
    | destroy_join d =>
      simp only [step_destroy_join] at h
      split at h
      · rename_i k hd
        split at h
        · simp only [Option.some.injEq] at h
          subst h
          refine ⟨hw.prod, ?_, ?_⟩
          · intro d' hd'
            rcases setAt_cases _ _ _ (fun w : DestroyState => w.announced = true) d' hd' with
              ⟨_, _⟩ | ⟨_, g⟩
            · exact hw.work d (by rw [hd]; rfl)
            · exact hw.work d' g
          · intro d' hd'
            rcases setAt_cases _ _ _ (fun w : DestroyState => w = .waiting) d' hd' with
              ⟨_, g⟩ | ⟨_, g⟩
            · simp at g
            · exact hw.drain d' g
        · simp at h
      · simp at h
    | destroy_teardown d fuel =>
      simp only [step_destroy_teardown] at h
      split at h
      · rename_i k hd
        split at h
        · simp at h
        · split at h
          · simp at h
          · simp only [Option.some.injEq] at h
            subst h
            refine ⟨hw.prod, ?_, ?_⟩
            · intro d' hd'
              rcases setAt_cases _ _ _ (fun w : DestroyState => w.announced = true) d' hd' with
                ⟨_, _⟩ | ⟨_, g⟩
              · exact hw.work d (by rw [hd]; rfl)
              · exact hw.work d' g
            · intro d' hd'
              rcases setAt_cases _ _ _ (fun w : DestroyState => w = .waiting) d' hd' with
                ⟨_, g⟩ | ⟨_, g⟩
              · simp at g
              · exact hw.drain d' g
      · simp at h

theorem WaitInv_run (n m : Int) (hM : m ≤ INT_MAX) :
    ∀ (acts : List Action) (s s' : Sys) (l : List Addr), Inv n m s l → WaitInv s →
      run s acts = some s' → WaitInv s' := by
  intro acts
  induction acts with
  | nil =>
    intro s s' l _ hw h
    simp only [run, Option.some.injEq] at h
    subst h
    exact hw
  | cons a as ih =>
    intro s s' l hs hw h
    simp only [run] at h
    split at h
    · simp at h
    · rename_i s1 h1
      obtain ⟨l1, hl1⟩ := Inv_step n m s s1 l a hM hs h1
      exact ih s1 s' l1 hl1 (WaitInv_step n m s s1 l a hM hs hw h1) h

theorem WaitInv_reachable (n m : Int) (hm : 0 < m) (hM : m ≤ INT_MAX) (acts : List Action)
    (s : Sys) (h : run (sysInit n m) acts = some s) : WaitInv s :=
  WaitInv_run n m hM acts _ s [] (Inv_init n m hm) (WaitInv_init n m) h

/-- Once a call has issued the broadcast of line 266 it stays in that condition. -/
theorem step_announced (s s' : Sys) (a : Action) (d : Nat)
    (hb : ∀ d', s.ndestroy ≤ d' → s.destroyers d' = .idle) (h : step s a = some s')
    (hd : (s.destroyers d).announced = true) : (s'.destroyers d).announced = true := by
  have hset : ∀ (d' : Nat) (v : DestroyState),
      ((s.destroyers d').announced = true → v.announced = true) →
      (setAt s.destroyers d' v d).announced = true := by
    intro d' v hv
    by_cases hdd : d = d'
    · subst hdd
      rw [setAt_same]
      exact hv hd
    · rw [setAt_other _ _ _ _ hdd]
      exact hd
  unfold step at h
  split at h
  · simp at h
  · cases a with
    | call_add c x =>
      simp only at h
      split at h
      · simp at h
      · simp only [step_call_add, Option.some.injEq] at h
        subst h
        exact hd
    | add_enter i lk job ul =>
      obtain ⟨c, x, _, _, hcase⟩ := step_add_enter_inv _ _ _ _ _ _ h
      rcases hcase with ⟨rfl, _, _⟩ | rfl | ⟨a, m2, _, _, _, _, rfl⟩ <;> exact hd
    | add_wake i =>
      simp only [step_add_wake] at h
      split at h
      · simp only [Option.some.injEq] at h
        subst h
        exact hd
      · simp at h
    | add_signal i tgt =>
      simp only [step_add_signal] at h
      split at h
      · split at h
        · simp only [Option.some.injEq] at h
          subst h
          exact hd
        · simp at h
      · simp at h
    | worker_enter i acq ul tgt =>
      obtain ⟨_, hcase⟩ := step_worker_enter_inv _ _ _ _ _ _ h
      rcases hcase with ⟨rfl, _, _⟩ | ⟨rfl, _⟩ | ⟨p, job, _, _, _, _, _, rfl⟩
      · exact hd
      · exact hd
      · simp only
        split
        · rw [signal_empty_announced]; exact hd
        · exact hd
    | worker_wake i =>
      simp only [step_worker_wake] at h
      split at h
      · simp only [Option.some.injEq] at h
        subst h
        exact hd
      · simp at h
    | worker_run i =>
      simp only [step_worker_run] at h
      split at h
      · split at h
        · simp at h
        · simp only [Option.some.injEq] at h
          subst h
          exact hd
      · simp at h
    | call_destroy =>
      simp only [step_call_destroy, Option.some.injEq] at h
      subst h
      by_cases hdd : d = s.ndestroy
      · subst hdd
        rw [hb _ (le_refl _)] at hd
        simp [DestroyState.announced] at hd
      · simp only
        rw [setAt_other _ _ _ _ hdd]
        exact hd
    | destroy_enter d' lk ul =>
      rcases step_destroy_enter_inv _ _ _ _ _ h with
        ⟨hd', _, rfl⟩ | ⟨hd', _, _, _, _, rfl⟩ | ⟨hd', _, _, _, _, rfl⟩ | ⟨hd', _, rfl⟩ |
        ⟨hd', _, rfl⟩ <;>
      · apply hset
        intro g
        rw [hd'] at g
        simp [DestroyState.announced] at g
    | destroy_wake d' =>
      simp only [step_destroy_wake] at h
      split at h
      · rename_i hd'
        simp only [Option.some.injEq] at h
        subst h
        apply hset
        intro g
        rw [hd'] at g
        simp [DestroyState.announced] at g
      · simp at h
    | destroy_broadcast_not_empty d' =>
      simp only [step_destroy_broadcast_not_empty] at h
      split at h
      · simp only [Option.some.injEq] at h
        subst h
        exact hset _ _ (fun _ => rfl)
      · simp at h
    | destroy_broadcast_not_full d' =>
      simp only [step_destroy_broadcast_not_full] at h
      split at h
      · simp only [Option.some.injEq] at h
        subst h
        exact hset _ _ (fun _ => rfl)
      · simp at h
    | destroy_join d' =>
      simp only [step_destroy_join] at h
      split at h
      · split at h
        · simp only [Option.some.injEq] at h
          subst h
          exact hset _ _ (fun _ => rfl)
        · simp at h
      · simp at h
    | destroy_teardown d' fuel =>
      simp only [step_destroy_teardown] at h
      split at h
      · split at h
        · simp at h
        · split at h
          · simp at h
          · simp only [Option.some.injEq] at h
            subst h
            exact hset _ _ (fun _ => rfl)
      · simp at h

theorem run_announced (n m : Int) (hM : m ≤ INT_MAX) (d : Nat) :
    ∀ (acts : List Action) (s s' : Sys) (l : List Addr), Inv n m s l →
      run s acts = some s' → (s.destroyers d).announced = true →
      (s'.destroyers d).announced = true := by
  intro acts
  induction acts with
  | nil =>
    intro s s' l _ h hd
    simp only [run, Option.some.injEq] at h
    subst h
    exact hd
  | cons a as ih =>
    intro s s' l hs h hd
    simp only [run] at h
    split at h
    · simp at h
    · rename_i s1 h1
      obtain ⟨l1, hl1⟩ := Inv_step n m s s1 l a hM hs h1
      exact ih s1 s' l1 hl1 h (step_announced s s1 a d hs.dbound h1 hd)

theorem readQueue_last (h : Heap) :
    ∀ (fuel : Nat) (p : Option Addr) (q : List (Addr × xserver_job)),
      readQueue h p fuel = some q → ∀ e, q.getLast? = some e → e.2.next = none := by
  intro fuel
  induction fuel with
  | zero =>
    intro p q hq e he
    cases p with
    | none =>
      simp only [readQueue, Option.some.injEq] at hq
      subst hq
      simp at he
    | some a => simp [readQueue] at hq
  | succ f ih =>
    intro p q hq e he
    cases p with
    | none =>
      simp only [readQueue, Option.some.injEq] at hq
      subst hq
      simp at he
    | some a =>
      simp only [readQueue] at hq
      split at hq
      · simp at hq
      · rename_i r hr
        split at hq
        · simp at hq
        · rename_i q' hq'
          simp only [Option.some.injEq] at hq
          subst hq
          cases q' with
          | nil =>
            simp only [List.getLast?_singleton, Option.some.injEq] at he
            subst he
            cases f with
            | zero =>
              cases hn : r.next with
              | none => rfl
              | some b => rw [hn] at hq'; simp [readQueue] at hq'
            | succ f' =>
              cases hn : r.next with
              | none => rfl
              | some b =>
                rw [hn] at hq'
                simp only [readQueue] at hq'
                split at hq'
                · simp at hq'
                · split at hq' <;> simp at hq'
          | cons e2 q2 =>
            rw [List.getLast?_cons_cons] at he
            exact ih r.next (e2 :: q2) hq' e he

/-- What a stretch of the worker that ends in a pop has done. -/
theorem worker_popped_inv (mem : Mem) (acq ul : Bool) (m' : Mem) (job : Option Addr)
    (se bnf ul' : Bool) (h : threadpool_worker mem acq ul = .popped m' job se bnf ul') :
    acq = true ∧ mem.pool.pool_close = 0 ∧ mem.pool.queue_cur_job_num ≠ 0 ∧
    pop_job mem = some (m'.pool, job) ∧ m'.heap = mem.heap ∧
    se = decide (m'.pool.queue_cur_job_num = 0) ∧
    bnf = decide (m'.pool.queue_cur_job_num = wrap32 (m'.pool.queue_max_job_num - 1)) ∧
    ul' = ul := by
  unfold threadpool_worker at h
  split at h
  · simp at h
  · rename_i hacq
    simp only [Bool.not_eq_true, Bool.not_eq_false] at hacq
    unfold worker_locked at h
    split at h
    · simp at h
    · rename_i hw
      split at h
      · simp at h
      · rename_i hc
        simp only [ne_eq, Decidable.not_not] at hc
        split at h
        · simp at h
        · rename_i p j hpop
          simp only [WorkerOutcome.popped.injEq] at h
          obtain ⟨h1, h2, h3, h4, h5⟩ := h
          subst h1; subst h2
          refine ⟨hacq, hc, fun h0 => hw ⟨h0, hc⟩, hpop, rfl, h3.symm, h4.symm, h5.symm⟩

/-- On a well-formed queue the two routines that touch the list do not
dereference `NULL` or unallocated memory. -/
theorem no_fault (n m : Int) (s : Sys) (l : List Addr) (hs : Inv n m s l) :
    (∀ cb args job ul, add_job_locked ⟨s.pool, s.heap⟩ cb args job ul ≠ .fault) ∧
    (∀ acq ul, threadpool_worker ⟨s.pool, s.heap⟩ acq ul ≠ .fault) ∧
    (∀ i job, s.workers i = .holding job → run_job s.heap job ≠ none) := by
  refine ⟨?_, ?_, ?_⟩
  · intro cb args job ul hf
    unfold add_job_locked at hf
    split at hf
    · simp at hf
    · split at hf
      · simp at hf
      · split at hf
        · simp at hf
        · rename_i a
          split at hf
          · rename_i hlink
            unfold link_job at hlink
            simp only at hlink
            split at hlink
            · rename_i hlinked
              split at hlinked
              · simp at hlinked
              · rename_i h0
                have hne : l ≠ [] := by
                  intro e
                  apply h0
                  rw [hs.len, e]
                  rfl
                obtain ⟨t, ht⟩ : ∃ t, l.getLast? = some t := by
                  cases hl : l.getLast? with
                  | none => exact absurd (List.getLast?_eq_none_iff.mp hl) hne
                  | some t => exact ⟨t, rfl⟩
                have htail : s.pool.queue_tail = some t := by rw [hs.tail]; exact ht
                have hta : s.heap t ≠ none :=
                  Chain_alloc s.heap l _ hs.chain t (List.mem_of_getLast?_eq_some ht)
                simp only [htail] at hlinked
                split at hlinked
                · rename_i hnone
                  by_cases hta2 : t = a
                  · subst hta2
                    rw [heap_set_same] at hnone
                    simp at hnone
                  · rw [heap_set_other _ _ _ _ hta2] at hnone
                    exact hta hnone
                · simp at hlinked
            · simp at hlink
          · simp at hf
  · intro acq ul hf
    unfold threadpool_worker at hf
    split at hf
    · simp at hf
    · unfold worker_locked at hf
      split at hf
      · simp at hf
      · rename_i hw
        split at hf
        · simp at hf
        · rename_i hc
          simp only [ne_eq, Decidable.not_not] at hc
          have hne : s.pool.queue_cur_job_num ≠ 0 := fun h0 => hw ⟨h0, hc⟩
          split at hf
          · rename_i hpop
            unfold pop_job at hpop
            simp only at hpop
            split at hpop
            · simp at hpop
            · cases l with
              | nil =>
                apply hne
                rw [hs.len]
                rfl
              | cons a l' =>
                obtain ⟨hp, r, hr, _⟩ := hs.chain
                simp only [hp, hr] at hpop
                simp at hpop
          · simp at hf
  · intro i job hi hrun
    cases job with
    | none => exact hs.held_null i hi
    | some a =>
      have ha := (hs.held i a hi).2
      unfold run_job at hrun
      simp only at hrun
      split at hrun
      · rename_i hnone
        exact ha hnone
      · simp at hrun

/-- Order of the queue with respect to every execution of lines 146-157,
whatever the call then returns: in every run from the state built by
`threadpool_init`, the pairs popped by the workers are a prefix of the pairs
linked by `threadpool_add_job` (in the order of the critical sections), and
the rest of that sequence is exactly what is read from `queue_head` by
following `next` up to `NULL`: the walk ends within `queue_cur_job_num`
records, its last record is `queue_tail`, and no record occurs twice in it.
When every lock, unlock and wait of the run succeeds, the linked pairs are
those of the calls that have returned 0 or are between line 159 and their
`return 0`. -/
theorem fifo_of_appended (n m : Int) (acts : List Action) (s : Sys) (hm : 0 < m) (hM : m ≤ INT_MAX)
    (h : run (sysInit n m) acts = some s) :
    (∃ q : List (Addr × xserver_job),
      (∀ fuel, s.pool.queue_cur_job_num.toNat ≤ fuel →
        readQueue s.heap s.pool.queue_head fuel = some q) ∧
      s.pool.queue_tail = (q.map Prod.fst).getLast? ∧
      (q.map Prod.fst).Nodup ∧
      s.appended = s.popped ++ q.map (fun e => (e.2.callback, e.2.args))) ∧
    ((∀ a ∈ acts, a.syncOk = true) → (s.accepted ++ inflightJobs s).Perm s.appended) := by
  obtain ⟨l, hl⟩ := Inv_reachable n m hm hM acts s h
  obtain ⟨q, hq1, hq2, hq3⟩ := Chain_readQueue s.heap l _ hl.chain
  refine ⟨⟨q, ?_, ?_, ?_, ?_⟩, ?_⟩
  · intro fuel hfuel
    apply hq3
    rw [hl.len] at hfuel
    simpa using hfuel
  · rw [hq1]; exact hl.tail
  · rw [hq1]; exact hl.nodup
  · rw [hq2]; exact hl.fifo
  · intro hok
    exact (SyncInv_run n m hM acts _ s [] (Inv_init n m hm) (SyncInv_init n m) hok h).acc

/-- Instance of `fifo_of_appended`: two jobs appended, the first of them popped. -/
theorem fifo_of_appended_popTrace :
    ∃ s, run (sysInit 2 3) popTrace = some s ∧
      s.appended = [(7, 8), (9, 10)] ∧ s.popped = [(7, 8)] ∧
      (∃ q : List (Addr × xserver_job),
        (∀ fuel, s.pool.queue_cur_job_num.toNat ≤ fuel →
          readQueue s.heap s.pool.queue_head fuel = some q) ∧
        s.pool.queue_tail = (q.map Prod.fst).getLast? ∧
        (q.map Prod.fst).Nodup ∧
        s.appended = s.popped ++ q.map (fun e => (e.2.callback, e.2.args))) ∧
      ((∀ a ∈ popTrace, a.syncOk = true) → (s.accepted ++ inflightJobs s).Perm s.appended) :=
  ⟨_, rfl, rfl, rfl, fifo_of_appended 2 3 popTrace _ (by decide) (by decide) rfl⟩

/-- Lines 73-80 on failure: for positive `thread_number` and
`queue_max_job_num`, when the pool record has been allocated and the
initialisation of the mutex or of one of the three condition variables fails,
`threadpool_init` does not return: it ends the process through
`exit(EXIT_FAILURE)`. -/
theorem threadpool_init_primitive_failure (env : InitEnv) (n m : Int) (hn : 0 < n) (hm : 0 < m)
    (halloc : env.pool_alloc = true)
    (hfail : env.mutex_init = false ∨ env.cond_queue_empty = false ∨
      env.cond_queue_not_full = false ∨ env.cond_queue_not_empty = false) :
    threadpool_init env n m = .process_exit := by
  unfold threadpool_init
  rw [if_neg (by omega), if_neg (by omega)]
  simp only [halloc, not_true_eq_false, if_false]
  rcases hfail with e | e | e | e
  · simp [e]
  · cases env.mutex_init <;> simp [e]
  · cases env.mutex_init <;> cases env.cond_queue_empty <;> simp [e]
  · cases env.mutex_init <;> cases env.cond_queue_empty <;>
      cases env.cond_queue_not_full <;> simp [e]

/-- Instance of `threadpool_init_primitive_failure`: the third condition
variable fails for a pool of 4 workers. -/
theorem threadpool_init_cond_failure :
    threadpool_init condFailEnv 4 100 = .process_exit :=
  threadpool_init_primitive_failure condFailEnv 4 100 (by decide) (by decide) rfl
    (Or.inr (Or.inr (Or.inr rfl)))

/-- C1, the failing input. Pool of one worker and capacity 1: the call
`threadpool_add_job(pool, 7, 8)` takes the lock, links its record (address 5)
by lines 146-157 and, its `pthread_mutex_unlock` failing at line 159, returns
-1; the worker then takes the lock and pops that record. The only call made
has returned -1, no call has returned 0 and none is between line 159 and its
`return 0`, so that no pair has been appended by a successful call; yet the
sequence of popped pairs is `[(7, 8)]`, which is not a prefix of the pairs
appended by successful calls. -/
theorem C1_pops_job_of_failed_submit :
    ∃ s, run (sysInit 1 1) [.call_add 7 8, .add_enter 0 true (some 5) false,
        .worker_enter 0 true true none] = some s ∧
      s.nprod = 1 ∧ s.producers 0 = .returned (-1) ∧
      s.accepted = [] ∧ inflightJobs s = [] ∧
      s.appended = [(7, 8)] ∧ s.popped = [(7, 8)] ∧
      s.workers 0 = .holding (some 5) ∧
      s.pool.queue_cur_job_num = 0 ∧ s.pool.queue_head = none ∧
      ¬ s.popped <+: s.accepted ++ inflightJobs s :=
  ⟨_, rfl, rfl, rfl, rfl, rfl, rfl, rfl, rfl, rfl, rfl, by decide⟩

/-- C2. Shutdown completes all accepted work: in every run in which each
lock, unlock and condition wait succeeds, once a call of `threadpool_destroy`
has returned 0 the pairs run by the workers are, with multiplicity, exactly
the pairs appended, which are the pairs of the calls that returned 0 together
with those of the calls that have appended and not yet returned; the queue is
empty, every worker has exited and no worker holds a popped job. -/
theorem C2_shutdown_completes (n m : Int) (acts : List Action) (s : Sys) (d : Nat)
    (hm : 0 < m) (hM : m ≤ INT_MAX)
    (hok : ∀ a ∈ acts, a.syncOk = true)
    (h : run (sysInit n m) acts = some s) (hd : s.destroyers d = .returned 0) :
    s.executed.Perm (s.accepted ++ inflightJobs s) ∧
    s.executed.Perm s.appended ∧
    s.executed.length = s.accepted.length + (inflightJobs s).length ∧
    s.pool.queue_cur_job_num = 0 ∧ s.pool.queue_head = none ∧ s.pool.queue_tail = none ∧
    (∀ i : Nat, (i : Int) < n → s.workers i = .exited) ∧
    (∀ i job, s.workers i ≠ .holding job) := by
  obtain ⟨l, hl⟩ := Inv_reachable n m hm hM acts s h
  have h2 := SyncInv_run n m hM acts _ s [] (Inv_init n m hm) (SyncInv_init n m) hok h
  have hdr : (s.destroyers d).drained = true := by rw [hd]; rfl
  have hnil : l = [] := (hl.close (hl.drained d hdr)).2
  subst hnil
  have hex := hl.returned d hd
  have hheld : heldJobs s n.toNat = [] := by
    unfold heldJobs
    rw [List.flatMap_eq_nil_iff]
    intro i hi
    rw [hex i (by have := List.mem_range.mp hi; omega)]
    rfl
  have hpop : s.appended = s.popped := by
    have := hl.fifo
    simpa using this
  have he : s.executed.Perm s.appended := by
    have := h2.exec
    rw [hheld, List.append_nil] at this
    rw [hpop]
    exact this
  have ha : s.executed.Perm (s.accepted ++ inflightJobs s) := he.trans h2.acc.symm
  refine ⟨ha, he, ?_, ?_, hl.chain, ?_, hex, ?_⟩
  · rw [ha.length_eq, List.length_append]
  · rw [hl.len]; rfl
  · rw [hl.tail]; rfl
  · intro i job hi
    by_cases hin : (i : Int) < n
    · rw [hex i hin] at hi
      simp at hi
    · rw [hl.wbound i hin] at hi
      simp at hi

/-- Witness of C2: the run `shutdownTrace`. -/
theorem C2_shutdown_completes_witness :
    ∃ s, run (sysInit 4 100) shutdownTrace = some s ∧ s.destroyers 0 = .returned 0 ∧
      s.producers 1 = .returned (-1) ∧ s.accepted = [(7, 8)] ∧ s.executed = [(7, 8)] ∧
      s.executed.Perm (s.accepted ++ inflightJobs s) ∧
      s.executed.Perm s.appended ∧
      s.executed.length = s.accepted.length + (inflightJobs s).length ∧
      s.pool.queue_cur_job_num = 0 ∧ s.pool.queue_head = none ∧ s.pool.queue_tail = none ∧
      (∀ i : Nat, (i : Int) < 4 → s.workers i = .exited) ∧
      (∀ i job, s.workers i ≠ .holding job) :=
  ⟨_, rfl, rfl, rfl, rfl, rfl,
    C2_shutdown_completes 4 100 shutdownTrace _ 0 (by decide) (by decide) (by decide) rfl rfl⟩

/-- C3. Length bound: for positive `thread_number` and `queue_max_job_num`,
every state reached from the state built by `threadpool_init` satisfies
`0 <= queue_cur_job_num <= queue_max_job_num`. -/
theorem C3_length_bound (n m : Int) (acts : List Action) (s : Sys) (hn : 0 < n) (hm : 0 < m)
    (hM : m ≤ INT_MAX) (h : run (sysInit n m) acts = some s) :
    0 ≤ s.pool.queue_cur_job_num ∧ s.pool.queue_cur_job_num ≤ s.pool.queue_max_job_num := by
  have _ := hn
  obtain ⟨l, hl⟩ := Inv_reachable n m hm hM acts s h
  rw [hl.len, hl.mx]
  exact ⟨by omega, hl.le_max⟩

/-- Witness of C3: the full queue of capacity 1 after one submission. -/
theorem C3_length_bound_witness :
    ∃ s, run (sysInit 2 1) [.call_add 7 8, .add_enter 0 true (some 5) true] = some s ∧
      s.pool.queue_cur_job_num = 1 ∧
      0 ≤ s.pool.queue_cur_job_num ∧ s.pool.queue_cur_job_num ≤ s.pool.queue_max_job_num :=
  ⟨_, rfl, rfl,
    C3_length_bound 2 1 [.call_add 7 8, .add_enter 0 true (some 5) true] _ (by decide)
      (by decide) (by decide) rfl⟩

/-- C4. Empty-queue representation: in every state reached from the state
built by `threadpool_init`, `queue_head == NULL` iff `queue_tail == NULL` iff
`queue_cur_job_num == 0`. -/
theorem C4_empty_representation (n m : Int) (acts : List Action) (s : Sys) (hm : 0 < m)
    (hM : m ≤ INT_MAX) (h : run (sysInit n m) acts = some s) :
    (s.pool.queue_head = none ↔ s.pool.queue_tail = none) ∧
    (s.pool.queue_tail = none ↔ s.pool.queue_cur_job_num = 0) := by
  obtain ⟨l, hl⟩ := Inv_reachable n m hm hM acts s h
  rw [hl.len, hl.tail]
  cases l with
  | nil =>
    have hh : s.pool.queue_head = none := hl.chain
    simp [hh]
  | cons a l' =>
    have hh : s.pool.queue_head = some a := hl.chain.1
    have hlast : (a :: l').getLast? ≠ none := by
      simp [List.getLast?_eq_none_iff]
    simp only [hh, hlast, List.length_cons, Nat.cast_add, Nat.cast_one]
    constructor
    · simp
    · constructor
      · intro e; exact absurd e (by simp)
      · intro e; omega

/-- Witness of C4: the one-record queue left by `popTrace`. -/
theorem C4_empty_representation_witness :
    ∃ s, run (sysInit 2 3) popTrace = some s ∧ s.pool.queue_head = some 6 ∧
      s.pool.queue_tail = some 6 ∧ s.pool.queue_cur_job_num = 1 ∧
      (s.pool.queue_head = none ↔ s.pool.queue_tail = none) ∧
      (s.pool.queue_tail = none ↔ s.pool.queue_cur_job_num = 0) :=
  ⟨_, rfl, rfl, rfl, rfl, C4_empty_representation 2 3 popTrace _ (by decide) (by decide) rfl⟩

/-- C5. Submit on a closed queue is rejected without effect: in every memory
state whose `queue_close` is set, whatever the queue length and whatever the
results of the lock, of `malloc` and of the unlock, a call of
`threadpool_add_job` with a non-null callback returns -1 and leaves the pool
record and the job records as they were; so does a call that wakes up from
its wait on `queue_not_full`. -/
theorem C5_closed_queue_rejects (mem : Mem) (callback args : Nat) (lock_ok : Bool)
    (job : Option Addr) (unlock_ok : Bool) (hcb : callback ≠ 0)
    (hclose : mem.pool.queue_close ≠ 0) :
    threadpool_add_job mem callback args lock_ok job unlock_ok = .rejected mem ∧
    add_job_locked mem callback args job unlock_ok = .rejected mem ∧
    (threadpool_add_job mem callback args lock_ok job unlock_ok).rc = some (-1) ∧
    ((threadpool_add_job mem callback args lock_ok job unlock_ok).mem mem).pool = mem.pool := by
  have h2 : add_job_locked mem callback args job unlock_ok = .rejected mem := by
    unfold add_job_locked
    rw [if_neg (fun hw => hclose hw.2), if_pos hclose]
  have h1 : threadpool_add_job mem callback args lock_ok job unlock_ok = .rejected mem := by
    unfold threadpool_add_job
    rw [if_neg hcb]
    cases lock_ok
    · simp
    · simp [h2]
  refine ⟨h1, h2, ?_, ?_⟩
  · rw [h1]; rfl
  · rw [h1]; rfl

/-- Witness of C5: a submission to the closed full queue `closedFullMem`. -/
theorem C5_closed_queue_rejects_witness :
    threadpool_add_job closedFullMem 3 4 true (some 9) true = .rejected closedFullMem ∧
    add_job_locked closedFullMem 3 4 (some 9) true = .rejected closedFullMem ∧
    (threadpool_add_job closedFullMem 3 4 true (some 9) true).rc = some (-1) ∧
    ((threadpool_add_job closedFullMem 3 4 true (some 9) true).mem closedFullMem).pool
      = closedFullMem.pool :=
  C5_closed_queue_rejects closedFullMem 3 4 true (some 9) true (by decide) (by decide)

/-- C6, the failing input. On an open empty queue of capacity 1, with the lock
taken and the record allocated at address 5, a failing `pthread_mutex_unlock`
at line 159 makes `threadpool_add_job` return -1 although the job has been
appended: the length is 1 and the record is at the head. In the system the
call has returned -1, the record stays queued, and a worker that takes the
mutex afterwards pops and runs it. -/
theorem C6_failed_submit_enqueues :
    (threadpool_add_job ⟨init_pool 1 1, Heap.empty⟩ 7 8 true (some 5) false).rc = some (-1) ∧
    ((threadpool_add_job ⟨init_pool 1 1, Heap.empty⟩ 7 8 true (some 5) false).mem
        ⟨init_pool 1 1, Heap.empty⟩).pool.queue_cur_job_num = 1 ∧
    ((threadpool_add_job ⟨init_pool 1 1, Heap.empty⟩ 7 8 true (some 5) false).mem
        ⟨init_pool 1 1, Heap.empty⟩).pool.queue_head = some 5 ∧
    ((threadpool_add_job ⟨init_pool 1 1, Heap.empty⟩ 7 8 true (some 5) false).mem
        ⟨init_pool 1 1, Heap.empty⟩).heap 5 = some { callback := 7, args := 8, next := none } ∧
    (∃ s, run (sysInit 1 1) [.call_add 7 8, .add_enter 0 true (some 5) false,
        .worker_enter 0 true true none, .worker_run 0] = some s ∧
      s.producers 0 = .returned (-1) ∧ s.accepted = [] ∧ s.executed = [(7, 8)]) :=
  ⟨by decide, by decide, by decide, by decide, _, rfl, rfl, rfl, rfl⟩

/-- C8. Close flags are monotone: along every run, from whatever state it
starts, a `queue_close` that is set stays set and a `pool_close` that is set
stays set. -/
theorem C8_close_flags_monotone (acts : List Action) (s s' : Sys)
    (h : run s acts = some s') :
    (s.pool.queue_close ≠ 0 → s'.pool.queue_close ≠ 0) ∧
    (s.pool.pool_close ≠ 0 → s'.pool.pool_close ≠ 0) := by
  induction acts generalizing s with
  | nil =>
    simp only [run, Option.some.injEq] at h
    subst h
    exact ⟨id, id⟩
  | cons a as ih =>
    simp only [run] at h
    split at h
    · simp at h
    · rename_i s1 h1
      obtain ⟨g1, g2⟩ := step_flags s s1 a h1
      obtain ⟨k1, k2⟩ := ih s1 h
      exact ⟨fun e => k1 (g1 e), fun e => k2 (g2 e)⟩

/-- Witness of C8: the rest of the shutdown from `drainingSys`, in which
a submission is made as well. -/
theorem C8_close_flags_monotone_witness :
    ∃ s', run drainingSys [.destroy_enter 0 true true, .call_add 7 8,
        .add_enter 0 true (some 5) true, .destroy_broadcast_not_empty 0] = some s' ∧
      s'.pool.queue_close = 1 ∧ s'.pool.pool_close = 1 ∧
      (drainingSys.pool.queue_close ≠ 0 → s'.pool.queue_close ≠ 0) ∧
      (drainingSys.pool.pool_close ≠ 0 → s'.pool.pool_close ≠ 0) :=
  ⟨_, rfl, rfl, rfl,
    C8_close_flags_monotone [.destroy_enter 0 true true, .call_add 7 8,
      .add_enter 0 true (some 5) true, .destroy_broadcast_not_empty 0] drainingSys _ rfl⟩

/-- C9. Backpressure condition: with the mutex held, `threadpool_add_job`
suspends on `queue_not_full` exactly when `queue_cur_job_num ==
queue_max_job_num` and `queue_close` is clear, at its first test and at every
test after a wake-up; below capacity it never waits; and while the queue is
full and open a step of a submitting call changes neither the pool record nor
the job records nor the sequence of appended jobs, the call being suspended
whenever it took the lock. -/
theorem C9_backpressure (mem : Mem) (callback args : Nat) (job : Option Addr)
    (unlock_ok : Bool) :
    (add_job_locked mem callback args job unlock_ok = .wait ↔
      (mem.pool.queue_cur_job_num = mem.pool.queue_max_job_num ∧ mem.pool.queue_close = 0)) ∧
    (callback ≠ 0 →
      (threadpool_add_job mem callback args true job unlock_ok = .wait ↔
        (mem.pool.queue_cur_job_num = mem.pool.queue_max_job_num ∧
          mem.pool.queue_close = 0))) ∧
    (mem.pool.queue_cur_job_num < mem.pool.queue_max_job_num →
      add_job_locked mem callback args job unlock_ok ≠ .wait) ∧
    (∀ (s s' : Sys) (i : Nat) (lock_ok : Bool),
      s.pool.queue_cur_job_num = s.pool.queue_max_job_num → s.pool.queue_close = 0 →
      step s (.add_enter i lock_ok job unlock_ok) = some s' →
      s'.pool = s.pool ∧ s'.heap = s.heap ∧ s'.appended = s.appended ∧
      (lock_ok = true → ∃ c x, s'.producers i = .waiting c x)) := by
  have h1 : add_job_locked mem callback args job unlock_ok = .wait ↔
      (mem.pool.queue_cur_job_num = mem.pool.queue_max_job_num ∧ mem.pool.queue_close = 0) := by
    unfold add_job_locked
    constructor
    · intro hw
      by_contra hc
      rw [if_neg hc] at hw
      split at hw
      · simp at hw
      · split at hw
        · simp at hw
        · split at hw <;> simp at hw
    · intro hc
      rw [if_pos hc]
  refine ⟨h1, ?_, ?_, ?_⟩
  · intro hcb
    unfold threadpool_add_job
    rw [if_neg hcb]
    simpa using h1
  · intro hlt hw
    have := (h1.mp hw).1
    omega
  · intro s s' i lock_ok hfull hopen hstep
    unfold step at hstep
    split at hstep
    · simp at hstep
    · simp only at hstep
      unfold step_add_enter at hstep
      split at hstep
      · simp at hstep
      · have hwait : ∀ c x, add_job_locked ⟨s.pool, s.heap⟩ c x job unlock_ok = .wait := by
          intro c x
          unfold add_job_locked
          rw [if_pos ⟨hfull, hopen⟩]
        split at hstep
        · rename_i c x hp
          unfold threadpool_add_job at hstep
          split at hstep
          · simp [add_apply] at hstep
          · cases lock_ok
            · simp only [Bool.false_eq_true, not_false_eq_true, if_true, add_apply,
                Option.some.injEq] at hstep
              subst hstep
              exact ⟨rfl, rfl, rfl, fun e => absurd e (by simp)⟩
            · simp only [not_true_eq_false, if_false, hwait, add_apply,
                Option.some.injEq] at hstep
              subst hstep
              exact ⟨rfl, rfl, rfl, fun _ => ⟨c, x, setAt_same _ _ _⟩⟩
        · rename_i c x hp
          simp only [hwait, add_apply, Option.some.injEq] at hstep
          subst hstep
          exact ⟨rfl, rfl, rfl, fun _ => ⟨c, x, setAt_same _ _ _⟩⟩
        · simp at hstep

/-- Witness of C9: a submission to the open full queue `openFullMem` waits,
and in the system a second submission to a full queue of capacity 1 is
suspended without enqueuing. -/
theorem C9_backpressure_witness :
    add_job_locked openFullMem 3 4 (some 9) true = .wait ∧
    threadpool_add_job openFullMem 3 4 true (some 9) true = .wait ∧
    ∃ s s', run (sysInit 1 1) [.call_add 7 8, .add_enter 0 true (some 5) true,
        .call_add 9 10] = some s ∧
      step s (.add_enter 1 true (some 9) true) = some s' ∧
      s'.pool = s.pool ∧ s'.heap = s.heap ∧ s'.appended = s.appended ∧
      (true = true → ∃ c x, s'.producers 1 = .waiting c x) :=
  ⟨(C9_backpressure openFullMem 3 4 (some 9) true).1.mpr (by decide),
   ((C9_backpressure openFullMem 3 4 (some 9) true).2.1 (by decide)).mpr (by decide),
   _, _, rfl, rfl,
   (C9_backpressure openFullMem 3 4 (some 9) true).2.2.2 _ _ 1 true rfl rfl rfl⟩

/-- C10, the failing input. With the pool record allocated and
`pthread_mutex_init` failing, `threadpool_init(1, 1)` ends the process through
`exit(EXIT_FAILURE)` (lines 73-76); it does not return `NULL`, which is what
the header comment of the function gives as its result on failure and what
the two `malloc` failure paths return. -/
theorem C10_init_exits_on_mutex_failure :
    threadpool_init mutexFailEnv 1 1 = .process_exit ∧
    ∀ released spawns, threadpool_init mutexFailEnv 1 1 ≠ .returned_null released spawns := by
  have h : threadpool_init mutexFailEnv 1 1 = .process_exit := by decide
  refine ⟨h, ?_⟩
  intro released spawns hc
  rw [h] at hc
  cases hc

/-- C11. Init postcondition: for positive `thread_number` `n` and
`queue_max_job_num` `m`, when both allocations and the four initialisations
succeed, `threadpool_init` returns a pool record with `thread_number == n`,
`queue_max_job_num == m`, `queue_cur_job_num == 0`, `queue_head ==
queue_tail == NULL` and both close flags 0, and it issues exactly `n` calls
`pthread_create(&pthreads[i], NULL, threadpool_worker, pool)`, for `i` from 0
to `n - 1`; these are the workers of the initial state of the system, each at
the top of the loop of `threadpool_worker` on that pool. -/
theorem C11_init_postcondition (env : InitEnv) (n m : Int) (hn : 0 < n) (hm : 0 < m)
    (h1 : env.pool_alloc = true) (h2 : env.mutex_init = true)
    (h3 : env.cond_queue_empty = true) (h4 : env.cond_queue_not_full = true)
    (h5 : env.cond_queue_not_empty = true) (h6 : env.pthreads_alloc = true) :
    ∃ p spawns, threadpool_init env n m = .returned_pool p spawns ∧
      p.thread_number = n ∧ p.queue_max_job_num = m ∧ p.queue_cur_job_num = 0 ∧
      p.queue_head = none ∧ p.queue_tail = none ∧ p.queue_close = 0 ∧ p.pool_close = 0 ∧
      spawns = List.range n.toNat ∧ (spawns.length : Int) = n ∧
      p = (sysInit n m).pool ∧
      ∀ i : Nat, (i ∈ spawns ↔ (sysInit n m).workers i = .top) := by
  have hr : threadpool_init env n m
      = .returned_pool (init_pool n m) (List.range n.toNat) := by
    unfold threadpool_init
    rw [if_neg (by omega), if_neg (by omega)]
    simp [h1, h2, h3, h4, h5, h6, init_pool]
  obtain ⟨_, _, _, _, hw⟩ := threadpool_init_sysInit env n m _ _ hr
  refine ⟨_, _, hr, rfl, rfl, rfl, rfl, rfl, rfl, rfl, rfl, ?_, rfl, hw⟩
  rw [List.length_range]
  omega

/-- Witness of C11: 4 workers on a queue of capacity 100. -/
theorem C11_init_postcondition_witness :
    ∃ p spawns, threadpool_init allOkEnv 4 100 = .returned_pool p spawns ∧
      p.thread_number = 4 ∧ p.queue_max_job_num = 100 ∧ p.queue_cur_job_num = 0 ∧
      p.queue_head = none ∧ p.queue_tail = none ∧ p.queue_close = 0 ∧ p.pool_close = 0 ∧
      spawns = List.range (4 : Int).toNat ∧ (spawns.length : Int) = 4 ∧
      p = (sysInit 4 100).pool ∧
      ∀ i : Nat, (i ∈ spawns ↔ (sysInit 4 100).workers i = .top) :=
  C11_init_postcondition allOkEnv 4 100 (by decide) (by decide) rfl rfl rfl rfl rfl rfl

/-- C12. Init partial failure: for positive `thread_number` and
`queue_max_job_num`, when the pool record has been allocated and initialised
and the allocation of the thread handles (line 84) fails, `threadpool_init`
returns `NULL`, has freed the pool record and has issued no `pthread_create`. -/
theorem C12_init_partial_failure (env : InitEnv) (n m : Int) (hn : 0 < n) (hm : 0 < m)
    (h1 : env.pool_alloc = true) (h2 : env.mutex_init = true)
    (h3 : env.cond_queue_empty = true) (h4 : env.cond_queue_not_full = true)
    (h5 : env.cond_queue_not_empty = true) (h6 : env.pthreads_alloc = false) :
    threadpool_init env n m = .returned_null true [] := by
  unfold threadpool_init
  rw [if_neg (by omega), if_neg (by omega)]
  simp [h1, h2, h3, h4, h5, h6]

/-- Witness of C12: the allocation of the handles of 4 workers fails. -/
theorem C12_init_partial_failure_witness :
    threadpool_init pthreadsFailEnv 4 100 = .returned_null true [] :=
  C12_init_partial_failure pthreadsFailEnv 4 100 (by decide) (by decide) rfl rfl rfl rfl rfl rfl

/-- C13. Not-full is broadcast exactly on the full-to-not-full transition: in
every state reached from the state built by `threadpool_init`, a stretch of
`threadpool_worker` that pops a job lowers `queue_cur_job_num` by one and
broadcasts `queue_not_full` (line 220) if and only if the queue was full
before the pop, that is if and only if the length after the pop is
`queue_max_job_num - 1`. -/
theorem C13_not_full_broadcast (n m : Int) (acts : List Action) (s : Sys) (hm : 0 < m)
    (hM : m ≤ INT_MAX) (h : run (sysInit n m) acts = some s)
    (acq ul : Bool) (m' : Mem) (job : Option Addr) (se bnf ul' : Bool)
    (hpop : threadpool_worker ⟨s.pool, s.heap⟩ acq ul = .popped m' job se bnf ul') :
    m'.pool.queue_cur_job_num = s.pool.queue_cur_job_num - 1 ∧
    (bnf = true ↔ s.pool.queue_cur_job_num = s.pool.queue_max_job_num) ∧
    (bnf = true ↔ m'.pool.queue_cur_job_num = s.pool.queue_max_job_num - 1) := by
  obtain ⟨l, hl⟩ := Inv_reachable n m hm hM acts s h
  obtain ⟨_, _, hne, hp, _, _, hb, _⟩ := worker_popped_inv _ _ _ _ _ _ _ _ hpop
  have hmax : (l.length : Int) ≤ INT_MAX := le_trans hl.le_max hM
  obtain ⟨a, l', rfl, _, _, _, e2, _, _, e5, _, _⟩ :=
    pop_job_spec s.pool m'.pool s.heap l job hl.chain hl.len hl.tail hmax hne hp
  have hlen := hl.len
  have hle := hl.le_max
  simp only [List.length_cons, Nat.cast_add, Nat.cast_one] at hlen hle
  have hw : wrap32 (m'.pool.queue_max_job_num - 1) = m - 1 := by
    rw [e2, hl.mx]
    simp only [INT_MAX] at hM
    exact wrap32_id _ (by omega) (by omega)
  rw [hb, hw, e5, hlen, hl.mx]
  simp only [decide_eq_true_eq]
  refine ⟨by omega, ?_, trivial⟩
  constructor <;> intro e <;> omega

/-- Witness of C13: the pop from the full queue of capacity 2 left by `twoSubmitsTrace`. -/
theorem C13_not_full_broadcast_witness :
    ∃ s, run (sysInit 1 2) twoSubmitsTrace = some s ∧
      ∃ m' job se bnf ul',
        threadpool_worker ⟨s.pool, s.heap⟩ true true = .popped m' job se bnf ul' ∧
        s.pool.queue_cur_job_num = 2 ∧ bnf = true ∧
        m'.pool.queue_cur_job_num = s.pool.queue_cur_job_num - 1 ∧
        (bnf = true ↔ s.pool.queue_cur_job_num = s.pool.queue_max_job_num) ∧
        (bnf = true ↔ m'.pool.queue_cur_job_num = s.pool.queue_max_job_num - 1) :=
  ⟨_, rfl, _, _, _, _, _, rfl, rfl, rfl,
    C13_not_full_broadcast 1 2 twoSubmitsTrace _ (by decide) (by decide) rfl true true _ _ _ _ _ rfl⟩

/-- C14. No producer is stranded: in every state reached from the state built
by `threadpool_init`, a call of `threadpool_add_job` that is suspended on
`queue_not_full` and has not been woken sees `queue_cur_job_num ==
queue_max_job_num`; hence while the queue has a free slot no call is
suspended. -/
theorem C14_no_producer_stranded (n m : Int) (acts : List Action) (s : Sys) (hm : 0 < m)
    (hM : m ≤ INT_MAX) (h : run (sysInit n m) acts = some s) :
    (∀ i c x, s.producers i = .waiting c x →
      s.pool.queue_cur_job_num = s.pool.queue_max_job_num) ∧
    (s.pool.queue_cur_job_num < s.pool.queue_max_job_num →
      ∀ i c x, s.producers i ≠ .waiting c x) := by
  have hw := WaitInv_reachable n m hm hM acts s h
  refine ⟨hw.prod, ?_⟩
  intro hlt i c x hi
  have := hw.prod i c x hi
  omega

/-- Witness of C14: the second submission of `twoSubmitsTrace`, suspended on a
queue of capacity 1. -/
theorem C14_no_producer_stranded_witness :
    ∃ s, run (sysInit 1 1) twoSubmitsTrace = some s ∧ s.producers 1 = .waiting 9 10 ∧
      (∀ i c x, s.producers i = .waiting c x →
        s.pool.queue_cur_job_num = s.pool.queue_max_job_num) ∧
      (s.pool.queue_cur_job_num < s.pool.queue_max_job_num →
        ∀ i c x, s.producers i ≠ .waiting c x) :=
  ⟨_, rfl, rfl, C14_no_producer_stranded 1 1 twoSubmitsTrace _ (by decide) (by decide) rfl⟩

/-- C15. No worker is joined while it could still be blocked: in every state
reached from the state built by `threadpool_init` in which a call of
`threadpool_destroy` has set `pool_close` and issued its broadcast on
`queue_not_empty` (line 266), and in every state reached from there, no worker
is suspended on `queue_not_empty`; and whenever `pool_close` is set, a worker
that runs its next stretch exits without waiting. -/
theorem C15_no_worker_blocked (n m : Int) (acts : List Action) (s : Sys) (hm : 0 < m)
    (hM : m ≤ INT_MAX) (h : run (sysInit n m) acts = some s) :
    (∀ d, (s.destroyers d).announced = true →
      s.pool.pool_close ≠ 0 ∧
      ∀ (later : List Action) (s2 : Sys), run s later = some s2 →
        ∀ i, s2.workers i ≠ .waiting) ∧
    (s.pool.pool_close ≠ 0 →
      ∀ acq ul, threadpool_worker ⟨s.pool, s.heap⟩ acq ul = .exit_thread) := by
  obtain ⟨l, hl⟩ := Inv_reachable n m hm hM acts s h
  have hw := WaitInv_reachable n m hm hM acts s h
  refine ⟨?_, ?_⟩
  · intro d hd
    refine ⟨hl.drained d (destroy_announced_drained _ hd), ?_⟩
    intro later s2 h2
    have hd2 := run_announced n m hM d later s s2 l hl h2 hd
    have hw2 := WaitInv_run n m hM later s s2 l hl hw h2
    exact hw2.work d hd2
  · intro hpc acq ul
    unfold threadpool_worker
    cases acq
    · simp
    · simp only [Bool.true_eq_false, not_false_eq_true, not_true_eq_false, if_false]
      unfold worker_locked
      rw [if_neg (fun e => hpc e.2), if_pos hpc]

/-- Witness of C15: both workers suspended in `wakeTrace` are woken by the
broadcast. -/
theorem C15_no_worker_blocked_witness :
    ∃ s, run (sysInit 2 1) wakeTrace = some s ∧
      s.destroyers 0 = .broadcast_done ∧ s.workers 0 = .woken ∧ s.workers 1 = .woken ∧
      (∀ d, (s.destroyers d).announced = true →
        s.pool.pool_close ≠ 0 ∧
        ∀ (later : List Action) (s2 : Sys), run s later = some s2 →
          ∀ i, s2.workers i ≠ .waiting) ∧
      (s.pool.pool_close ≠ 0 →
        ∀ acq ul, threadpool_worker ⟨s.pool, s.heap⟩ acq ul = .exit_thread) :=
  ⟨_, rfl, rfl, rfl, rfl, C15_no_worker_blocked 2 1 wakeTrace _ (by decide) (by decide) rfl⟩

/-- C16. The drain waiter is always woken: in every state reached from the
state built by `threadpool_init`, a call of `threadpool_destroy` that is
suspended on `queue_empty` and has not been woken sees `queue_cur_job_num !=
0`; a stretch of `threadpool_worker` that pops a job signals `queue_empty`
(line 215) if and only if it leaves the length 0, and after a step of a worker
that leaves the length 0 no call is suspended on `queue_empty`. -/
theorem C16_drain_waiter_woken (n m : Int) (acts : List Action) (s : Sys) (hm : 0 < m)
    (hM : m ≤ INT_MAX) (h : run (sysInit n m) acts = some s) :
    (∀ d, s.destroyers d = .waiting → s.pool.queue_cur_job_num ≠ 0) ∧
    (∀ acq ul m' job se bnf ul',
      threadpool_worker ⟨s.pool, s.heap⟩ acq ul = .popped m' job se bnf ul' →
      (se = true ↔ m'.pool.queue_cur_job_num = 0)) ∧
    (∀ i acq ul tgt s', step s (.worker_enter i acq ul tgt) = some s' →
      s'.pool.queue_cur_job_num = 0 → ∀ d, s'.destroyers d ≠ .waiting) := by
  obtain ⟨l, hl⟩ := Inv_reachable n m hm hM acts s h
  have hw := WaitInv_reachable n m hm hM acts s h
  refine ⟨hw.drain, ?_, ?_⟩
  · intro acq ul m' job se bnf ul' hpop
    obtain ⟨_, _, _, _, _, hse, _, _⟩ := worker_popped_inv _ _ _ _ _ _ _ _ hpop
    rw [hse]
    simp
  · intro i acq ul tgt s' hstep h0 d hd
    have hw' := WaitInv_step n m s s' l _ hM hl hw hstep
    exact hw'.drain d hd h0

/-- Witness of C16: the call suspended in `drainTrace` is woken by the pop
that empties the queue. -/
theorem C16_drain_waiter_woken_witness :
    ∃ s s', run (sysInit 1 1) drainTrace = some s ∧ s.destroyers 0 = .waiting ∧
      step s (.worker_enter 0 true true (some 0)) = some s' ∧ s'.destroyers 0 = .woken ∧
      (∀ d, s.destroyers d = .waiting → s.pool.queue_cur_job_num ≠ 0) ∧
      (∀ acq ul m' job se bnf ul',
        threadpool_worker ⟨s.pool, s.heap⟩ acq ul = .popped m' job se bnf ul' →
        (se = true ↔ m'.pool.queue_cur_job_num = 0)) ∧
      (∀ i acq ul tgt s', step s (.worker_enter i acq ul tgt) = some s' →
        s'.pool.queue_cur_job_num = 0 → ∀ d, s'.destroyers d ≠ .waiting) :=
  ⟨_, _, rfl, rfl, rfl, rfl,
    C16_drain_waiter_woken 1 1 drainTrace _ (by decide) (by decide) rfl⟩

/-- C17, counterexample. With one job queued and `pool_close` clear, a worker
whose `pthread_mutex_lock` fails exits at line 186: a worker has exited while
a job is still queued. -/
theorem C17_worker_exits_with_job_queued :
    ∃ s, run (sysInit 1 1) [.call_add 7 8, .add_enter 0 true (some 5) true,
        .worker_enter 0 false true none] = some s ∧
      s.workers 0 = .exited ∧ s.pool.queue_cur_job_num = 1 ∧ s.pool.queue_head = some 5 ∧
      s.pool.pool_close = 0 :=
  ⟨_, rfl, rfl, rfl, rfl, rfl⟩

/-- C17, amended. Workers are stopped only after the drain: in every state
reached from the state built by `threadpool_init`, if `pool_close` is set then
`queue_close` is set and the queue is empty (`queue_cur_job_num == 0`,
`queue_head == queue_tail == NULL`); consequently a worker that has taken the
mutex and exits (the test of line 198) does so with an empty queue, and the
loop of lines 282-286 of `threadpool_destroy` runs zero iterations and frees
no record. -/
theorem C17_stopped_after_drain (n m : Int) (acts : List Action) (s : Sys) (hm : 0 < m)
    (hM : m ≤ INT_MAX) (h : run (sysInit n m) acts = some s) :
    (s.pool.pool_close ≠ 0 →
      s.pool.queue_close ≠ 0 ∧ s.pool.queue_cur_job_num = 0 ∧ s.pool.queue_head = none ∧
      s.pool.queue_tail = none) ∧
    (∀ ul, threadpool_worker ⟨s.pool, s.heap⟩ true ul = .exit_thread →
      s.pool.pool_close ≠ 0 ∧ s.pool.queue_cur_job_num = 0) ∧
    (s.pool.pool_close ≠ 0 →
      ∀ fuel, free_queue s.heap s.pool.queue_head fuel = some (s.heap, 0)) ∧
    (∀ d k, s.destroyers d = .joining k →
      ∀ fuel, free_queue s.heap s.pool.queue_head fuel = some (s.heap, 0)) := by
  obtain ⟨l, hl⟩ := Inv_reachable n m hm hM acts s h
  have hclose : s.pool.pool_close ≠ 0 →
      s.pool.queue_close ≠ 0 ∧ s.pool.queue_cur_job_num = 0 ∧ s.pool.queue_head = none ∧
      s.pool.queue_tail = none := by
    intro hpc
    obtain ⟨hq, hnil⟩ := hl.close hpc
    subst hnil
    exact ⟨hq, by rw [hl.len]; rfl, hl.chain, by rw [hl.tail]; rfl⟩
  have hfree : s.pool.pool_close ≠ 0 →
      ∀ fuel, free_queue s.heap s.pool.queue_head fuel = some (s.heap, 0) := by
    intro hpc fuel
    rw [(hclose hpc).2.2.1]
    exact free_queue_none _ _
  refine ⟨hclose, ?_, hfree, ?_⟩
  · intro ul hex
    have hpc : s.pool.pool_close ≠ 0 := by
      intro hpc
      unfold threadpool_worker at hex
      simp only [not_true_eq_false, if_false] at hex
      unfold worker_locked at hex
      split at hex
      · simp at hex
      · rw [if_neg (by simpa using hpc)] at hex
        simp only at hex
        split at hex <;> simp at hex
    exact ⟨hpc, (hclose hpc).2.1⟩
  · intro d k hd
    exact hfree (hl.drained d (by rw [hd]; rfl))

/-- Witness of C17: the state in which the closing call of `wakeTrace` has
set `pool_close`. -/
theorem C17_stopped_after_drain_witness :
    ∃ s, run (sysInit 2 1) wakeTrace = some s ∧ s.pool.pool_close = 1 ∧
      (s.pool.pool_close ≠ 0 →
        s.pool.queue_close ≠ 0 ∧ s.pool.queue_cur_job_num = 0 ∧ s.pool.queue_head = none ∧
        s.pool.queue_tail = none) ∧
      (∀ ul, threadpool_worker ⟨s.pool, s.heap⟩ true ul = .exit_thread →
        s.pool.pool_close ≠ 0 ∧ s.pool.queue_cur_job_num = 0) ∧
      (s.pool.pool_close ≠ 0 →
        ∀ fuel, free_queue s.heap s.pool.queue_head fuel = some (s.heap, 0)) ∧
      (∀ d k, s.destroyers d = .joining k →
        ∀ fuel, free_queue s.heap s.pool.queue_head fuel = some (s.heap, 0)) :=
  ⟨_, rfl, rfl, C17_stopped_after_drain 2 1 wakeTrace _ (by decide) (by decide) rfl⟩

/-- C18, the failing input. A worker that has popped the only queued job and
whose `pthread_mutex_unlock` at line 223 fails leaves through
`CRITICAL_OUT(EXT_FAILURE)`: the stretch ends with the job taken off the
queue and the thread exiting. In the system the job was accepted and popped,
its callback is never invoked and its record is never freed, while
`threadpool_destroy` joins the exited worker and returns 0. -/
theorem C18_popped_job_lost :
    (∃ m', threadpool_worker oneJobMem true false = .popped m' (some 5) true true false ∧
      m'.pool.queue_cur_job_num = 0 ∧ m'.pool.queue_head = none) ∧
    (∃ s, run (sysInit 1 1) lostJobTrace = some s ∧
      s.destroyers 0 = .returned 0 ∧ s.workers 0 = .exited ∧
      s.accepted = [(7, 8)] ∧ s.popped = [(7, 8)] ∧ s.executed = [] ∧
      s.heap 5 = some { callback := 7, args := 8, next := none }) :=
  ⟨⟨_, rfl, rfl, rfl⟩, ⟨_, rfl, rfl, rfl, rfl, rfl, rfl, rfl⟩⟩

/-- C19. The linked list is well formed and never dereferenced at `NULL`: in
every state reached from the state built by `threadpool_init`, following
`next` from `queue_head` visits exactly `queue_cur_job_num` records, all
allocated and no one twice, the last of them is `queue_tail` and its `next` is
`NULL`; hence `threadpool_add_job` (the write to `queue_tail->next`),
`threadpool_worker` (the reads of `queue_head` and `job->next`) and the call
of line 226 on a popped job never touch `NULL` or unallocated memory. -/
theorem C19_list_well_formed (n m : Int) (acts : List Action) (s : Sys) (hm : 0 < m)
    (hM : m ≤ INT_MAX) (h : run (sysInit n m) acts = some s) :
    (∃ q : List (Addr × xserver_job),
      (∀ fuel, s.pool.queue_cur_job_num.toNat ≤ fuel →
        readQueue s.heap s.pool.queue_head fuel = some q) ∧
      (q.length : Int) = s.pool.queue_cur_job_num ∧
      (q.map Prod.fst).Nodup ∧
      s.pool.queue_tail = (q.map Prod.fst).getLast? ∧
      (∀ e, q.getLast? = some e → e.2.next = none)) ∧
    (∀ callback args lock_ok job unlock_ok,
      threadpool_add_job ⟨s.pool, s.heap⟩ callback args lock_ok job unlock_ok ≠ .fault) ∧
    (∀ callback args job unlock_ok,
      add_job_locked ⟨s.pool, s.heap⟩ callback args job unlock_ok ≠ .fault) ∧
    (∀ acquired unlock_ok,
      threadpool_worker ⟨s.pool, s.heap⟩ acquired unlock_ok ≠ .fault) ∧
    (∀ i job, s.workers i = .holding job → run_job s.heap job ≠ none) := by
  obtain ⟨l, hl⟩ := Inv_reachable n m hm hM acts s h
  obtain ⟨q, hq1, _, hq3⟩ := Chain_readQueue s.heap l _ hl.chain
  obtain ⟨hf1, hf2, hf3⟩ := no_fault n m s l hl
  refine ⟨⟨q, ?_, ?_, ?_, ?_, ?_⟩, ?_, hf1, hf2, hf3⟩
  · intro fuel hfuel
    apply hq3
    rw [hl.len] at hfuel
    simpa using hfuel
  · rw [hl.len, ← hq1]
    simp
  · rw [hq1]; exact hl.nodup
  · rw [hq1]; exact hl.tail
  · exact readQueue_last s.heap l.length _ q (hq3 _ (le_refl _))
  · intro callback args lock_ok job unlock_ok hf
    unfold threadpool_add_job at hf
    split at hf
    · simp at hf
    · split at hf
      · simp at hf
      · exact hf1 callback args job unlock_ok hf

/-- Witness of C19: the queue of two records left by `threeJobsTrace`. -/
theorem C19_list_well_formed_witness :
    ∃ s, run (sysInit 1 3) threeJobsTrace = some s ∧
      s.pool.queue_head = some 6 ∧ s.pool.queue_tail = some 7 ∧
      s.pool.queue_cur_job_num = 2 ∧ s.workers 0 = .holding (some 5) ∧
      (∃ q : List (Addr × xserver_job),
        (∀ fuel, s.pool.queue_cur_job_num.toNat ≤ fuel →
          readQueue s.heap s.pool.queue_head fuel = some q) ∧
        (q.length : Int) = s.pool.queue_cur_job_num ∧
        (q.map Prod.fst).Nodup ∧
        s.pool.queue_tail = (q.map Prod.fst).getLast? ∧
        (∀ e, q.getLast? = some e → e.2.next = none)) ∧
      (∀ callback args lock_ok job unlock_ok,
        threadpool_add_job ⟨s.pool, s.heap⟩ callback args lock_ok job unlock_ok ≠ .fault) ∧
      (∀ callback args job unlock_ok,
        add_job_locked ⟨s.pool, s.heap⟩ callback args job unlock_ok ≠ .fault) ∧
      (∀ acquired unlock_ok,
        threadpool_worker ⟨s.pool, s.heap⟩ acquired unlock_ok ≠ .fault) ∧
      (∀ i job, s.workers i = .holding job → run_job s.heap job ≠ none) :=
  ⟨_, rfl, rfl, rfl, rfl, rfl,
    C19_list_well_formed 1 3 threeJobsTrace _ (by decide) (by decide) rfl⟩

end XServer
